import Mathlib

/-!
Verification of the odoo-plugins i18n catalog engine
(`odoo-i18n/scripts/i18n_converter.py` and `odoo-i18n/scripts/i18n_validator.py`).

Strings are embedded as `List Char`; the Python string primitives used by the
code (`strip`, `split`, `splitlines`, `replace`, `startswith`, slicing) are
modelled explicitly below, and each class/function of the source is translated
into a Lean definition of the same name (snake_case kept where Lean allows).
-/

abbrev Str := List Char

/-- Literal helper: a Lean string literal as a `List Char`. -/
def str (s : String) : Str := s.data

/-- Python `str.isspace` / the whitespace set used by `str.strip()` and
`str.split()` with no argument: the Unicode whitespace code points. -/
def pyIsSpace (c : Char) : Bool :=
  decide ((9 ≤ c.toNat ∧ c.toNat ≤ 13) ∨ c.toNat = 0x20 ∨
    (0x1c ≤ c.toNat ∧ c.toNat ≤ 0x1f) ∨ c.toNat = 0x85 ∨ c.toNat = 0xa0 ∨
    c.toNat = 0x1680 ∨ (0x2000 ≤ c.toNat ∧ c.toNat ≤ 0x200a) ∨
    c.toNat = 0x2028 ∨ c.toNat = 0x2029 ∨ c.toNat = 0x202f ∨
    c.toNat = 0x205f ∨ c.toNat = 0x3000)

/-- Python `str.strip()` with no argument: remove leading and trailing
whitespace. -/
def pyStrip (s : Str) : Str :=
  ((s.dropWhile pyIsSpace).reverse.dropWhile pyIsSpace).reverse

/-- The line-break code points recognised by Python `str.splitlines`. -/
def isLineBreakChar (c : Char) : Bool :=
  decide (c.toNat = 10 ∨ c.toNat = 13 ∨ c.toNat = 11 ∨ c.toNat = 12 ∨
    c.toNat = 28 ∨ c.toNat = 29 ∨ c.toNat = 30 ∨ c.toNat = 0x85 ∨
    c.toNat = 0x2028 ∨ c.toNat = 0x2029)

/-- Worker for `pySplitlines`: `acc` is the reversed current line. -/
def pySplitlinesAux (acc : Str) : Str → List Str
  | [] => [acc.reverse]
  | '\r' :: '\n' :: r =>
    acc.reverse :: (match r with | [] => [] | _ :: _ => pySplitlinesAux [] r)
  | c :: r =>
    if isLineBreakChar c then
      acc.reverse :: (match r with | [] => [] | _ :: _ => pySplitlinesAux [] r)
    else
      pySplitlinesAux (c :: acc) r

/-- Python `str.splitlines()`: split at line-break characters (with `\r\n`
counting as one break); a trailing break opens no extra empty line; the empty
string yields no lines. -/
def pySplitlines : Str → List Str
  | [] => []
  | s@(_ :: _) => pySplitlinesAux [] s

/-- Worker for `pyReplace`.  `skip` counts characters of an already-matched
pattern occurrence still to be consumed silently, keeping the recursion
structural on the string. -/
def pyReplaceGo (pat rep : Str) (skip : Nat) : Str → Str
  | [] => []
  | c :: rest =>
    match skip with
    | k + 1 => pyReplaceGo pat rep k rest
    | 0 =>
      if pat ≠ [] ∧ pat.isPrefixOf (c :: rest) then
        rep ++ pyReplaceGo pat rep (pat.length - 1) rest
      else
        c :: pyReplaceGo pat rep 0 rest

/-- Python `str.replace(pat, rep)` for a non-empty `pat`: one left-to-right
scan replacing each non-overlapping occurrence.  (For `pat = []` this model
returns `s` unchanged; the code only ever calls `replace` with non-empty
patterns.) -/
def pyReplace (pat rep : Str) (s : Str) : Str := pyReplaceGo pat rep 0 s

/-- Worker for `pySplitOn`, with the same `skip` device as `pyReplaceGo`. -/
def pySplitOnGo (pat : Str) (skip : Nat) : Str → List Str
  | [] => [[]]
  | c :: rest =>
    match skip with
    | k + 1 => pySplitOnGo pat k rest
    | 0 =>
      if pat ≠ [] ∧ pat.isPrefixOf (c :: rest) then
        [] :: pySplitOnGo pat (pat.length - 1) rest
      else
        match pySplitOnGo pat 0 rest with
        | [] => [[c]]
        | p :: ps => (c :: p) :: ps

/-- Python `str.split(sep)` for a non-empty separator: empty pieces are kept.
(For `sep = []` this model returns `[s]`; Python would raise, and the code
only splits on `","`.) -/
def pySplitOn (pat : Str) (s : Str) : List Str := pySplitOnGo pat 0 s

/-- Worker for `pySplitWs`: `acc` is the reversed current word. -/
def pySplitWsAux (acc : Str) : Str → List Str
  | [] => if acc = [] then [] else [acc.reverse]
  | c :: rest =>
    if pyIsSpace c then
      if acc = [] then pySplitWsAux [] rest else acc.reverse :: pySplitWsAux [] rest
    else
      pySplitWsAux (c :: acc) rest

/-- Python `str.split()` with no argument: split on runs of whitespace,
discarding empty pieces. -/
def pySplitWs (s : Str) : List Str := pySplitWsAux [] s

namespace Converter

/-- `PoEntry` of `i18n_converter.py` (lines 34-64): a single .po file entry. -/
structure PoEntry where
  msgid : Str := []
  msgstr : Str := []
  comments : List Str := []
  extracted_comments : List Str := []
  locations : List Str := []
  flags : List Str := []
  is_fuzzy : Bool := false
  is_obsolete : Bool := false
  is_header : Bool := false
  line_start : Nat := 0
deriving Repr, DecidableEq

/-- `PoEntry.clone_empty` (lines 52-64): a copy with empty `msgstr`, the
`"fuzzy"` flag removed and `is_fuzzy` cleared (and, since the constructor is
called without `line_start`, that field reset to its default `0`). -/
def clone_empty (e : PoEntry) : PoEntry :=
  { msgid := e.msgid, msgstr := [],
    comments := e.comments, extracted_comments := e.extracted_comments,
    locations := e.locations,
    flags := e.flags.filter (fun f => f ≠ str "fuzzy"),
    is_fuzzy := false, is_obsolete := e.is_obsolete, is_header := e.is_header,
    line_start := 0 }

/-- The sequential unescaping of `PoParser._parse_string` (lines 158-162):
five global `str.replace` passes, in the source's order. -/
def unescapePo (inner : Str) : Str :=
  pyReplace (str "\\\\") (str "\\")
    (pyReplace (str "\\r") (str "\r")
      (pyReplace (str "\\t") (str "\t")
        (pyReplace (str "\\n") (str "\n")
          (pyReplace (str "\\\"") (str "\"") inner))))

/-- `PoParser._parse_string` (lines 153-164): strip, require surrounding
double quotes, unescape the inside; anything malformed yields `""`. -/
def parseString (raw : Str) : Str :=
  let r := pyStrip raw
  if (str "\"").isPrefixOf r ∧ (str "\"").isSuffixOf r then
    unescapePo ((r.drop 1).dropLast)
  else []

/-- `PoSerializer.escape` (lines 174-181): five global `str.replace` passes,
backslash first. -/
def escape (s : Str) : Str :=
  pyReplace (str "\t") (str "\\t")
    (pyReplace (str "\r") (str "\\r")
      (pyReplace (str "\n") (str "\\n")
        (pyReplace (str "\"") (str "\\\"")
          (pyReplace (str "\\") (str "\\\\") s))))

/-- The `mode` variable of `PoParser.parse`. -/
inductive PMode
  | msgid
  | msgstr
deriving Repr, DecidableEq

/-- The loop state of `PoParser.parse`: accumulated entries, the entry under
construction, and the mode. -/
structure PState where
  entries : List PoEntry := []
  current : Option PoEntry := none
  mode : Option PMode := none
deriving Repr, DecidableEq

/-- The nested `flush()` of `PoParser.parse` (lines 85-91): when an entry is
under construction, append it if it is a header or has a non-empty msgid, and
reset `current` and `mode`. -/
def flush (s : PState) : PState :=
  match s.current with
  | none => s
  | some c =>
    { entries := s.entries ++ (if c.is_header ∨ c.msgid ≠ [] then [c] else []),
      current := none, mode := none }

/-- One iteration of the scan loop of `PoParser.parse` (lines 93-147).
`none` models the uncaught `AttributeError` Python raises when
`current.msgstr` (or a continuation append) is evaluated while `current` is
`None`. -/
def stepLine (s : PState) (lineno : Nat) (raw : Str) : Option PState :=
  let line := pyStrip raw
  if line = [] then some (flush s)
  else if (str "#").isPrefixOf line then
    let cur := s.current.getD { line_start := lineno }
    if (str "#,").isPrefixOf line then
      let fl := (pySplitOn (str ",") (line.drop 2)).map pyStrip
      some { s with current := some { cur with
        flags := fl,
        is_fuzzy := if fl.contains (str "fuzzy") then true else cur.is_fuzzy } }
    else if (str "#:").isPrefixOf line then
      some { s with current := some { cur with
        locations := cur.locations ++ pySplitWs (pyStrip (line.drop 2)) } }
    else if (str "#.").isPrefixOf line then
      some { s with current := some { cur with
        extracted_comments := cur.extracted_comments ++ [pyStrip (line.drop 2)] } }
    else if (str "#~").isPrefixOf line then
      some { s with current := some { cur with
        is_obsolete := true,
        comments := cur.comments ++ [line] } }
    else
      some { s with current := some { cur with comments := cur.comments ++ [line] } }
  else if (str "msgid ").isPrefixOf line then
    let s1 := if s.current.isSome ∧ s.mode.isSome then flush s else s
    let cur := s1.current.getD { line_start := lineno }
    let val := parseString (line.drop 6)
    some { s1 with
      current := some { cur with
        msgid := val,
        is_header := if val = [] then true else cur.is_header },
      mode := some .msgid }
  else if (str "msgstr ").isPrefixOf line then
    match s.current with
    | none => none
    | some cur =>
      some { s with
        current := some { cur with msgstr := parseString (line.drop 7) },
        mode := some .msgstr }
  else if (str "\"").isPrefixOf line ∧ s.mode.isSome then
    match s.current, s.mode with
    | some cur, some .msgid =>
      let newid := cur.msgid ++ parseString line
      some { s with current := some { cur with
        msgid := newid,
        is_header := if newid = [] then true else cur.is_header } }
    | some cur, some .msgstr =>
      some { s with current := some { cur with msgstr := cur.msgstr ++ parseString line } }
    | none, _ => none
    | _, none => none
  else
    some s

/-- The scan loop of `PoParser.parse`, threading the 1-based line number. -/
def runLines : PState → Nat → List Str → Option PState
  | s, _, [] => some s
  | s, n, l :: ls =>
    match stepLine s n l with
    | none => none
    | some s' => runLines s' (n + 1) ls

/-- `PoParser.parse` (lines 80-151) applied to the already-split lines of the
content; `none` models the crash described at `stepLine`. -/
def parseLines (lines : List Str) : Option (List PoEntry) :=
  (runLines {} 1 lines).map (fun s => (flush s).entries)

/-- `PoParser(content).parse()`: split the content into lines, scan, and
flush the last entry. -/
def parse (content : Str) : Option (List PoEntry) :=
  parseLines (pySplitlines content)

/-- The location-packing loop of `PoSerializer.serialize_entry`
(lines 197-205): `acc` is the `loc_line` being built. -/
def wrapLocGo (acc : Str) : List Str → List Str
  | [] => [acc]
  | loc :: rest =>
    if acc.length + loc.length + 1 > 76 then
      acc :: wrapLocGo (str "#: " ++ loc) rest
    else
      wrapLocGo (acc ++ ' ' :: loc) rest

/-- The `#:` lines produced for a non-empty location list. -/
def wrapLocations (locs : List Str) : List Str := wrapLocGo (str "#:") locs

/-- The multiline literal lines of `serialize_entry` (lines 216-220 and
227-231): one quoted line per chunk, each but the last ending in `\n`. -/
def quoteChunks (esc : Str) : List Str :=
  let chunks := pySplitOn (str "\\n") esc
  chunks.enum.map (fun p =>
    str "\"" ++ p.2 ++ (if p.1 < chunks.length - 1 then str "\\n" else []) ++ str "\"")

/-- `PoSerializer.serialize_entry` (lines 183-235) as its list of output
lines (`parts`). -/
def serialize_entry (e : PoEntry) : List Str :=
  (e.comments.filter (fun c => !(str "#~").isPrefixOf c))
  ++ e.extracted_comments.map (fun ec => str "#. " ++ ec)
  ++ (if e.locations ≠ [] then wrapLocations e.locations else [])
  ++ (if e.flags ≠ [] then [str "#, " ++ List.intercalate (str ", ") e.flags] else [])
  ++ (let escId := escape e.msgid
      if e.msgid.contains '\n' then str "msgid \"\"" :: quoteChunks escId
      else [str "msgid \"" ++ escId ++ str "\""])
  ++ (let escStr := if e.msgstr ≠ [] then escape e.msgstr else []
      if e.msgstr ≠ [] ∧ e.msgstr.contains '\n' then str "msgstr \"\"" :: quoteChunks escStr
      else [str "msgstr \"" ++ escStr ++ str "\""])

/-- `PoSerializer.serialize` (lines 237-242): blocks joined by blank lines,
one trailing newline. -/
def serialize (es : List PoEntry) : Str :=
  List.intercalate (str "\n\n")
    (es.map (fun e => List.intercalate (str "\n") (serialize_entry e))) ++ str "\n"

/-- The ordered tuple the spec's round-trip property ranges over:
`(sourceText, translation, flags, sourceLocations, comments, isObsolete)`. -/
def tupleOf (e : PoEntry) : Str × Str × List Str × List Str × List Str × Bool :=
  (e.msgid, e.msgstr, e.flags, e.locations, e.comments, e.is_obsolete)

/-- A Python `dict` assignment `m[k] = v` on an insertion-ordered map:
an existing key keeps its position and gets the new value; a new key is
appended. -/
def dictInsert (m : List (Str × PoEntry)) (k : Str) (v : PoEntry) :
    List (Str × PoEntry) :=
  if m.any (fun p => p.1 = k) then
    m.map (fun p => if p.1 = k then (k, v) else p)
  else m ++ [(k, v)]

/-- The lookup maps of `action_merge` (lines 272-273):
`{e.msgid: e for e in entries if not e.is_header}` — note only headers are
excluded, and a repeated msgid overwrites the earlier value. -/
def buildMap (es : List PoEntry) : List (Str × PoEntry) :=
  es.foldl (fun m e => if e.is_header then m else dictInsert m e.msgid e) []

/-- Python `map.get(k)` / `k in map` on the insertion-ordered map. -/
def lookupD (m : List (Str × PoEntry)) (k : Str) : Option PoEntry :=
  (m.find? (fun p => p.1 = k)).map (fun p => p.2)

/-- Last index `j` of `s` with `s[j] = '\\'` and `s[j+1] = 'n'` — the pair the
greedy regex `PO-Revision-Date:[^\n]*\\n` consumes with its final `\\n`. -/
def lastBackslashN : Str → Option Nat
  | [] => none
  | c :: rest =>
    match lastBackslashN rest with
    | some j => some (j + 1)
    | none => if c = '\\' ∧ rest.head? = some 'n' then some 0 else none

/-- The regex key of the header rewrite in `action_merge` (line 282). -/
def revKey : Str := str "PO-Revision-Date:"

/-- The `re.sub(r'PO-Revision-Date:[^\n]*\\n', f'PO-Revision-Date: {now}\\n', s)`
of `action_merge` (lines 281-285).  The pattern is the literal key, then a
greedy run of non-newline characters, then a literal backslash followed by a
literal `n` (the raw pattern `\\n` matches those two characters, not a line
feed).  In the replacement template `\\n` stands for one backslash-`n`
sequence, which `re.sub` expands to a line feed; `now` is a `strftime` result
and contains no backslash, so the template expands to
`"PO-Revision-Date: " ++ now ++ "\n"`.  `skip` counts already-consumed match
characters, keeping the recursion structural. -/
def subRevDateGo (now : Str) (skip : Nat) : Str → Str
  | [] => []
  | c :: rest =>
    match skip with
    | k + 1 => subRevDateGo now k rest
    | 0 =>
      if revKey.isPrefixOf (c :: rest) then
        let run := (rest.drop 16).takeWhile (fun d => d ≠ '\n')
        match lastBackslashN run with
        | some j =>
          (str "PO-Revision-Date: " ++ now ++ str "\n") ++
            subRevDateGo now (16 + (j + 2)) rest
        | none => c :: subRevDateGo now 0 rest
      else c :: subRevDateGo now 0 rest

/-- See `subRevDateGo`; the scan starts with nothing to skip. -/
def subRevDate (now : Str) (s : Str) : Str := subRevDateGo now 0 s

/-- The `or` fallback `new_entry.locations or base_entry.locations` written
into the kept base entry (line 300 of `action_merge`). -/
def updateLocations (be ne : PoEntry) : PoEntry :=
  { be with locations := if ne.locations = [] then be.locations else ne.locations }

/-- The pure core of `action_merge` (lines 265-330): build both msgid maps,
take and restamp the base header, keep/clone entries in the incoming map's
order, then append base-only entries marked obsolete.  Returns the merged
entry list and the `(preserved, added, obsoleted)` counters.  `now` is the
formatted current time, injected for determinism. -/
def mergePure (now : Str) (baseEs newEs : List PoEntry) :
    List PoEntry × Nat × Nat × Nat :=
  let base_map := buildMap baseEs
  let new_map := buildMap newEs
  let header := (baseEs.find? (fun e => e.is_header)).map
    (fun h => { h with msgstr := subRevDate now h.msgstr })
  let init : List PoEntry × Nat × Nat :=
    ((match header with | some h => [h] | none => []), 0, 0)
  let afterNew := new_map.foldl (fun acc kv =>
    match lookupD base_map kv.1 with
    | some be => (acc.1 ++ [updateLocations be kv.2], acc.2.1 + 1, acc.2.2)
    | none => (acc.1 ++ [clone_empty kv.2], acc.2.1, acc.2.2 + 1)) init
  let afterObs := base_map.foldl (fun acc kv =>
    match lookupD new_map kv.1 with
    | some _ => acc
    | none => (acc.1 ++ [{ kv.2 with
        is_obsolete := true,
        comments := str "#~ obsolete" :: kv.2.comments }], acc.2 + 1))
    ((afterNew.1 : List PoEntry), (0 : Nat))
  (afterObs.1, afterNew.2.1, afterNew.2.2, afterObs.2)

/-- Count of non-header entries, the `N` of the idempotent-merge property. -/
def countNonHeader (es : List PoEntry) : Nat :=
  (es.filter (fun e => !e.is_header)).length

end Converter

namespace Validator

/-- `PoEntry` of `i18n_validator.py` (lines 42-53). -/
structure PoEntry where
  msgid : Str := []
  msgstr : Str := []
  comments : List Str := []
  flags : List Str := []
  locations : List Str := []
  line_start : Nat := 0
  is_header : Bool := false
  is_fuzzy : Bool := false
  is_obsolete : Bool := false
deriving Repr, DecidableEq

/-- The two `ValueError`/parse-error messages of `PoParser`
(`i18n_validator.py` lines 150 and 167), kept as constructors instead of
formatted text: `malformed` carries the stripped literal of
`"Malformed string at line N: ..."`, `unexpected` the raw line of
`"Unexpected content: ..."`. -/
inductive ErrMsg
  | malformed (raw : Str)
  | unexpected (raw : Str)
deriving Repr, DecidableEq

/-- `PoParser._parse_string` of the validator (lines 162-175): strip, require
surrounding quotes (else `ValueError`), then the same five sequential
`replace` passes as the converter (`Converter.unescapePo`). -/
def parseStringV (raw : Str) : Except ErrMsg Str :=
  let r := pyStrip raw
  if (str "\"").isPrefixOf r ∧ (str "\"").isSuffixOf r then
    .ok (Converter.unescapePo ((r.drop 1).dropLast))
  else .error (.malformed r)

/-- The loop state of the validator's `PoParser.parse`: accumulated entries,
the entry under construction, the mode, and the accumulated
`(line, message)` parse errors. -/
structure VState where
  entries : List PoEntry := []
  current : Option PoEntry := none
  mode : Option Converter.PMode := none
  errors : List (Nat × ErrMsg) := []
deriving Repr, DecidableEq

/-- The blank-line / end-of-input finalisation of the validator's parse
(lines 81-88 and 153-157): only a current entry with a msgid or header mark
is appended (and re-marked header when its msgid is empty); otherwise the
state — including `current` and `mode` — is left alone. -/
def finalizeV (s : VState) : VState :=
  match s.current with
  | none => s
  | some c =>
    if c.msgid ≠ [] ∨ c.is_header then
      { s with
        entries := s.entries ++
          [{ c with is_header := if c.msgid = [] then true else c.is_header }],
        current := none, mode := none }
    else s

/-- One iteration of the validator's scan loop (lines 75-151).  `none` models
the uncaught `AttributeError`: an assignment or append through `current`
while it is `None` — reached by a `msgstr` directive or a continuation line
whose literal parses, with no entry under construction. -/
def stepLineV (s : VState) (lineno : Nat) (raw : Str) : Option VState :=
  let line := pyStrip raw
  if line = [] then some (finalizeV s)
  else if (str "#").isPrefixOf line then
    let cur := s.current.getD { line_start := lineno }
    if (str "#,").isPrefixOf line then
      let fl := (pySplitOn (str ",") (pyStrip (line.drop 2))).map pyStrip
      some { s with current := some { cur with
        flags := fl,
        is_fuzzy := if fl.contains (str "fuzzy") then true else cur.is_fuzzy } }
    else if (str "#:").isPrefixOf line then
      some { s with current := some { cur with
        locations := cur.locations ++ pySplitWs (pyStrip (line.drop 2)) } }
    else if (str "#~").isPrefixOf line then
      some { s with current := some { cur with
        is_obsolete := true,
        comments := cur.comments ++ [line] } }
    else
      some { s with current := some { cur with comments := cur.comments ++ [line] } }
  else if (str "msgid ").isPrefixOf line then
    let cur := s.current.getD { line_start := lineno }
    match parseStringV (line.drop 6) with
    | .ok v =>
      some { s with
        current := some { cur with
          msgid := v,
          is_header := if v = [] then true else cur.is_header },
        mode := some .msgid }
    | .error m =>
      some { s with
        current := some cur, mode := some .msgid,
        errors := s.errors ++ [(lineno, m)] }
  else if (str "msgstr ").isPrefixOf line then
    match parseStringV (line.drop 7) with
    | .ok v =>
      match s.current with
      | none => none
      | some cur => some { s with current := some { cur with msgstr := v }, mode := some .msgstr }
    | .error m =>
      some { s with mode := some .msgstr, errors := s.errors ++ [(lineno, m)] }
  else if (str "\"").isPrefixOf line ∧
      (s.mode = some .msgid ∨ s.mode = some .msgstr) then
    match parseStringV line with
    | .ok chunk =>
      match s.current with
      | none => none
      | some cur =>
        if s.mode = some .msgid then
          some { s with current := some { cur with msgid := cur.msgid ++ chunk } }
        else
          some { s with current := some { cur with msgstr := cur.msgstr ++ chunk } }
    | .error m => some { s with errors := s.errors ++ [(lineno, m)] }
  else
    some { s with errors := s.errors ++ [(lineno, .unexpected raw)] }

/-- The scan loop of the validator's `PoParser.parse`, threading the 1-based
line number. -/
def runLinesV : VState → Nat → List Str → Option VState
  | s, _, [] => some s
  | s, n, l :: ls =>
    match stepLineV s n l with
    | none => none
    | some s' => runLinesV s' (n + 1) ls

/-- The validator's `PoParser.parse` (lines 68-160) on the split lines:
entries plus accumulated parse errors, or `none` for the crash described at
`stepLineV`. -/
def parseLinesV (lines : List Str) : Option (List PoEntry × List (Nat × ErrMsg)) :=
  (runLinesV {} 1 lines).map (fun s => ((finalizeV s).entries, (finalizeV s).errors))

/-- `PoParser(content).parse()` of the validator. -/
def parseV (content : Str) : Option (List PoEntry × List (Nat × ErrMsg)) :=
  parseLinesV (pySplitlines content)

/-- Issue severities of `ValidationIssue`. -/
inductive Severity
  | error
  | warning
  | info
deriving Repr, DecidableEq

/-- The distinct validator messages, kept as constructors carrying their
variable parts instead of formatted text.  `rtlMarksInfo` carries the set of
distinct direction-control characters found (the source formats their Unicode
names from a Python `set`, whose iteration order is unspecified; the model
fixes first-occurrence order).  `missingNamed` likewise carries the set of
missing names in first-occurrence order. -/
inductive VMsg
  | noEntries
  | missingHeader
  | headerMissingField (name : Str)
  | charsetNotUtf8 (found : Str)
  | missingCharset
  | missingPluralForms
  | wrongNplurals (n : Nat)
  | fuzzyTranslation
  | emptyTranslation
  | formatMismatch (srcCount dstCount : Nat)
  | missingNamed (names : List Str)
  | noArabicChars
  | mojibake
  | rtlMarksInfo (marks : List Char)
  | bidiOverride
  | leadingWsDiff (src dst : Nat)
  | trailingWsDiff (src dst : Nat)
  | duplicateMsgid (firstLine : Nat)
deriving Repr, DecidableEq

/-- `ValidationIssue` (lines 27-39), with the message abstracted to `VMsg`. -/
structure ValidationIssue where
  severity : Severity
  line : Nat
  message : VMsg
  context : Str := []
deriving Repr, DecidableEq

/-- `PoValidator.RTL_MARKS` (lines 186-197). -/
def RTL_MARKS : List Char :=
  ['‏', '‎', '‫', '‪', '‬', '‭', '‮',
   '⁧', '⁦', '⁩']

/-- `PoValidator.is_arabic` (line 204): the language hint, lowercased, starts
with `"ar"`. -/
def is_arabic (lang : Str) : Bool :=
  (str "ar").isPrefixOf (lang.map Char.toLower)

/-- `re.search` of a literal `key`, then `\s*`, then a literal `lit` whose
first character is not whitespace (so backtracking inside `\s*` cannot help):
some position of the string matches `key`, and after it, skipping the maximal
whitespace run, `lit` follows.  With `lit = []` this is plain substring
search for `key`. -/
def hasKeyWsLit (key lit : Str) : Str → Bool
  | [] => false
  | c :: rest =>
    (key.isPrefixOf (c :: rest) &&
      lit.isPrefixOf (((c :: rest).drop key.length).dropWhile pyIsSpace)) ||
    hasKeyWsLit key lit rest

/-- Case-insensitive (ASCII lowering, as `re.IGNORECASE` behaves on these
ASCII patterns) prefix test against a lowercase `key`. -/
def ciPrefix (key s : Str) : Bool :=
  key.isPrefixOf (s.map Char.toLower)

/-- `re.search(r'charset=([^\s\\]+)', msgstr, re.IGNORECASE)` (line 249):
first position with a case-insensitive `charset=` followed by a non-empty run
of characters that are neither whitespace nor a backslash; the captured group
is that greedy run. -/
def findCharset : Str → Option Str
  | [] => none
  | c :: rest =>
    if ciPrefix (str "charset=") (c :: rest) then
      let run := ((c :: rest).drop 8).takeWhile (fun d => !pyIsSpace d && d ≠ '\\')
      if run ≠ [] then some run else findCharset rest
    else findCharset rest

/-- Python `str.strip('"')`: remove leading and trailing double quotes. -/
def stripQuotes (s : Str) : Str :=
  ((s.dropWhile (fun c => c = '"')).reverse.dropWhile (fun c => c = '"')).reverse

/-- `re.search(r'nplurals=(\d+)', msgstr)` (line 264) followed by `int` of
the captured digit run. -/
def findNplurals : Str → Option Nat
  | [] => none
  | c :: rest =>
    if (str "nplurals=").isPrefixOf (c :: rest) then
      let run := ((c :: rest).drop 9).takeWhile Char.isDigit
      if run ≠ [] then some (run.foldl (fun n d => n * 10 + (d.toNat - 48)) 0)
      else findNplurals rest
    else findNplurals rest

/-- `PoValidator._check_header` (lines 229-269), with `is_arabic` passed in. -/
def check_header (arabic : Bool) (header : Option PoEntry) : List ValidationIssue :=
  match header with
  | none => [⟨.error, 0, .missingHeader, []⟩]
  | some h =>
    let ms := h.msgstr
    (if hasKeyWsLit (str "Content-Type:") (str "text/plain") ms then []
     else [⟨.warning, h.line_start, .headerMissingField (str "Content-Type"), []⟩])
    ++ (if hasKeyWsLit (str "Content-Transfer-Encoding:") [] ms then []
        else [⟨.warning, h.line_start, .headerMissingField (str "Content-Transfer-Encoding"), []⟩])
    ++ (if hasKeyWsLit (str "MIME-Version:") [] ms then []
        else [⟨.warning, h.line_start, .headerMissingField (str "MIME-Version"), []⟩])
    ++ (if hasKeyWsLit (str "Language:") [] ms then []
        else [⟨.warning, h.line_start, .headerMissingField (str "Language"), []⟩])
    ++ (match findCharset ms with
        | some cs =>
          let charset := (stripQuotes cs).map Char.toLower
          if charset = str "utf-8" ∨ charset = str "utf8" then []
          else [⟨.error, h.line_start, .charsetNotUtf8 charset, []⟩]
        | none => [⟨.error, h.line_start, .missingCharset, []⟩])
    ++ (if arabic then
          if !hasKeyWsLit (str "Plural-Forms") [] ms then
            [⟨.warning, h.line_start, .missingPluralForms, []⟩]
          else match findNplurals ms with
            | some n => if n ≠ 6 then [⟨.warning, h.line_start, .wrongNplurals n, []⟩] else []
            | none => []
        else [])

/-- A format-specifier token found by the scan
`re.findall(r'%(?:\([^)]+\))?[sdifro%]', s)`: positional (no name) or named. -/
inductive FmtSpec
  | positional (c : Char)
  | named (name : Str) (c : Char)
deriving Repr, DecidableEq

/-- The conversion characters accepted by the specifier regex. -/
def specClass : List Char := ['s', 'd', 'i', 'f', 'r', 'o', '%']

/-- The left-to-right non-overlapping scan `re.findall` performs with
`%(?:\([^)]+\))?[sdifro%]`: at a `%`, an optional `(name)` with a non-empty
name running to the first `)`, then one conversion character; on failure the
scan resumes one character past the `%`.  `skip` counts already-consumed
match characters, keeping the recursion structural. -/
def findSpecsGo (skip : Nat) : Str → List FmtSpec
  | [] => []
  | c0 :: rest =>
    match skip with
    | k + 1 => findSpecsGo k rest
    | 0 =>
      if c0 = '%' then
        match rest with
        | '(' :: r2 =>
          let nm := r2.takeWhile (fun d => d ≠ ')')
          let r3 := r2.drop nm.length
          if !nm.isEmpty && (r3.head? == some ')') &&
              specClass.contains ((r3.drop 1).headD ' ') then
            .named nm ((r3.drop 1).headD ' ') :: findSpecsGo (1 + nm.length + 2) rest
          else findSpecsGo 0 rest
        | c :: r2 =>
          if specClass.contains c then .positional c :: findSpecsGo 1 rest
          else findSpecsGo 0 rest
        | [] => []
      else findSpecsGo 0 rest

/-- See `findSpecsGo`; the scan starts with nothing to skip. -/
def findSpecs (s : Str) : List FmtSpec := findSpecsGo 0 s

/-- Distinct elements in first-occurrence order — the model's stand-in for a
Python `set` built by comprehension (iteration order unspecified there). -/
def dedupFirstGo (seen : List Str) : List Str → List Str
  | [] => []
  | x :: r =>
    if seen.contains x then dedupFirstGo seen r
    else x :: dedupFirstGo (seen ++ [x]) r

/-- See `dedupFirstGo`; nothing seen yet. -/
def dedupFirst (l : List Str) : List Str := dedupFirstGo [] l

/-- The names of the named specifiers of a scan result, as a set in
first-occurrence order. -/
def namedSet (specs : List FmtSpec) : List Str :=
  dedupFirst (specs.filterMap (fun sp =>
    match sp with
    | .named n _ => some n
    | .positional _ => none))

/-- `PoValidator._check_format_specifiers` (lines 305-330). -/
def check_format_specifiers (e : PoEntry) : List ValidationIssue :=
  let src_specs := findSpecs e.msgid
  let dst_specs := if e.msgstr ≠ [] then findSpecs e.msgstr else []
  let isPos := fun sp => match sp with | FmtSpec.positional _ => true | _ => false
  let src_positional := src_specs.filter isPos
  let dst_positional := dst_specs.filter isPos
  (if src_positional.length ≠ dst_positional.length then
    [⟨.error, e.line_start,
      .formatMismatch src_positional.length dst_positional.length, e.msgid.take 60⟩]
   else [])
  ++ (let missing := (namedSet src_specs).filter
        (fun n => !(namedSet dst_specs).contains n)
      if missing ≠ [] then
        [⟨.error, e.line_start, .missingNamed missing, e.msgid.take 60⟩]
      else [])

/-- Approximation of `unicodedata.name(ch, "").startswith("ARABIC")`: the
standard Arabic blocks (Arabic, Supplement, Extended-B/A, Presentation Forms
A and B, Rumi, Arabic Mathematical symbols).  Unassigned code points inside
these blocks are immaterial to the theorems below. -/
def isArabicNamed (c : Char) : Bool :=
  decide ((0x0600 ≤ c.toNat ∧ c.toNat ≤ 0x06FF) ∨
    (0x0750 ≤ c.toNat ∧ c.toNat ≤ 0x077F) ∨
    (0x0870 ≤ c.toNat ∧ c.toNat ≤ 0x08FF) ∨
    (0xFB50 ≤ c.toNat ∧ c.toNat ≤ 0xFDFF) ∨
    (0xFE70 ≤ c.toNat ∧ c.toNat ≤ 0xFEFF) ∨
    (0x10E60 ≤ c.toNat ∧ c.toNat ≤ 0x10E7F) ∨
    (0x1EE00 ≤ c.toNat ∧ c.toNat ≤ 0x1EEFF))

/-- Distinct characters in first-occurrence order (see `dedupFirst`). -/
def dedupCharsGo (seen : List Char) : List Char → List Char
  | [] => []
  | x :: r =>
    if seen.contains x then dedupCharsGo seen r
    else x :: dedupCharsGo (seen ++ [x]) r

/-- See `dedupCharsGo`; nothing seen yet. -/
def dedupChars (l : List Char) : List Char := dedupCharsGo [] l

/-- `PoValidator._check_arabic_specific` (lines 332-361). -/
def check_arabic_specific (e : PoEntry) : List ValidationIssue :=
  let ms := e.msgstr
  let has_arabic := ms.any (fun ch => !pyIsSpace ch && isArabicNamed ch)
  (if !has_arabic ∧ (pyStrip ms).length > 2 then
    [⟨.warning, e.line_start, .noArabicChars, ms.take 60⟩] else [])
  ++ (if ms.contains 'Ø' ∨ ms.contains 'Ù' then
      [⟨.error, e.line_start, .mojibake, ms.take 60⟩] else [])
  ++ (let suspicious := ms.filter (fun ch => RTL_MARKS.contains ch)
      if suspicious ≠ [] then
        [⟨.info, e.line_start, .rtlMarksInfo (dedupChars suspicious), ms.take 40⟩]
      else [])

/-- `PoValidator._check_bidi_issues` (lines 363-372). -/
def check_bidi_issues (e : PoEntry) : List ValidationIssue :=
  if e.msgstr = [] then []
  else if (e.msgstr.filter (fun ch => ch = '‮' ∨ ch = '‭')) ≠ [] then
    [⟨.error, e.line_start, .bidiOverride, []⟩]
  else []

/-- `PoValidator._check_whitespace` (lines 374-394). -/
def check_whitespace (e : PoEntry) : List ValidationIssue :=
  if e.msgstr = [] then []
  else
    let srcLead := e.msgid.length - (e.msgid.dropWhile pyIsSpace).length
    let dstLead := e.msgstr.length - (e.msgstr.dropWhile pyIsSpace).length
    let srcTrail := e.msgid.length - (e.msgid.reverse.dropWhile pyIsSpace).length
    let dstTrail := e.msgstr.length - (e.msgstr.reverse.dropWhile pyIsSpace).length
    (if srcLead ≠ dstLead ∧ (srcLead > 0 ∨ dstLead > 0) then
      [⟨.info, e.line_start, .leadingWsDiff srcLead dstLead, e.msgid.take 40⟩] else [])
    ++ (if srcTrail ≠ dstTrail ∧ (srcTrail > 0 ∨ dstTrail > 0) then
        [⟨.info, e.line_start, .trailingWsDiff srcTrail dstTrail, e.msgid.take 40⟩] else [])

/-- `PoValidator._check_entry` (lines 271-303), with the language hint and
strictness passed in. -/
def check_entry (lang : Str) (strict : Bool) (e : PoEntry) : List ValidationIssue :=
  if e.is_obsolete then []
  else
    (if e.is_fuzzy then
      [⟨.warning, e.line_start, .fuzzyTranslation, e.msgid.take 60⟩] else [])
    ++ (if e.msgstr = [] then
        [⟨if strict then .error else .warning, e.line_start, .emptyTranslation, e.msgid.take 60⟩]
      else
        (if e.flags.contains (str "python-format") then check_format_specifiers e else [])
        ++ (if is_arabic lang ∧ e.msgstr ≠ [] then check_arabic_specific e else [])
        ++ check_bidi_issues e
        ++ check_whitespace e)

/-- `PoValidator._check_duplicate_msgids` (lines 396-406): a first-wins
`seen` map from msgid to first line; each later entry with a seen msgid gets
an error citing that first line. -/
def check_duplicate_msgids (es : List PoEntry) : List ValidationIssue :=
  (es.foldl (fun (acc : List ValidationIssue × List (Str × Nat)) e =>
    match acc.2.find? (fun p => p.1 = e.msgid) with
    | some p =>
      (acc.1 ++ [⟨.error, e.line_start, .duplicateMsgid p.2, e.msgid.take 60⟩], acc.2)
    | none => (acc.1, acc.2 ++ [(e.msgid, e.line_start)])) ([], [])).1

/-- `PoValidator.validate_all` (lines 206-224). -/
def validate_all (lang : Str) (strict : Bool) (entries : List PoEntry) :
    List ValidationIssue :=
  if entries = [] then [⟨.error, 0, .noEntries, []⟩]
  else
    check_header (is_arabic lang) (entries.find? (fun e => e.is_header))
    ++ ((entries.filter (fun e => !e.is_header)).map (check_entry lang strict)).flatten
    ++ check_duplicate_msgids (entries.filter (fun e => !e.is_header))

end Validator

namespace Validator

/-- Specification-style restatement of duplicate detection used by the C9
refinement theorem: walking the entries with the list of earlier entries at
hand, each entry whose msgid already occurred earlier yields one error at its
own line citing the line of the first earlier entry with that msgid. -/
def dupSpecGo (prev : List PoEntry) : List PoEntry → List ValidationIssue
  | [] => []
  | e :: rest =>
    (match prev.find? (fun q => q.msgid = e.msgid) with
     | some q => [⟨.error, e.line_start, .duplicateMsgid q.line_start, e.msgid.take 60⟩]
     | none => []) ++ dupSpecGo (prev ++ [e]) rest

/-- See `dupSpecGo`: no entries seen yet. -/
def dupSpec (es : List PoEntry) : List ValidationIssue := dupSpecGo [] es

end Validator

namespace Validator

/-- Scanner for the amended C3 hypothesis: walk the lines tracking whether an
entry is open — opened by a comment or `msgid` directive line, closed by a
blank line, left unchanged by everything else — and demand that every
`msgstr` directive and every continuation line is met while an entry is
open. -/
def safeLinesGo (opened : Bool) : List Str → Bool
  | [] => true
  | raw :: rest =>
    if pyStrip raw = [] then safeLinesGo false rest
    else if (str "#").isPrefixOf (pyStrip raw) then safeLinesGo true rest
    else if (str "msgid ").isPrefixOf (pyStrip raw) then safeLinesGo true rest
    else if (str "msgstr ").isPrefixOf (pyStrip raw) then opened && safeLinesGo opened rest
    else if (str "\"").isPrefixOf (pyStrip raw) then opened && safeLinesGo opened rest
    else safeLinesGo opened rest

/-- See `safeLinesGo`: no entry is open at the start. -/
def safeLines (lines : List Str) : Bool := safeLinesGo false lines

end Validator

namespace Converter

/-- Per-character escaping: `escape` is equivalent to this character map
(proved below), applying the five substitutions of the source in order. -/
def escChar (c : Char) : Str :=
  if c = '\\' then str "\\\\"
  else if c = '"' then str "\\\""
  else if c = '\n' then str "\\n"
  else if c = '\r' then str "\\r"
  else if c = '\t' then str "\\t"
  else [c]

/-- Snapshot of the escape blocks after the first unescape pass (escaped
quote resolved). -/
def escChar1 (c : Char) : Str :=
  if c = '"' then str "\""
  else if c = '\n' then str "\\n"
  else if c = '\r' then str "\\r"
  else if c = '\t' then str "\\t"
  else [c]

/-- Snapshot after the second unescape pass (escaped newline resolved). -/
def escChar2 (c : Char) : Str :=
  if c = '\r' then str "\\r"
  else if c = '\t' then str "\\t"
  else [c]

/-- Snapshot after the third unescape pass (escaped tab resolved). -/
def escChar3 (c : Char) : Str :=
  if c = '\r' then str "\\r"
  else [c]

/-- A string free of backslashes whose only line-break character is the
plain line feed — the class of msgid/msgstr values the amended round-trip
ranges over. -/
def strOK (s : Str) : Prop :=
  '\\' ∉ s ∧ ∀ c ∈ s, isLineBreakChar c = true → c = '\n'

/-- A translator comment that serializes to the very line it was parsed
from: a stripped, single-line `#` comment that is not one of the directive
comment forms. -/
def commentOK (co : Str) : Prop :=
  (str "#").isPrefixOf co ∧ pyStrip co = co ∧
  (∀ c ∈ co, isLineBreakChar c = false) ∧
  ¬(str "#,").isPrefixOf co ∧ ¬(str "#:").isPrefixOf co ∧
  ¬(str "#.").isPrefixOf co ∧ ¬(str "#~").isPrefixOf co

/-- A source location reference: non-empty and whitespace-free. -/
def locOK (l : Str) : Prop := l ≠ [] ∧ ∀ c ∈ l, pyIsSpace c = false

/-- A flag token: non-empty, comma-free and whitespace-free (as the real
flags `fuzzy`, `python-format`, … are). -/
def flagOK (f : Str) : Prop :=
  f ≠ [] ∧ ',' ∉ f ∧ ∀ c ∈ f, pyIsSpace c = false

/-- The entries the amended round-trip property (C2) ranges over: live
(non-obsolete) entries whose fields survive the serialized line format. -/
def WellFormed (e : PoEntry) : Prop :=
  e.is_obsolete = false ∧ strOK e.msgid ∧ strOK e.msgstr ∧
  (∀ co ∈ e.comments, commentOK co) ∧
  (∀ ec ∈ e.extracted_comments, ∀ c ∈ ec, isLineBreakChar c = false) ∧
  (∀ l ∈ e.locations, locOK l) ∧
  (∀ f ∈ e.flags, flagOK f)

end Converter

/-- Splitting a string at every occurrence of one character (the semantics
`pySplitOn [p]` realizes), in a directly structural form. -/
def splitChar (p : Char) : Str → List Str
  | [] => [[]]
  | c :: t =>
    if c = p then [] :: splitChar p t
    else
      match splitChar p t with
      | [] => [[c]]
      | h :: hs => (c :: h) :: hs

/-- The right half of `pyStrip`: remove trailing whitespace only. -/
def pyStripRight (s : Str) : Str :=
  (s.reverse.dropWhile pyIsSpace).reverse

namespace Converter

/-- The entry a parser line works on: the one under construction, or a fresh
one recording the current line number (`PoEntry(line_start=lineno)`). -/
def curOf (c : Option PoEntry) (n : Nat) : PoEntry :=
  c.getD { line_start := n }

/-- The fields an entry under construction carries after the comment,
location and flags lines of a serialized block: whatever the line number
used for a fresh entry, the tuple-relevant fields are as given and the
msgid/msgstr are still empty. -/
def FieldsAre (c : Option PoEntry) (cos locs fls : List Str) : Prop :=
  ∀ k, (curOf c k).msgid = [] ∧ (curOf c k).msgstr = [] ∧
    (curOf c k).comments = cos ∧ (curOf c k).locations = locs ∧
    (curOf c k).flags = fls ∧ (curOf c k).is_obsolete = false ∧
    (curOf c k).is_header = false

/-- The multiline quoted lines of `serialize_entry` over an explicit chunk
list: every chunk but the last gets a trailing escaped newline. -/
def quoteAlt : List Str → List Str
  | [] => []
  | [x] => [str "\"" ++ x ++ str "\""]
  | x :: xs => (str "\"" ++ x ++ str "\\n\"") :: quoteAlt xs

instance strOK_dec (s : Str) : Decidable (strOK s) := by
  unfold strOK; exact inferInstance

instance commentOK_dec (co : Str) : Decidable (commentOK co) := by
  unfold commentOK; exact inferInstance

instance locOK_dec (l : Str) : Decidable (locOK l) := by
  unfold locOK; exact inferInstance

instance flagOK_dec (f : Str) : Decidable (flagOK f) := by
  unfold flagOK; exact inferInstance

instance WellFormed_dec (e : PoEntry) : Decidable (WellFormed e) := by
  unfold WellFormed; exact inferInstance

end Converter

/-! ### Concrete inputs for the counterexample and witness theorems -/

namespace Ex

/-- A typical parsed header entry: its `msgstr` holds real line feeds (the
escaped `\n` of the file has already been unescaped), hence no backslash. -/
def hdr : Converter.PoEntry :=
  { msgid := [],
    msgstr := str "Project-Id-Version: x\nPO-Revision-Date: 2020-01-01 00:00+0000\nLanguage: ar\n",
    is_header := true, line_start := 1 }

/-- First of two entries sharing msgid `"x"`. -/
def dupA : Converter.PoEntry := { msgid := str "x", msgstr := str "a", line_start := 3 }

/-- Second of two entries sharing msgid `"x"`. -/
def dupB : Converter.PoEntry := { msgid := str "x", msgstr := str "b", line_start := 7 }

/-- An obsolete entry with msgid `"z"`. -/
def obsE : Converter.PoEntry :=
  { msgid := str "z", msgstr := str "t", is_obsolete := true, line_start := 5 }

/-- An obsolete entry whose only obsolescence record is its `#~` comment. -/
def obsMarked : Converter.PoEntry :=
  { msgid := str "x", msgstr := str "y", comments := [str "#~ obsolete"],
    is_obsolete := true, line_start := 2 }

/-- A translated entry whose msgstr ends in a right-to-left mark (U+200F). -/
def vMark : Validator.PoEntry :=
  { msgid := str "ok", msgstr := ['o', 'k', '‏'], line_start := 3 }

/-- An entry carrying a `c-format` flag with a dropped `%d` in the
translation. -/
def vCFormat : Validator.PoEntry :=
  { msgid := str "%s %d", msgstr := str "%s x", flags := [str "c-format"], line_start := 4 }

/-- The spec's format-specifier example entry, with the flag spelled
`python-format`. -/
def vPyFmt : Validator.PoEntry :=
  { msgid := str "Hello %s, you have %d items", msgstr := str "Bonjour %s",
    flags := [str "python-format"], line_start := 7 }

/-- A translated `"Save"` entry at line 10. -/
def vSave1 : Validator.PoEntry :=
  { msgid := str "Save", msgstr := str "x", line_start := 10 }

/-- An untranslated `"Save"` entry at line 40. -/
def vSave2 : Validator.PoEntry :=
  { msgid := str "Save", msgstr := [], line_start := 40 }

/-- An obsolete translated `"Save"` entry at line 10. -/
def vSaveObs : Validator.PoEntry :=
  { msgid := str "Save", msgstr := str "y", is_obsolete := true, line_start := 10 }

/-- A well-formed header entry for the round-trip witness catalog. -/
def rtHdr : Converter.PoEntry :=
  { msgid := [],
    msgstr := str "Language: ar\nMIME-Version: 1.0\n",
    is_header := true, line_start := 1 }

/-- A well-formed rich entry (multiline msgid, comments, locations, flags)
for the round-trip witness catalog. -/
def rtEntry : Converter.PoEntry :=
  { msgid := str "Hello\nWorld",
    msgstr := str "Bonjour",
    comments := [str "# translator note"],
    extracted_comments := [str "module comment"],
    locations := [str "models/a.py:7", str "views/b.xml:12"],
    flags := [str "python-format"],
    line_start := 5 }

/-- A translated entry containing the right-to-left override U+202E. -/
def vOverride : Validator.PoEntry :=
  { msgid := str "a", msgstr := ['b', '‮', 'c'], line_start := 2 }

end Ex

/-! ### Theorems -/

/-- C1: the code's unescaping is five sequential global substitutions, not a
single left-to-right pass; on the two-character string backslash-`n`,
`_parse_string('"' + escape(s) + '"')` returns backslash-linefeed instead of
`s`, refuting `unescape(escape(s)) == s`. -/
theorem C1_unescape_of_escape_backslash_n :
    Converter.parseString (str "\"" ++ Converter.escape (str "\\n") ++ str "\"") =
      str "\\\n" ∧
    Converter.parseString (str "\"" ++ Converter.escape (str "\\n") ++ str "\"") ≠
      str "\\n" := by
  decide

/-- C5 counterexample: indexing the catalog `[obsE, dupA, dupB]` (an obsolete
entry, then two entries sharing msgid `"x"`) keeps the obsolete entry and
keeps the second occurrence `dupB`, not the first. -/
theorem C5_counterexample :
    Converter.lookupD (Converter.buildMap [Ex.obsE, Ex.dupA, Ex.dupB]) (str "z") =
      some Ex.obsE ∧
    Converter.lookupD (Converter.buildMap [Ex.obsE, Ex.dupA, Ex.dupB]) (str "x") =
      some Ex.dupB ∧
    Ex.dupB ≠ Ex.dupA := by
  decide

/-- C3 counterexample: on the one-line input `msgstr "x"` the validator's
parse dereferences `current` while it is `None` and raises
(`AttributeError`), modelled as `none` — it does not return a
(catalog, errors) pair. -/
theorem C3_counterexample : Validator.parseV (str "msgstr \"x\"") = none := by
  decide

/-- C7 counterexample: a non-Arabic language hint (`"fr"`) and a translation
ending in the right-to-left mark U+200F produce no finding at all — in
particular no info finding listing the bidirectional control characters. -/
theorem C7_counterexample :
    Validator.check_entry (str "fr") false Ex.vMark = [] := by
  decide

/-- C8 counterexample: an entry carrying the `c-format` flag (a `…-format`
flag that is not `python-format`), source `"%s %d"` and translation `"%s x"`,
receives no finding: the format-specifier scan is gated on the exact flag
`python-format`. -/
theorem C8_counterexample :
    Validator.check_entry (str "fr") false Ex.vCFormat = [] := by
  decide

/-- C9 counterexample: an obsolete entry does participate in duplicate
detection — validating `[vSaveObs, vSave1]` (obsolete `"Save"` at line 10,
live `"Save"` at line 10/40) yields a duplicate error citing the obsolete
entry's line. -/
theorem C9_counterexample :
    (Validator.validate_all (str "fr") false [Ex.vSaveObs, Ex.vSave1]).filter
        (fun i => i.message == .duplicateMsgid 10) =
      [⟨.error, Ex.vSave1.line_start, .duplicateMsgid 10, str "Save"⟩] := by
  decide

/-- C10 counterexample: the untranslated entry at line 40 receives, besides
its empty-translation warning, a duplicate-msgid error — a finding that is
neither the empty-translation finding nor the fuzzy warning. -/
theorem C10_counterexample :
    Validator.validate_all (str "fr") false [Ex.vSave1, Ex.vSave2] =
      [⟨.error, 0, .missingHeader, []⟩,
       ⟨.warning, 40, .emptyTranslation, str "Save"⟩,
       ⟨.error, 40, .duplicateMsgid 10, str "Save"⟩] := by
  decide

/-- A string without backslash has no backslash-`n` pair. -/
theorem lastBackslashN_eq_none (s : Str) (h : '\\' ∉ s) :
    Converter.lastBackslashN s = none := by
  induction s with
  | nil => rfl
  | cons c rest ih =>
    have hc : c ≠ '\\' := fun e => h (e ▸ List.mem_cons_self c rest)
    have hr : '\\' ∉ rest := fun m => h (List.mem_cons_of_mem _ m)
    simp [Converter.lastBackslashN, ih hr, hc]

/-- On a string without backslash the revision-date rewrite is the
identity: the pattern's mandatory backslash-`n` tail can never match. -/
theorem subRevDateGo_eq_self (now : Str) (s : Str) (h : '\\' ∉ s) :
    Converter.subRevDateGo now 0 s = s := by
  induction s with
  | nil => rfl
  | cons c rest ih =>
    have hr : '\\' ∉ rest := fun m => h (List.mem_cons_of_mem _ m)
    have hrun : '\\' ∉ (rest.drop 16).takeWhile (fun d => d ≠ '\n') := fun m =>
      hr (List.drop_subset _ _ ((List.takeWhile_sublist _).subset m))
    simp only [Converter.subRevDateGo]
    split
    · rw [lastBackslashN_eq_none (((rest.drop 16)).takeWhile (fun d => d ≠ '\n')) hrun]
      simp [ih hr]
    · simp [ih hr]

/-- `subRevDate` is the identity on backslash-free strings. -/
theorem subRevDate_eq_self (now : Str) (s : Str) (h : '\\' ∉ s) :
    Converter.subRevDate now s = s :=
  subRevDateGo_eq_self now s h

/-- C6: for a typical parsed header (real line feeds, no backslash in its
msgstr), merging leaves the header byte-identical — in particular its
`PO-Revision-Date: 2020-01-01 00:00+0000` field is not rewritten to the
current time, whatever that time is: the rewrite pattern demands a literal
backslash-`n`, which an unescaped msgstr does not contain. -/
theorem C6_revision_date_unchanged (now : Str) :
    (Converter.mergePure now [Ex.hdr] [Ex.hdr]).1 = [Ex.hdr] := by
  show [{ Ex.hdr with msgstr := Converter.subRevDate now Ex.hdr.msgstr }] = [Ex.hdr]
  rw [subRevDate_eq_self now _ (by decide)]

/-- Unfolding `lookupD` over a cons cell. -/
theorem lookupD_cons (p : Str × Converter.PoEntry) (l : List (Str × Converter.PoEntry))
    (k : Str) :
    Converter.lookupD (p :: l) k =
      if p.1 = k then some p.2 else Converter.lookupD l k := by
  by_cases h : p.1 = k <;> simp [Converter.lookupD, List.find?_cons, h]

/-- `lookupD` over an append: the left map wins. -/
theorem lookupD_append (l1 l2 : List (Str × Converter.PoEntry)) (k : Str) :
    Converter.lookupD (l1 ++ l2) k =
      (Converter.lookupD l1 k).or (Converter.lookupD l2 k) := by
  induction l1 with
  | nil => simp [Converter.lookupD]
  | cons p r ih =>
    rw [List.cons_append, lookupD_cons, lookupD_cons]
    by_cases h : p.1 = k
    · rw [if_pos h, if_pos h, Option.or_some]
    · rw [if_neg h, if_neg h, ih]

/-- A key absent from the map (`any` is false) looks up to `none`. -/
theorem lookupD_eq_none (m : List (Str × Converter.PoEntry)) (k : Str)
    (h : m.any (fun p => p.1 = k) = false) :
    Converter.lookupD m k = none := by
  induction m with
  | nil => rfl
  | cons p r ih =>
    simp only [List.any_cons, Bool.or_eq_false_iff, decide_eq_false_iff_not] at h
    rw [lookupD_cons, if_neg h.1, ih h.2]

/-- Looking up through the in-place value update `dictInsert` performs when
the key already exists. -/
theorem lookupD_map_update (m : List (Str × Converter.PoEntry)) (k k' : Str)
    (v : Converter.PoEntry) :
    Converter.lookupD (m.map (fun p => if p.1 = k then (k, v) else p)) k' =
      if k' = k then (if m.any (fun p => p.1 = k) then some v else none)
      else Converter.lookupD m k' := by
  induction m with
  | nil => by_cases hk : k' = k <;> simp [Converter.lookupD, hk]
  | cons p r ih =>
    rw [List.map_cons]
    by_cases hp : p.1 = k
    · rw [if_pos hp, lookupD_cons, lookupD_cons]
      have hany : ((p :: r).any (fun q => q.1 = k)) = true := by
        simp [List.any_cons, hp]
      by_cases hk : k' = k
      · subst hk
        rw [if_pos (rfl : (k', v).1 = k'), if_pos (rfl : k' = k'), hany, if_pos rfl]
      · rw [if_neg (show ¬((k, v).1 = k') from fun e => hk e.symm), ih, if_neg hk,
          if_neg hk, if_neg (show ¬(p.1 = k') from fun e => hk (hp ▸ e).symm)]
    · rw [if_neg hp, lookupD_cons, lookupD_cons]
      by_cases hpk : p.1 = k'
      · have hk : ¬(k' = k) := fun e => hp (e ▸ hpk)
        rw [if_pos hpk, if_neg hk, if_pos hpk]
      · rw [if_neg hpk, if_neg hpk, ih,
          show ((p :: r).any fun q => q.1 = k) = (r.any fun q => q.1 = k) by
            simp [List.any_cons, hp]]

/-- The Python-dict assignment semantics of `dictInsert`: the inserted value
is found at its key, other keys are untouched. -/
theorem lookupD_dictInsert (m : List (Str × Converter.PoEntry)) (k : Str)
    (v : Converter.PoEntry) (k' : Str) :
    Converter.lookupD (Converter.dictInsert m k v) k' =
      if k' = k then some v else Converter.lookupD m k' := by
  unfold Converter.dictInsert
  by_cases ha : m.any (fun p => p.1 = k)
  · rw [if_pos ha, lookupD_map_update]
    by_cases hk : k' = k
    · rw [if_pos hk, if_pos hk, ha, if_pos rfl]
    · rw [if_neg hk, if_neg hk]
  · rw [if_neg ha, lookupD_append, lookupD_cons]
    have hafalse : m.any (fun p => p.1 = k) = false := by
      revert ha; cases m.any (fun p => p.1 = k) <;> simp
    by_cases hk : k' = k
    · subst hk
      rw [lookupD_eq_none m k' hafalse, Option.none_or, if_pos rfl, if_pos rfl]
    · rw [if_neg (show ¬((k, v).1 = k') from fun e => hk e.symm), if_neg hk]
      cases h : Converter.lookupD m k' <;> rfl

/-- The fold building the merge's msgid map, characterised: a lookup returns
the last non-header entry with that msgid, falling back to the start map. -/
theorem lookupD_buildMap_go (es : List Converter.PoEntry)
    (m : List (Str × Converter.PoEntry)) (k : Str) :
    Converter.lookupD
      (es.foldl (fun m e =>
        if e.is_header then m else Converter.dictInsert m e.msgid e) m) k =
      ((es.filter (fun e => !e.is_header && decide (e.msgid = k))).getLast?).or
        (Converter.lookupD m k) := by
  induction es generalizing m with
  | nil => simp
  | cons e rest ih =>
    rw [List.foldl_cons]
    by_cases hh : e.is_header
    · rw [if_pos hh, ih,
        show (e :: rest).filter (fun e => !e.is_header && decide (e.msgid = k)) =
          rest.filter (fun e => !e.is_header && decide (e.msgid = k)) by
            simp [List.filter_cons, hh]]
    · rw [if_neg hh, ih]
      by_cases hk : e.msgid = k
      · rw [show (e :: rest).filter (fun e => !e.is_header && decide (e.msgid = k)) =
            e :: rest.filter (fun e => !e.is_header && decide (e.msgid = k)) by
              simp [List.filter_cons, hh, hk]]
        cases hLast : (rest.filter (fun e => !e.is_header && decide (e.msgid = k))).getLast? with
        | some x =>
          rw [Option.or_some]
          cases hfr : rest.filter (fun e => !e.is_header && decide (e.msgid = k)) with
          | nil => rw [hfr] at hLast; simp at hLast
          | cons y ys =>
            rw [hfr] at hLast
            rw [List.getLast?_cons_cons, hLast, Option.or_some]
        | none =>
          rw [Option.none_or, lookupD_dictInsert, if_pos hk.symm,
            List.getLast?_eq_none_iff.mp hLast, List.getLast?_singleton, Option.or_some]
      · rw [show (e :: rest).filter (fun e => !e.is_header && decide (e.msgid = k)) =
            rest.filter (fun e => !e.is_header && decide (e.msgid = k)) by
              simp [List.filter_cons, hk],
          lookupD_dictInsert, if_neg (show ¬(k = e.msgid) from fun h2 => hk h2.symm)]

/-- C5 (amended): the merge's index excludes only header entries — obsolete
entries are indexed too — and when a msgid occurs several times the *last*
occurrence's entry is the one the index holds (at the first occurrence's
position in the map). -/
theorem C5_index_lookup (es : List Converter.PoEntry) (k : Str) :
    Converter.lookupD (Converter.buildMap es) k =
      (es.filter (fun e => !e.is_header && decide (e.msgid = k))).getLast? := by
  unfold Converter.buildMap
  rw [lookupD_buildMap_go]
  cases h : (es.filter (fun e => !e.is_header && decide (e.msgid = k))).getLast? <;> rfl


/-- C10 (amended): within the per-entry checks, a non-obsolete entry with an
empty translation receives the empty-translation finding (warning, or error
under strict), preceded only by the fuzzy warning when the entry is fuzzy;
the format-specifier, RTL-script, encoding-corruption, bidirectional-control
and whitespace checks are all skipped.  (The catalog-level duplicate check
may still attach a duplicate-msgid error to the same entry, as the
counterexample shows.) -/
theorem C10_empty_translation_short_circuit (lang : Str) (strict : Bool)
    (e : Validator.PoEntry) (hobs : e.is_obsolete = false) (hms : e.msgstr = []) :
    Validator.check_entry lang strict e =
      (if e.is_fuzzy then
        [⟨.warning, e.line_start, .fuzzyTranslation, e.msgid.take 60⟩] else [])
      ++ [⟨if strict then .error else .warning, e.line_start, .emptyTranslation,
           e.msgid.take 60⟩] := by
  unfold Validator.check_entry
  rw [if_neg (by rw [hobs]; exact Bool.false_ne_true), if_pos hms]

/-- Witness for C10: the untranslated `"Save"` entry at line 40 receives
exactly its empty-translation warning from the per-entry checks. -/
theorem C10_empty_translation_short_circuit_witness :
    Validator.check_entry (str "fr") false Ex.vSave2 =
      [⟨.warning, 40, .emptyTranslation, str "Save"⟩] := by
  rw [C10_empty_translation_short_circuit (str "fr") false Ex.vSave2 rfl rfl]
  decide

/-- `countP` pushed through an `if` on lists. -/
theorem countP_if_list (c : Prop) [Decidable c] (l1 l2 : List Validator.ValidationIssue)
    (p : Validator.ValidationIssue → Bool) :
    (if c then l1 else l2).countP p = if c then l1.countP p else l2.countP p := by
  by_cases h : c <;> simp [h]

/-- The fuzzy warning contributes nothing to a count of other findings. -/
theorem countP_check_fuzzy (e : Validator.PoEntry) (p : Validator.ValidationIssue → Bool)
    (h : p ⟨.warning, e.line_start, .fuzzyTranslation, e.msgid.take 60⟩ = false) :
    (if e.is_fuzzy then
      [(⟨.warning, e.line_start, .fuzzyTranslation, e.msgid.take 60⟩ :
        Validator.ValidationIssue)]
     else []).countP p = 0 := by
  cases hf : e.is_fuzzy <;> simp [List.countP_cons, h]

/-- The format-specifier findings contribute nothing to a count of other
findings. -/
theorem countP_check_format (e : Validator.PoEntry) (p : Validator.ValidationIssue → Bool)
    (h1 : ∀ a b, p ⟨.error, e.line_start, .formatMismatch a b, e.msgid.take 60⟩ = false)
    (h2 : ∀ ns, p ⟨.error, e.line_start, .missingNamed ns, e.msgid.take 60⟩ = false) :
    (Validator.check_format_specifiers e).countP p = 0 := by
  unfold Validator.check_format_specifiers
  simp only [List.countP_append]
  split_ifs <;> simp [List.countP_cons, h1, h2]

/-- The Arabic-specific findings contribute nothing to a count of other
findings. -/
theorem countP_check_arabic_zero (e : Validator.PoEntry)
    (p : Validator.ValidationIssue → Bool)
    (h1 : p ⟨.warning, e.line_start, .noArabicChars, e.msgstr.take 60⟩ = false)
    (h2 : p ⟨.error, e.line_start, .mojibake, e.msgstr.take 60⟩ = false)
    (h3 : ∀ ms, p ⟨.info, e.line_start, .rtlMarksInfo ms, e.msgstr.take 40⟩ = false) :
    (Validator.check_arabic_specific e).countP p = 0 := by
  unfold Validator.check_arabic_specific
  simp only [List.countP_append]
  split_ifs <;> simp [List.countP_cons, h1, h2, h3]

/-- Counting the direction-control info findings of the Arabic-specific
check: exactly one when a mark is present. -/
theorem countP_check_arabic_marks (e : Validator.PoEntry)
    (p : Validator.ValidationIssue → Bool)
    (h1 : p ⟨.warning, e.line_start, .noArabicChars, e.msgstr.take 60⟩ = false)
    (h2 : p ⟨.error, e.line_start, .mojibake, e.msgstr.take 60⟩ = false)
    (h3 : ∀ ms, p ⟨.info, e.line_start, .rtlMarksInfo ms, e.msgstr.take 40⟩ = true) :
    (Validator.check_arabic_specific e).countP p =
      if (e.msgstr.filter (fun ch => Validator.RTL_MARKS.contains ch)) ≠ [] then 1 else 0 := by
  unfold Validator.check_arabic_specific
  simp only [List.countP_append]
  split_ifs <;> simp_all [List.countP_cons, h1, h2, h3]

/-- Counting the override error of the bidi check: exactly one when an
override character is present. -/
theorem countP_check_bidi (e : Validator.PoEntry) (p : Validator.ValidationIssue → Bool)
    (hp : p ⟨.error, e.line_start, .bidiOverride, []⟩ = true) (hms : e.msgstr ≠ []) :
    (Validator.check_bidi_issues e).countP p =
      if (e.msgstr.filter (fun ch => ch = '‮' ∨ ch = '‭')) ≠ [] then 1 else 0 := by
  unfold Validator.check_bidi_issues
  rw [if_neg hms]
  split_ifs <;> simp_all [List.countP_cons, hp]

/-- The bidi-override error contributes nothing to a count of other
findings. -/
theorem countP_check_bidi_zero (e : Validator.PoEntry) (p : Validator.ValidationIssue → Bool)
    (hp : p ⟨.error, e.line_start, .bidiOverride, []⟩ = false) :
    (Validator.check_bidi_issues e).countP p = 0 := by
  unfold Validator.check_bidi_issues
  split_ifs <;> simp_all [List.countP_cons, hp]

/-- The whitespace findings contribute nothing to a count of other
findings. -/
theorem countP_check_whitespace (e : Validator.PoEntry) (p : Validator.ValidationIssue → Bool)
    (h1 : ∀ a b, p ⟨.info, e.line_start, .leadingWsDiff a b, e.msgid.take 40⟩ = false)
    (h2 : ∀ a b, p ⟨.info, e.line_start, .trailingWsDiff a b, e.msgid.take 40⟩ = false) :
    (Validator.check_whitespace e).countP p = 0 := by
  unfold Validator.check_whitespace
  simp only [List.countP_append]
  split_ifs <;> simp [List.countP_cons, h1, h2]

/-- C7 (amended): for every validated non-obsolete, translated entry, a
translation containing either directional-override character (U+202D/U+202E)
receives exactly one bidi-override error finding, regardless of the language
hint; the info finding listing the direction-control characters present is
emitted (exactly once, overrides included in its listing) only under an
Arabic language hint. -/
theorem C7_bidi_findings (lang : Str) (strict : Bool) (e : Validator.PoEntry)
    (hobs : e.is_obsolete = false) (hms : e.msgstr ≠ []) :
    ((Validator.check_entry lang strict e).countP
        (fun i => i.message == Validator.VMsg.bidiOverride) =
      if (e.msgstr.filter (fun ch => ch = '‮' ∨ ch = '‭')) ≠ [] then 1 else 0) ∧
    (Validator.is_arabic lang = true →
      (Validator.check_entry lang strict e).countP
        (fun i => match i.message with
          | Validator.VMsg.rtlMarksInfo _ => true
          | _ => false) =
      if (e.msgstr.filter (fun ch => Validator.RTL_MARKS.contains ch)) ≠ [] then 1
      else 0) := by
  have hobs' : ¬(e.is_obsolete = true) := by rw [hobs]; exact Bool.false_ne_true
  constructor
  · unfold Validator.check_entry
    rw [if_neg hobs', if_neg hms]
    simp only [List.countP_append]
    rw [countP_check_fuzzy e _ rfl,
      countP_if_list, countP_check_format e _ (fun a b => rfl) (fun ns => rfl),
      countP_if_list, countP_check_arabic_zero e _ rfl rfl (fun ms => rfl),
      countP_check_bidi e _ rfl hms,
      countP_check_whitespace e _ (fun a b => rfl) (fun a b => rfl)]
    simp
  · intro har
    unfold Validator.check_entry
    rw [if_neg hobs', if_neg hms]
    simp only [List.countP_append]
    rw [countP_check_fuzzy e _ rfl,
      countP_if_list, countP_check_format e _ (fun a b => rfl) (fun ns => rfl),
      countP_check_bidi_zero e _ rfl,
      countP_check_whitespace e _ (fun a b => rfl) (fun a b => rfl),
      if_pos (And.intro har hms),
      countP_check_arabic_marks e _ rfl rfl (fun ms => rfl)]
    simp

/-- Witness for C7: under the Arabic hint, the translation `"b‮c"`
containing the right-to-left override receives exactly one bidi-override
error and exactly one direction-control info finding. -/
theorem C7_bidi_findings_witness :
    ((Validator.check_entry (str "ar") false Ex.vOverride).countP
        (fun i => i.message == Validator.VMsg.bidiOverride) = 1) ∧
    ((Validator.check_entry (str "ar") false Ex.vOverride).countP
        (fun i => match i.message with
          | Validator.VMsg.rtlMarksInfo _ => true
          | _ => false) = 1) := by
  have h := C7_bidi_findings (str "ar") false Ex.vOverride rfl (by decide)
  exact ⟨by rw [h.1]; decide, by rw [h.2 (by decide)]; decide⟩

/-- `filter` pushed through an `if` on lists. -/
theorem filter_if_list (c : Prop) [Decidable c] (l1 l2 : List Validator.ValidationIssue)
    (p : Validator.ValidationIssue → Bool) :
    (if c then l1 else l2).filter p = if c then l1.filter p else l2.filter p := by
  by_cases h : c <;> simp [h]

/-- The fuzzy warning survives no filter for other findings. -/
theorem filter_check_fuzzy (e : Validator.PoEntry) (p : Validator.ValidationIssue → Bool)
    (h : p ⟨.warning, e.line_start, .fuzzyTranslation, e.msgid.take 60⟩ = false) :
    (if e.is_fuzzy then
      [(⟨.warning, e.line_start, .fuzzyTranslation, e.msgid.take 60⟩ :
        Validator.ValidationIssue)]
     else []).filter p = [] := by
  cases hf : e.is_fuzzy <;> simp [h]

/-- The Arabic-specific findings survive no filter for other findings. -/
theorem filter_check_arabic_zero (e : Validator.PoEntry)
    (p : Validator.ValidationIssue → Bool)
    (h1 : p ⟨.warning, e.line_start, .noArabicChars, e.msgstr.take 60⟩ = false)
    (h2 : p ⟨.error, e.line_start, .mojibake, e.msgstr.take 60⟩ = false)
    (h3 : ∀ ms, p ⟨.info, e.line_start, .rtlMarksInfo ms, e.msgstr.take 40⟩ = false) :
    (Validator.check_arabic_specific e).filter p = [] := by
  unfold Validator.check_arabic_specific
  simp only [List.filter_append]
  split_ifs <;> simp [h1, h2, h3]

/-- The bidi-override error survives no filter for other findings. -/
theorem filter_check_bidi_zero (e : Validator.PoEntry) (p : Validator.ValidationIssue → Bool)
    (hp : p ⟨.error, e.line_start, .bidiOverride, []⟩ = false) :
    (Validator.check_bidi_issues e).filter p = [] := by
  unfold Validator.check_bidi_issues
  split_ifs <;> simp [hp]

/-- The whitespace findings survive no filter for other findings. -/
theorem filter_check_whitespace (e : Validator.PoEntry) (p : Validator.ValidationIssue → Bool)
    (h1 : ∀ a b, p ⟨.info, e.line_start, .leadingWsDiff a b, e.msgid.take 40⟩ = false)
    (h2 : ∀ a b, p ⟨.info, e.line_start, .trailingWsDiff a b, e.msgid.take 40⟩ = false) :
    (Validator.check_whitespace e).filter p = [] := by
  unfold Validator.check_whitespace
  simp only [List.filter_append]
  split_ifs <;> simp [h1, h2]

/-- The positional-count-mismatch finding of the format check, isolated. -/
theorem filter_check_format_mismatch (e : Validator.PoEntry) (hms : e.msgstr ≠ []) :
    (Validator.check_format_specifiers e).filter
      (fun i => match i.message with
        | Validator.VMsg.formatMismatch _ _ => true
        | _ => false) =
    (if ((Validator.findSpecs e.msgid).filter (fun sp => match sp with
          | Validator.FmtSpec.positional _ => true
          | _ => false)).length ≠
        ((Validator.findSpecs e.msgstr).filter (fun sp => match sp with
          | Validator.FmtSpec.positional _ => true
          | _ => false)).length then
      [⟨.error, e.line_start,
        .formatMismatch
          ((Validator.findSpecs e.msgid).filter (fun sp => match sp with
            | Validator.FmtSpec.positional _ => true
            | _ => false)).length
          ((Validator.findSpecs e.msgstr).filter (fun sp => match sp with
            | Validator.FmtSpec.positional _ => true
            | _ => false)).length,
        e.msgid.take 60⟩]
     else []) := by
  unfold Validator.check_format_specifiers
  simp only [List.filter_append, if_neg, hms, if_pos]
  rw [if_pos hms]
  split_ifs <;> simp

/-- The missing-named-specifier finding of the format check, isolated. -/
theorem filter_check_format_missing (e : Validator.PoEntry) (hms : e.msgstr ≠ []) :
    (Validator.check_format_specifiers e).filter
      (fun i => match i.message with
        | Validator.VMsg.missingNamed _ => true
        | _ => false) =
    (if (Validator.namedSet (Validator.findSpecs e.msgid)).filter
          (fun n => !(Validator.namedSet (Validator.findSpecs e.msgstr)).contains n) ≠ [] then
      [⟨.error, e.line_start,
        .missingNamed ((Validator.namedSet (Validator.findSpecs e.msgid)).filter
          (fun n => !(Validator.namedSet (Validator.findSpecs e.msgstr)).contains n)),
        e.msgid.take 60⟩]
     else []) := by
  unfold Validator.check_format_specifiers
  simp only [List.filter_append]
  rw [if_pos hms]
  split_ifs <;> simp

/-- C8 (amended): the format-specifier parity check runs only for entries
carrying the exact flag `python-format` (not any `…-format` flag); for such a
non-obsolete, translated entry it emits the positional-count-mismatch error
(reporting both counts) exactly when the counts of unnamed specifiers
differ, and the missing-named-specifier error (listing the missing names)
exactly when some named specifier of the source is absent from the
translation. -/
theorem C8_format_findings (lang : Str) (strict : Bool) (e : Validator.PoEntry)
    (hobs : e.is_obsolete = false) (hms : e.msgstr ≠ [])
    (hflag : e.flags.contains (str "python-format") = true) :
    ((Validator.check_entry lang strict e).filter
      (fun i => match i.message with
        | Validator.VMsg.formatMismatch _ _ => true
        | _ => false) =
    (if ((Validator.findSpecs e.msgid).filter (fun sp => match sp with
          | Validator.FmtSpec.positional _ => true
          | _ => false)).length ≠
        ((Validator.findSpecs e.msgstr).filter (fun sp => match sp with
          | Validator.FmtSpec.positional _ => true
          | _ => false)).length then
      [⟨.error, e.line_start,
        .formatMismatch
          ((Validator.findSpecs e.msgid).filter (fun sp => match sp with
            | Validator.FmtSpec.positional _ => true
            | _ => false)).length
          ((Validator.findSpecs e.msgstr).filter (fun sp => match sp with
            | Validator.FmtSpec.positional _ => true
            | _ => false)).length,
        e.msgid.take 60⟩]
     else [])) ∧
    ((Validator.check_entry lang strict e).filter
      (fun i => match i.message with
        | Validator.VMsg.missingNamed _ => true
        | _ => false) =
    (if (Validator.namedSet (Validator.findSpecs e.msgid)).filter
          (fun n => !(Validator.namedSet (Validator.findSpecs e.msgstr)).contains n) ≠ [] then
      [⟨.error, e.line_start,
        .missingNamed ((Validator.namedSet (Validator.findSpecs e.msgid)).filter
          (fun n => !(Validator.namedSet (Validator.findSpecs e.msgstr)).contains n)),
        e.msgid.take 60⟩]
     else [])) := by
  have hobs' : ¬(e.is_obsolete = true) := by rw [hobs]; exact Bool.false_ne_true
  constructor
  · unfold Validator.check_entry
    rw [if_neg hobs', if_neg hms]
    simp only [List.filter_append]
    rw [filter_check_fuzzy e _ rfl,
      filter_if_list, filter_if_list,
      filter_check_arabic_zero e _ rfl rfl (fun ms => rfl),
      filter_check_bidi_zero e _ rfl,
      filter_check_whitespace e _ (fun a b => rfl) (fun a b => rfl),
      filter_check_format_mismatch e hms,
      if_pos hflag]
    simp
  · unfold Validator.check_entry
    rw [if_neg hobs', if_neg hms]
    simp only [List.filter_append]
    rw [filter_check_fuzzy e _ rfl,
      filter_if_list, filter_if_list,
      filter_check_arabic_zero e _ rfl rfl (fun ms => rfl),
      filter_check_bidi_zero e _ rfl,
      filter_check_whitespace e _ (fun a b => rfl) (fun a b => rfl),
      filter_check_format_missing e hms,
      if_pos hflag]
    simp

/-- Witness for C8: the spec's example — source `"Hello %s, you have %d
items"` with flag `python-format` and translation `"Bonjour %s"` — yields
exactly one format finding, the positional-count mismatch reporting 2 vs 1,
and no missing-named finding. -/
theorem C8_format_findings_witness :
    (Validator.check_entry (str "fr") false Ex.vPyFmt).filter
      (fun i => match i.message with
        | Validator.VMsg.formatMismatch _ _ => true
        | _ => false) =
      [⟨.error, 7, .formatMismatch 2 1, str "Hello %s, you have %d items"⟩] ∧
    (Validator.check_entry (str "fr") false Ex.vPyFmt).filter
      (fun i => match i.message with
        | Validator.VMsg.missingNamed _ => true
        | _ => false) = [] := by
  have h := C8_format_findings (str "fr") false Ex.vPyFmt rfl (by decide) (by decide)
  exact ⟨by rw [h.1]; decide, by rw [h.2]; decide⟩

/-- The format-specifier findings survive no filter for other findings. -/
theorem filter_check_format_zero (e : Validator.PoEntry)
    (p : Validator.ValidationIssue → Bool)
    (h1 : ∀ a b, p ⟨.error, e.line_start, .formatMismatch a b, e.msgid.take 60⟩ = false)
    (h2 : ∀ ns, p ⟨.error, e.line_start, .missingNamed ns, e.msgid.take 60⟩ = false) :
    (Validator.check_format_specifiers e).filter p = [] := by
  unfold Validator.check_format_specifiers
  simp only [List.filter_append]
  split_ifs <;> simp [h1, h2]

/-- The per-entry checks emit no duplicate-msgid finding. -/
theorem filter_check_entry_dup (lang : Str) (strict : Bool) (e : Validator.PoEntry) :
    (Validator.check_entry lang strict e).filter
      (fun i => match i.message with
        | Validator.VMsg.duplicateMsgid _ => true
        | _ => false) = [] := by
  unfold Validator.check_entry
  by_cases hobs : e.is_obsolete
  · simp [hobs]
  · rw [if_neg hobs]
    simp only [List.filter_append]
    rw [filter_check_fuzzy e _ rfl]
    by_cases hms : e.msgstr = []
    · rw [if_pos hms]
      simp
    · rw [if_neg hms]
      simp only [List.filter_append]
      rw [filter_if_list, filter_if_list,
        filter_check_format_zero e _ (fun a b => rfl) (fun ns => rfl),
        filter_check_arabic_zero e _ rfl rfl (fun ms => rfl),
        filter_check_bidi_zero e _ rfl,
        filter_check_whitespace e _ (fun a b => rfl) (fun a b => rfl)]
      simp

/-- The header checks emit no duplicate-msgid finding. -/
theorem filter_check_header_dup (arabic : Bool) (header : Option Validator.PoEntry) :
    (Validator.check_header arabic header).filter
      (fun i => match i.message with
        | Validator.VMsg.duplicateMsgid _ => true
        | _ => false) = [] := by
  unfold Validator.check_header
  cases header with
  | none => rfl
  | some h =>
    simp only [List.filter_append]
    cases hcs : Validator.findCharset h.msgstr <;>
      cases hnp : Validator.findNplurals h.msgstr <;>
        (dsimp only; split_ifs <;> rfl)

/-- The duplicate-check fold, related to the specification-style scan: with a
`seen` map recording exactly the first line of each msgid of `prev`, the fold
appends precisely `dupSpecGo prev es` to its accumulator. -/
theorem check_dup_go_eq (es : List Validator.PoEntry)
    (acc : List Validator.ValidationIssue)
    (prev : List Validator.PoEntry) (seen : List (Str × Nat))
    (hrel : ∀ k : Str, seen.find? (fun p => p.1 = k) =
      (prev.find? (fun q => q.msgid = k)).map (fun q => (k, q.line_start))) :
    (es.foldl (fun (acc : List Validator.ValidationIssue × List (Str × Nat)) e =>
      match acc.2.find? (fun p => p.1 = e.msgid) with
      | some p =>
        (acc.1 ++ [⟨.error, e.line_start, .duplicateMsgid p.2, e.msgid.take 60⟩], acc.2)
      | none => (acc.1, acc.2 ++ [(e.msgid, e.line_start)])) (acc, seen)).1 =
    acc ++ Validator.dupSpecGo prev es := by
  induction es generalizing acc prev seen with
  | nil => simp [Validator.dupSpecGo]
  | cons e rest ih =>
    rw [List.foldl_cons]
    simp only [Validator.dupSpecGo]
    have h := hrel e.msgid
    cases hfp : prev.find? (fun q => q.msgid = e.msgid) with
    | some q =>
      rw [hfp] at h
      simp only [Option.map_some'] at h
      have hrel' : ∀ k : Str, seen.find? (fun p => p.1 = k) =
          ((prev ++ [e]).find? (fun q => q.msgid = k)).map (fun q => (k, q.line_start)) := by
        intro k
        rw [List.find?_append]
        cases hp : prev.find? (fun q => q.msgid = k) with
        | some q' =>
          rw [Option.or_some]
          rw [hrel k, hp]
        | none =>
          rw [Option.none_or]
          have h0 := hrel k
          rw [hp] at h0
          simp only [Option.map_none'] at h0
          rw [h0]
          by_cases hk : e.msgid = k
          · rw [← hk] at hp
            rw [hfp] at hp
            cases hp
          · simp [List.find?_cons, hk]
      rw [h]
      dsimp only
      rw [ih _ _ _ hrel']
      simp [List.append_assoc]
    | none =>
      rw [hfp] at h
      simp only [Option.map_none'] at h
      have hrel' : ∀ k : Str, (seen ++ [(e.msgid, e.line_start)]).find? (fun p => p.1 = k) =
          ((prev ++ [e]).find? (fun q => q.msgid = k)).map (fun q => (k, q.line_start)) := by
        intro k
        rw [List.find?_append, List.find?_append]
        cases hp : prev.find? (fun q => q.msgid = k) with
        | some q' =>
          simp [hrel k, hp]
        | none =>
          have h0 := hrel k
          rw [hp] at h0
          simp only [Option.map_none'] at h0
          rw [h0, Option.none_or, Option.none_or]
          by_cases hk : e.msgid = k
          · simp [List.find?_cons, hk]
          · simp [List.find?_cons, hk]
      rw [h]
      dsimp only
      rw [ih _ _ _ hrel']
      simp

/-- The implementation's duplicate check equals the specification-style
scan. -/
theorem check_dup_eq_dupSpec (es : List Validator.PoEntry) :
    Validator.check_duplicate_msgids es = Validator.dupSpec es := by
  unfold Validator.check_duplicate_msgids Validator.dupSpec
  exact check_dup_go_eq es [] [] [] (fun k => rfl)

/-- Every finding of the specification-style scan is a duplicate-msgid
error, so the duplicate filter keeps them all. -/
theorem filter_dupSpecGo (prev : List Validator.PoEntry) (es : List Validator.PoEntry) :
    (Validator.dupSpecGo prev es).filter
      (fun i => match i.message with
        | Validator.VMsg.duplicateMsgid _ => true
        | _ => false) = Validator.dupSpecGo prev es := by
  induction es generalizing prev with
  | nil => rfl
  | cons e rest ih =>
    simp only [Validator.dupSpecGo, List.filter_append]
    cases prev.find? (fun q => q.msgid = e.msgid) <;> simp [ih]

/-- The per-entry phase of `validate_all` contributes no duplicate-msgid
finding. -/
theorem filter_entries_dup (lang : Str) (strict : Bool)
    (es : List Validator.PoEntry) :
    ((es.map (Validator.check_entry lang strict)).flatten).filter
      (fun i => match i.message with
        | Validator.VMsg.duplicateMsgid _ => true
        | _ => false) = [] := by
  induction es with
  | nil => rfl
  | cons e rest ih =>
    simp only [List.map_cons, List.flatten_cons, List.filter_append,
      filter_check_entry_dup, ih, List.append_nil]

/-- C9 (amended): the duplicate-msgid findings of a validation run are
exactly those of a scan over all non-header entries — obsolete entries
included — in which each entry whose msgid occurred earlier receives one
error at its own line citing the line of the first non-header entry with
that msgid. -/
theorem C9_duplicates_refine (lang : Str) (strict : Bool)
    (entries : List Validator.PoEntry) :
    (Validator.validate_all lang strict entries).filter
      (fun i => match i.message with
        | Validator.VMsg.duplicateMsgid _ => true
        | _ => false) =
    Validator.dupSpec (entries.filter (fun e => !e.is_header)) := by
  unfold Validator.validate_all
  by_cases he : entries = []
  · rw [if_pos he, he]
    rfl
  · rw [if_neg he]
    simp only [List.filter_append]
    rw [filter_check_header_dup, filter_entries_dup, check_dup_eq_dupSpec]
    unfold Validator.dupSpec
    rw [filter_dupSpecGo]
    simp

/-- One unfolding of the validator scan loop. -/
theorem runLinesV_cons (s : Validator.VState) (n : Nat) (raw : Str) (rest : List Str) :
    Validator.runLinesV s n (raw :: rest) =
      match Validator.stepLineV s n raw with
      | none => none
      | some s' => Validator.runLinesV s' (n + 1) rest := rfl

/-- The validator scan loop returns a state (never crashes) when every
translation directive and continuation line arrives while an entry is open,
given that an open scanner state guarantees an entry under construction. -/
theorem runLinesV_safe (lines : List Str) (s : Validator.VState) (n : Nat)
    (opened : Bool)
    (hsafe : Validator.safeLinesGo opened lines = true)
    (hinv : opened = true → s.current.isSome = true) :
    (Validator.runLinesV s n lines).isSome = true := by
  induction lines generalizing s n opened with
  | nil => rfl
  | cons raw rest ih =>
    rw [runLinesV_cons]
    unfold Validator.stepLineV
    unfold Validator.safeLinesGo at hsafe
    by_cases h1 : pyStrip raw = []
    · rw [if_pos h1] at hsafe
      rw [if_pos h1]
      exact ih (Validator.finalizeV s) (n + 1) false hsafe (fun h => nomatch h)
    · rw [if_neg h1] at hsafe ⊢
      by_cases h2 : (str "#").isPrefixOf (pyStrip raw)
      · rw [if_pos h2] at hsafe ⊢
        split_ifs <;> exact ih _ (n + 1) true hsafe (fun _ => rfl)
      · rw [if_neg h2] at hsafe ⊢
        by_cases h3 : (str "msgid ").isPrefixOf (pyStrip raw)
        · rw [if_pos h3] at hsafe ⊢
          cases hpv : Validator.parseStringV ((pyStrip raw).drop 6) <;>
            exact ih _ (n + 1) true hsafe (fun _ => rfl)
        · rw [if_neg h3] at hsafe ⊢
          by_cases h4 : (str "msgstr ").isPrefixOf (pyStrip raw)
          · rw [if_pos h4] at hsafe ⊢
            rw [Bool.and_eq_true] at hsafe
            obtain ⟨hop, hrest⟩ := hsafe
            obtain ⟨cur, hcur⟩ := Option.isSome_iff_exists.mp (hinv hop)
            cases hpv : Validator.parseStringV ((pyStrip raw).drop 7) with
            | ok v =>
              rw [hcur]
              exact ih _ (n + 1) opened hrest (fun _ => rfl)
            | error m =>
              exact ih _ (n + 1) opened hrest (fun h => hinv h)
          · rw [if_neg h4] at hsafe ⊢
            by_cases h5 : (str "\"").isPrefixOf (pyStrip raw)
            · rw [if_pos h5] at hsafe
              rw [Bool.and_eq_true] at hsafe
              obtain ⟨hop, hrest⟩ := hsafe
              obtain ⟨cur, hcur⟩ := Option.isSome_iff_exists.mp (hinv hop)
              by_cases hm : (s.mode = some Converter.PMode.msgid ∨
                  s.mode = some Converter.PMode.msgstr)
              · rw [if_pos (And.intro h5 hm)]
                cases hpv : Validator.parseStringV (pyStrip raw) with
                | ok chunk =>
                  rw [hcur]
                  split_ifs <;> exact ih _ (n + 1) opened hrest (fun _ => rfl)
                | error m =>
                  exact ih _ (n + 1) opened hrest (fun h => hinv h)
              · rw [if_neg (fun hc => hm hc.2)]
                exact ih _ (n + 1) opened hrest (fun h => hinv h)
            · rw [if_neg h5] at hsafe
              rw [if_neg (fun hc => h5 hc.1)]
              exact ih _ (n + 1) opened hsafe (fun h => hinv h)

/-- C3 (amended): the validator's parse returns a (catalog, parse-errors)
pair — it cannot crash — for every input text in which each translation
directive and each continuation line occurs while an entry is open (after a
comment or msgid line with no intervening blank line); recoverable
malformations only add parse errors. -/
theorem C3_no_crash (content : Str)
    (hsafe : Validator.safeLines (pySplitlines content) = true) :
    (Validator.parseV content).isSome = true := by
  unfold Validator.parseV Validator.parseLinesV
  have h := runLinesV_safe (pySplitlines content) {} 1 false hsafe (fun h => nomatch h)
  obtain ⟨s', hs'⟩ := Option.isSome_iff_exists.mp h
  rw [hs']
  rfl

/-- Witness for C3: a damaged but safe input — a malformed `msgstr x`
literal followed by an unrecognizable line — still parses to a pair. -/
theorem C3_no_crash_witness :
    (Validator.parseV (str "msgid \"a\"\nmsgstr x\ngarbage")).isSome = true :=
  C3_no_crash (str "msgid \"a\"\nmsgstr x\ngarbage") (by decide)

/-- Keeping an entry against itself changes nothing: the location overwrite
`new.locations or base.locations` is the identity when both are the same
entry. -/
theorem updateLocations_self (e : Converter.PoEntry) :
    Converter.updateLocations e e = e := by
  unfold Converter.updateLocations
  split <;> rfl

/-- Inserting a fresh key appends the binding. -/
theorem dictInsert_append (m : List (Str × Converter.PoEntry)) (k : Str)
    (v : Converter.PoEntry) (h : m.any (fun p => p.1 = k) = false) :
    Converter.dictInsert m k v = m ++ [(k, v)] := by
  unfold Converter.dictInsert
  rw [if_neg (by rw [h]; exact Bool.false_ne_true)]

/-- Building the msgid map over header-free, msgid-distinct entries appends
one binding per entry, in order. -/
theorem buildMap_go_nodup (es : List Converter.PoEntry)
    (m : List (Str × Converter.PoEntry))
    (hnh : ∀ e ∈ es, e.is_header = false)
    (hn : (es.map (fun e => e.msgid)).Nodup)
    (hdisj : ∀ e ∈ es, m.any (fun p => p.1 = e.msgid) = false) :
    es.foldl (fun m e =>
      if e.is_header then m else Converter.dictInsert m e.msgid e) m =
      m ++ es.map (fun e => (e.msgid, e)) := by
  induction es generalizing m with
  | nil => simp
  | cons e rest ih =>
    rw [List.map_cons, List.foldl_cons,
      if_neg (by rw [hnh e (List.mem_cons_self e rest)]; exact Bool.false_ne_true)]
    rw [dictInsert_append m e.msgid e (hdisj e (List.mem_cons_self e rest))]
    obtain ⟨hnotmem, hn'⟩ := List.nodup_cons.mp hn
    rw [ih (m ++ [(e.msgid, e)])
      (fun x hx => hnh x (List.mem_cons_of_mem _ hx)) hn'
      (fun x hx => by
        rw [List.any_append]
        rw [hdisj x (List.mem_cons_of_mem _ hx)]
        simp only [Bool.false_or, List.any_cons, List.any_nil, Bool.or_false]
        simp only [decide_eq_false_iff_not]
        exact fun he => hnotmem (by
          show e.msgid ∈ List.map (fun e => e.msgid) rest
          rw [he]
          exact List.mem_map_of_mem _ hx))]
    simp [List.append_assoc]

/-- The msgid map of header-free, msgid-distinct entries is the literal
association list. -/
theorem buildMap_eq_of_nodup (es : List Converter.PoEntry)
    (hnh : ∀ e ∈ es, e.is_header = false)
    (hn : (es.map (fun e => e.msgid)).Nodup) :
    Converter.buildMap es = es.map (fun e => (e.msgid, e)) := by
  unfold Converter.buildMap
  rw [buildMap_go_nodup es [] hnh hn (fun e he => rfl)]
  rfl

/-- In the literal association list of msgid-distinct entries, every entry is
found under its own msgid. -/
theorem lookupD_map_pair (ts : List Converter.PoEntry)
    (hn : (ts.map (fun e => e.msgid)).Nodup) :
    ∀ e ∈ ts, Converter.lookupD (ts.map (fun e => (e.msgid, e))) e.msgid = some e := by
  induction ts with
  | nil => intro e he; cases he
  | cons x rest ih =>
    intro e he
    rw [List.map_cons, lookupD_cons]
    obtain ⟨hnotmem, hn'⟩ := List.nodup_cons.mp hn
    rcases List.mem_cons.mp he with rfl | hr
    · rw [if_pos rfl]
    · by_cases hx : x.msgid = e.msgid
      · refine absurd (?_ : x.msgid ∈ List.map (fun e => e.msgid) rest) hnotmem
        rw [hx]
        exact List.mem_map_of_mem (fun e => e.msgid) hr
      · rw [if_neg hx]
        exact ih hn' e hr

/-- The merge's incoming loop over a self-merge: every msgid is found, every
entry is preserved unchanged, and the counters advance by the list length. -/
theorem mergeNew_foldl (full : List (Str × Converter.PoEntry))
    (ts : List Converter.PoEntry) (acc0 : List Converter.PoEntry) (p0 a0 : Nat)
    (hlook : ∀ e ∈ ts, Converter.lookupD full e.msgid = some e) :
    ((ts.map (fun e => (e.msgid, e))).foldl (fun acc kv =>
      match Converter.lookupD full kv.1 with
      | some be => (acc.1 ++ [Converter.updateLocations be kv.2], acc.2.1 + 1, acc.2.2)
      | none => (acc.1 ++ [Converter.clone_empty kv.2], acc.2.1, acc.2.2 + 1))
      (acc0, p0, a0)) = (acc0 ++ ts, p0 + ts.length, a0) := by
  induction ts generalizing acc0 p0 with
  | nil => simp
  | cons e rest ih =>
    rw [List.map_cons, List.foldl_cons]
    have he := hlook e (List.mem_cons_self e rest)
    dsimp only
    rw [he]
    dsimp only
    rw [updateLocations_self,
      ih (acc0 ++ [e]) (p0 + 1) (fun x hx => hlook x (List.mem_cons_of_mem _ hx))]
    simp [List.append_assoc]
    omega

/-- The merge's obsoleting loop is a no-op when every msgid is still
present. -/
theorem mergeObs_foldl (full : List (Str × Converter.PoEntry))
    (ts : List Converter.PoEntry) (acc0 : List Converter.PoEntry) (o0 : Nat)
    (hlook : ∀ e ∈ ts, Converter.lookupD full e.msgid = some e) :
    ((ts.map (fun e => (e.msgid, e))).foldl (fun acc kv =>
      match Converter.lookupD full kv.1 with
      | some _ => acc
      | none => (acc.1 ++ [{ kv.2 with
          is_obsolete := true,
          comments := str "#~ obsolete" :: kv.2.comments }], acc.2 + 1))
      (acc0, o0)) = (acc0, o0) := by
  induction ts generalizing acc0 o0 with
  | nil => simp
  | cons e rest ih =>
    rw [List.map_cons, List.foldl_cons]
    have he := hlook e (List.mem_cons_self e rest)
    dsimp only
    rw [he]
    exact ih acc0 o0 (fun x hx => hlook x (List.mem_cons_of_mem _ hx))

/-- C4 counterexample: merging the two-entry catalog `[dupA, dupB]` (two
distinct entries sharing msgid `"x"`) with itself collapses the duplicate —
the result is neither the catalog itself nor `{preserved: 2, added: 0,
obsoleted: 0}`. -/
theorem C4_counterexample :
    Converter.mergePure [] [Ex.dupA, Ex.dupB] [Ex.dupA, Ex.dupB] ≠
      ([Ex.dupA, Ex.dupB], (2, 0, 0)) := by
  decide

/-- C4 (amended): merging a catalog with itself reproduces it exactly with
statistics `{preserved: N, added: 0, obsoleted: 0}` (`N` the number of
non-header entries), provided the non-header entries have pairwise-distinct
msgids, any header entry sits first (no header elsewhere), and the header's
msgstr contains no literal backslash (the parsed form — so the
revision-date rewrite, which looks for a literal backslash-`n`, leaves it
unchanged). -/
theorem C4_merge_idempotent (now : Str) (c : List Converter.PoEntry)
    (htl : ∀ e ∈ c.drop 1, e.is_header = false)
    (hnodup : ((c.filter (fun e => !e.is_header)).map (fun e => e.msgid)).Nodup)
    (hhdr : ∀ e ∈ c.head?, e.is_header = true → '\\' ∉ e.msgstr) :
    Converter.mergePure now c c = (c, (Converter.countNonHeader c, 0, 0)) := by
  cases c with
  | nil => rfl
  | cons hd t =>
    have htl' : ∀ e ∈ t, e.is_header = false := fun e he => htl e he
    by_cases hh : hd.is_header
    · have hfil : (hd :: t).filter (fun e => !e.is_header) = t := by
        rw [List.filter_cons]
        rw [if_neg (by rw [hh]; simp)]
        exact List.filter_eq_self.mpr (fun e he => by rw [htl' e he]; rfl)
      have hn : (t.map (fun e => e.msgid)).Nodup := by
        rw [hfil] at hnodup; exact hnodup
      have hbm : Converter.buildMap (hd :: t) = t.map (fun e => (e.msgid, e)) := by
        unfold Converter.buildMap
        rw [List.foldl_cons, if_pos hh]
        exact buildMap_go_nodup t [] htl' hn (fun e he => rfl)
      have hfind : (hd :: t).find? (fun e => e.is_header) = some hd :=
        List.find?_cons_of_pos _ hh
      have hsub : Converter.subRevDate now hd.msgstr = hd.msgstr :=
        subRevDate_eq_self now _ (hhdr hd (by simp) hh)
      unfold Converter.mergePure
      rw [hbm, hfind]
      dsimp only
      rw [Option.map_some']
      dsimp only
      rw [hsub]
      rw [mergeNew_foldl (t.map (fun e => (e.msgid, e))) t _ 0 0 (lookupD_map_pair t hn),
        mergeObs_foldl (t.map (fun e => (e.msgid, e))) t _ 0 (lookupD_map_pair t hn)]
      unfold Converter.countNonHeader
      rw [hfil]
      simp
    · have hh' : hd.is_header = false := by
        revert hh; cases hd.is_header <;> simp
      have hall : ∀ e ∈ hd :: t, e.is_header = false := fun e he => by
        rcases List.mem_cons.mp he with rfl | hr
        · exact hh'
        · exact htl' e hr
      have hfil : (hd :: t).filter (fun e => !e.is_header) = hd :: t :=
        List.filter_eq_self.mpr (fun e he => by rw [hall e he]; rfl)
      have hn : ((hd :: t).map (fun e => e.msgid)).Nodup := by
        rw [hfil] at hnodup; exact hnodup
      have hbm : Converter.buildMap (hd :: t) = (hd :: t).map (fun e => (e.msgid, e)) := by
        unfold Converter.buildMap
        exact buildMap_go_nodup (hd :: t) [] hall hn (fun e he => rfl)
      have hfind : (hd :: t).find? (fun e => e.is_header) = none :=
        List.find?_eq_none.mpr (fun e he => by rw [hall e he]; simp)
      unfold Converter.mergePure
      rw [hbm, hfind]
      dsimp only
      rw [mergeNew_foldl ((hd :: t).map (fun e => (e.msgid, e))) (hd :: t) _ 0 0
          (lookupD_map_pair (hd :: t) hn),
        mergeObs_foldl ((hd :: t).map (fun e => (e.msgid, e))) (hd :: t) _ 0
          (lookupD_map_pair (hd :: t) hn)]
      unfold Converter.countNonHeader
      rw [hfil]
      simp

/-- Witness for C4: a catalog with its header first and two distinct live
entries self-merges to itself with `{preserved: 2, added: 0, obsoleted: 0}`. -/
theorem C4_merge_idempotent_witness :
    Converter.mergePure (str "2026-10-12 00:00+0000") [Ex.hdr, Ex.dupA, Ex.obsE]
        [Ex.hdr, Ex.dupA, Ex.obsE] =
      ([Ex.hdr, Ex.dupA, Ex.obsE], (2, 0, 0)) := by
  have h := C4_merge_idempotent (str "2026-10-12 00:00+0000") [Ex.hdr, Ex.dupA, Ex.obsE]
    (by decide) (by decide) (by decide)
  rw [h]
  rfl

/-- One-character pattern prefix test, computed. -/
theorem isPrefixOf_single (p c : Char) (t : Str) :
    ([p].isPrefixOf (c :: t)) = (p == c) := by
  simp [List.isPrefixOf]

/-- Two-character pattern prefix test, computed. -/
theorem isPrefixOf_pair (p q c : Char) (t : Str) :
    ([p, q].isPrefixOf (c :: t)) = ((p == c) && [q].isPrefixOf t) := by
  simp [List.isPrefixOf]

/-- A single-character replace is a character map. -/
theorem pyReplaceGo_single (p : Char) (rep : Str) (s : Str) :
    pyReplaceGo [p] rep 0 s = s.flatMap (fun c => if c = p then rep else [c]) := by
  induction s with
  | nil => rfl
  | cons c rest ih =>
    rw [List.flatMap_cons]
    unfold pyReplaceGo
    dsimp only
    by_cases hc : c = p
    · rw [if_pos ⟨List.cons_ne_nil _ _, by rw [isPrefixOf_single]; exact beq_iff_eq.mpr hc.symm⟩]
      rw [if_pos hc, show [p].length - 1 = 0 from rfl, ih]
    · rw [if_neg (fun hand => hc (by
        have h2 := hand.2
        rw [isPrefixOf_single] at h2
        exact (beq_iff_eq.mp h2).symm))]
      rw [if_neg hc, ih]
      rfl

/-- `escape` is the per-character map `escChar`: each of its five passes has
a single-character pattern. -/
theorem escape_eq_flatMap (s : Str) :
    Converter.escape s = s.flatMap Converter.escChar := by
  have h1 : ∀ t : Str, pyReplace (str "\\") (str "\\\\") t =
      t.flatMap (fun c => if c = '\\' then str "\\\\" else [c]) :=
    fun t => pyReplaceGo_single '\\' (str "\\\\") t
  have h2 : ∀ t : Str, pyReplace (str "\"") (str "\\\"") t =
      t.flatMap (fun c => if c = '"' then str "\\\"" else [c]) :=
    fun t => pyReplaceGo_single '"' (str "\\\"") t
  have h3 : ∀ t : Str, pyReplace (str "\n") (str "\\n") t =
      t.flatMap (fun c => if c = '\n' then str "\\n" else [c]) :=
    fun t => pyReplaceGo_single '\n' (str "\\n") t
  have h4 : ∀ t : Str, pyReplace (str "\r") (str "\\r") t =
      t.flatMap (fun c => if c = '\r' then str "\\r" else [c]) :=
    fun t => pyReplaceGo_single '\r' (str "\\r") t
  have h5 : ∀ t : Str, pyReplace (str "\t") (str "\\t") t =
      t.flatMap (fun c => if c = '\t' then str "\\t" else [c]) :=
    fun t => pyReplaceGo_single '\t' (str "\\t") t
  unfold Converter.escape
  rw [h1, h2, h3, h4, h5, List.flatMap_assoc, List.flatMap_assoc,
    List.flatMap_assoc, List.flatMap_assoc]
  congr 1
  funext c
  by_cases hb : c = '\\'
  · subst hb; rfl
  by_cases hq : c = '"'
  · subst hq; rfl
  by_cases hn : c = '\n'
  · subst hn; rfl
  by_cases hr : c = '\r'
  · subst hr; rfl
  by_cases ht : c = '\t'
  · subst ht; rfl
  simp [Converter.escChar, hb, hq, hn, hr, ht]

/-- One-step unfolding of the scanner at skip level zero. -/
theorem pyReplaceGo_zero_cons (pat rep : Str) (c : Char) (t : Str) :
    pyReplaceGo pat rep 0 (c :: t) =
      if pat ≠ [] ∧ pat.isPrefixOf (c :: t) then
        rep ++ pyReplaceGo pat rep (pat.length - 1) t
      else c :: pyReplaceGo pat rep 0 t := rfl

/-- One-step unfolding of the scanner at skip level one. -/
theorem pyReplaceGo_one_cons (pat rep : Str) (c : Char) (t : Str) :
    pyReplaceGo pat rep 1 (c :: t) = pyReplaceGo pat rep 0 t := rfl

/-- A two-character pattern at the head of the scan is replaced and the scan
resumes after it. -/
theorem pyReplace_pair_match (p q : Char) (rep t : Str) :
    pyReplace [p, q] rep ([p, q] ++ t) = rep ++ pyReplace [p, q] rep t := by
  show pyReplaceGo [p, q] rep 0 (p :: q :: t) = rep ++ pyReplaceGo [p, q] rep 0 t
  rw [pyReplaceGo_zero_cons, if_pos ⟨List.cons_ne_nil _ _, by
    rw [isPrefixOf_pair, isPrefixOf_single]
    simp⟩]
  rw [show ([p, q] : Str).length - 1 = 1 from rfl, pyReplaceGo_one_cons]

/-- A head character where the pattern does not match is copied. -/
theorem pyReplace_cons_ne (pat rep : Str) (c : Char) (t : Str)
    (h : pat.isPrefixOf (c :: t) = false) :
    pyReplace pat rep (c :: t) = c :: pyReplace pat rep t := by
  show pyReplaceGo pat rep 0 (c :: t) = c :: pyReplaceGo pat rep 0 t
  rw [pyReplaceGo_zero_cons,
    if_neg (fun hand => by rw [h] at hand; exact Bool.false_ne_true hand.2)]

/-- Two-character pattern failure from a first-character mismatch. -/
theorem prefix_pair_false_fst (p q c : Char) (t : Str) (h : p ≠ c) :
    ([p, q].isPrefixOf (c :: t)) = false := by
  rw [isPrefixOf_pair]
  simp [h]

/-- Two-character pattern failure from a second-character mismatch. -/
theorem prefix_pair_false_snd (p q c2 : Char) (t : Str) (h : q ≠ c2) :
    ([p, q].isPrefixOf (p :: c2 :: t)) = false := by
  rw [isPrefixOf_pair, isPrefixOf_single]
  simp [h]

/-- First unescape pass on an escaped backslash-free string: the escaped
quote resolves, every other block survives. -/
theorem unescape_stage1 (s : Str) (h : '\\' ∉ s) :
    pyReplace ['\\', '"'] ['"'] (s.flatMap Converter.escChar) =
      s.flatMap Converter.escChar1 := by
  induction s with
  | nil => rfl
  | cons c rest ih =>
    have hc : c ≠ '\\' := fun e => h (e ▸ List.mem_cons_self c rest)
    have hmem : '\\' ∉ rest := fun m => h (List.mem_cons_of_mem _ m)
    rw [List.flatMap_cons, List.flatMap_cons]
    by_cases hq : c = '"'
    · subst hq
      rw [show Converter.escChar '"' = ['\\', '"'] from rfl,
        show Converter.escChar1 '"' = ['"'] from rfl,
        pyReplace_pair_match, ih hmem]
    · by_cases hn : c = '\n'
      · subst hn
        rw [show Converter.escChar '\n' = ['\\', 'n'] from rfl,
          show Converter.escChar1 '\n' = ['\\', 'n'] from rfl]
        simp only [List.cons_append, List.nil_append]
        rw [pyReplace_cons_ne _ _ _ _ (prefix_pair_false_snd _ _ _ _ (by decide)),
          pyReplace_cons_ne _ _ _ _ (prefix_pair_false_fst _ _ _ _ (by decide)),
          ih hmem]
      · by_cases hr : c = '\r'
        · subst hr
          rw [show Converter.escChar '\r' = ['\\', 'r'] from rfl,
            show Converter.escChar1 '\r' = ['\\', 'r'] from rfl]
          simp only [List.cons_append, List.nil_append]
          rw [pyReplace_cons_ne _ _ _ _ (prefix_pair_false_snd _ _ _ _ (by decide)),
            pyReplace_cons_ne _ _ _ _ (prefix_pair_false_fst _ _ _ _ (by decide)),
            ih hmem]
        · by_cases ht : c = '\t'
          · subst ht
            rw [show Converter.escChar '\t' = ['\\', 't'] from rfl,
              show Converter.escChar1 '\t' = ['\\', 't'] from rfl]
            simp only [List.cons_append, List.nil_append]
            rw [pyReplace_cons_ne _ _ _ _ (prefix_pair_false_snd _ _ _ _ (by decide)),
              pyReplace_cons_ne _ _ _ _ (prefix_pair_false_fst _ _ _ _ (by decide)),
              ih hmem]
          · rw [show Converter.escChar c = [c] from by
                simp [Converter.escChar, hc, hq, hn, hr, ht],
              show Converter.escChar1 c = [c] from by
                simp [Converter.escChar1, hq, hn, hr, ht]]
            simp only [List.cons_append, List.nil_append]
            rw [pyReplace_cons_ne _ _ _ _ (prefix_pair_false_fst _ _ _ _ (fun e => hc e.symm)),
              ih hmem]

/-- Second unescape pass: the escaped line feed resolves. -/
theorem unescape_stage2 (s : Str) (h : '\\' ∉ s) :
    pyReplace ['\\', 'n'] ['\n'] (s.flatMap Converter.escChar1) =
      s.flatMap Converter.escChar2 := by
  induction s with
  | nil => rfl
  | cons c rest ih =>
    have hc : c ≠ '\\' := fun e => h (e ▸ List.mem_cons_self c rest)
    have hmem : '\\' ∉ rest := fun m => h (List.mem_cons_of_mem _ m)
    rw [List.flatMap_cons, List.flatMap_cons]
    by_cases hn : c = '\n'
    · subst hn
      rw [show Converter.escChar1 '\n' = ['\\', 'n'] from rfl,
        show Converter.escChar2 '\n' = ['\n'] from rfl,
        pyReplace_pair_match, ih hmem]
    · by_cases hr : c = '\r'
      · subst hr
        rw [show Converter.escChar1 '\r' = ['\\', 'r'] from rfl,
          show Converter.escChar2 '\r' = ['\\', 'r'] from rfl]
        simp only [List.cons_append, List.nil_append]
        rw [pyReplace_cons_ne _ _ _ _ (prefix_pair_false_snd _ _ _ _ (by decide)),
          pyReplace_cons_ne _ _ _ _ (prefix_pair_false_fst _ _ _ _ (by decide)),
          ih hmem]
      · by_cases ht : c = '\t'
        · subst ht
          rw [show Converter.escChar1 '\t' = ['\\', 't'] from rfl,
            show Converter.escChar2 '\t' = ['\\', 't'] from rfl]
          simp only [List.cons_append, List.nil_append]
          rw [pyReplace_cons_ne _ _ _ _ (prefix_pair_false_snd _ _ _ _ (by decide)),
            pyReplace_cons_ne _ _ _ _ (prefix_pair_false_fst _ _ _ _ (by decide)),
            ih hmem]
        · rw [show Converter.escChar1 c = [c] from by
              by_cases hq : c = '"'
              · subst hq; rfl
              · simp [Converter.escChar1, hq, hn, hr, ht],
            show Converter.escChar2 c = [c] from by
              simp [Converter.escChar2, hr, ht]]
          simp only [List.cons_append, List.nil_append]
          rw [pyReplace_cons_ne _ _ _ _ (prefix_pair_false_fst _ _ _ _ (fun e => hc e.symm)),
            ih hmem]

/-- Third unescape pass: the escaped tab resolves. -/
theorem unescape_stage3 (s : Str) (h : '\\' ∉ s) :
    pyReplace ['\\', 't'] ['\t'] (s.flatMap Converter.escChar2) =
      s.flatMap Converter.escChar3 := by
  induction s with
  | nil => rfl
  | cons c rest ih =>
    have hc : c ≠ '\\' := fun e => h (e ▸ List.mem_cons_self c rest)
    have hmem : '\\' ∉ rest := fun m => h (List.mem_cons_of_mem _ m)
    rw [List.flatMap_cons, List.flatMap_cons]
    by_cases ht : c = '\t'
    · subst ht
      rw [show Converter.escChar2 '\t' = ['\\', 't'] from rfl,
        show Converter.escChar3 '\t' = ['\t'] from rfl,
        pyReplace_pair_match, ih hmem]
    · by_cases hr : c = '\r'
      · subst hr
        rw [show Converter.escChar2 '\r' = ['\\', 'r'] from rfl,
          show Converter.escChar3 '\r' = ['\\', 'r'] from rfl]
        simp only [List.cons_append, List.nil_append]
        rw [pyReplace_cons_ne _ _ _ _ (prefix_pair_false_snd _ _ _ _ (by decide)),
          pyReplace_cons_ne _ _ _ _ (prefix_pair_false_fst _ _ _ _ (by decide)),
          ih hmem]
      · rw [show Converter.escChar2 c = [c] from by
            simp [Converter.escChar2, hr, ht],
          show Converter.escChar3 c = [c] from by
            simp [Converter.escChar3, hr]]
        simp only [List.cons_append, List.nil_append]
        rw [pyReplace_cons_ne _ _ _ _ (prefix_pair_false_fst _ _ _ _ (fun e => hc e.symm)),
          ih hmem]

/-- Fourth unescape pass: the escaped carriage return resolves and the
string is fully restored. -/
theorem unescape_stage4 (s : Str) (h : '\\' ∉ s) :
    pyReplace ['\\', 'r'] ['\r'] (s.flatMap Converter.escChar3) = s := by
  induction s with
  | nil => rfl
  | cons c rest ih =>
    have hc : c ≠ '\\' := fun e => h (e ▸ List.mem_cons_self c rest)
    have hmem : '\\' ∉ rest := fun m => h (List.mem_cons_of_mem _ m)
    rw [List.flatMap_cons]
    by_cases hr : c = '\r'
    · subst hr
      rw [show Converter.escChar3 '\r' = ['\\', 'r'] from rfl,
        pyReplace_pair_match, ih hmem]
      rfl
    · rw [show Converter.escChar3 c = [c] from by
          simp [Converter.escChar3, hr]]
      simp only [List.cons_append, List.nil_append]
      rw [pyReplace_cons_ne _ _ _ _ (prefix_pair_false_fst _ _ _ _ (fun e => hc e.symm)),
        ih hmem]

/-- Fifth unescape pass: no escaped backslash exists in a backslash-free
string, so the pass is the identity. -/
theorem unescape_stage5 (s : Str) (h : '\\' ∉ s) :
    pyReplace ['\\', '\\'] ['\\'] s = s := by
  induction s with
  | nil => rfl
  | cons c rest ih =>
    have hc : c ≠ '\\' := fun e => h (e ▸ List.mem_cons_self c rest)
    have hmem : '\\' ∉ rest := fun m => h (List.mem_cons_of_mem _ m)
    rw [pyReplace_cons_ne _ _ _ _ (prefix_pair_false_fst _ _ _ _ (fun e => hc e.symm)),
      ih hmem]

/-- For backslash-free strings the five sequential unescape passes invert
the five sequential escape passes. -/
theorem unescape_of_escape (s : Str) (h : '\\' ∉ s) :
    Converter.unescapePo (Converter.escape s) = s := by
  unfold Converter.unescapePo
  rw [escape_eq_flatMap]
  rw [show (str "\\\"" : Str) = ['\\', '"'] from rfl,
    show (str "\"" : Str) = ['"'] from rfl,
    show (str "\\n" : Str) = ['\\', 'n'] from rfl,
    show (str "\n" : Str) = ['\n'] from rfl,
    show (str "\\t" : Str) = ['\\', 't'] from rfl,
    show (str "\t" : Str) = ['\t'] from rfl,
    show (str "\\r" : Str) = ['\\', 'r'] from rfl,
    show (str "\r" : Str) = ['\r'] from rfl,
    show (str "\\\\" : Str) = ['\\', '\\'] from rfl,
    show (str "\\" : Str) = ['\\'] from rfl]
  rw [unescape_stage1 s h, unescape_stage2 s h, unescape_stage3 s h,
    unescape_stage4 s h, unescape_stage5 s h]

/-- One-step unfolding of the split scanner at skip level zero. -/
theorem pySplitOnGo_zero_cons (pat : Str) (c : Char) (t : Str) :
    pySplitOnGo pat 0 (c :: t) =
      if pat ≠ [] ∧ pat.isPrefixOf (c :: t) then
        [] :: pySplitOnGo pat (pat.length - 1) t
      else
        match pySplitOnGo pat 0 t with
        | [] => [[c]]
        | p :: ps => (c :: p) :: ps := rfl

/-- One-step unfolding of the split scanner at skip level one. -/
theorem pySplitOnGo_one_cons (pat : Str) (c : Char) (t : Str) :
    pySplitOnGo pat 1 (c :: t) = pySplitOnGo pat 0 t := rfl

/-- The split scanner never returns an empty piece list. -/
theorem pySplitOnGo_ne_nil (pat : Str) (s : Str) : ∀ (skip : Nat),
    pySplitOnGo pat skip s ≠ [] := by
  induction s with
  | nil => intro skip; simp [pySplitOnGo]
  | cons c t ih =>
    intro skip
    match skip with
    | k + 1 => exact ih k
    | 0 =>
      rw [pySplitOnGo_zero_cons]
      split_ifs
      · exact List.cons_ne_nil _ _
      · cases h : pySplitOnGo pat 0 t with
        | nil => exact absurd h (ih 0)
        | cons p ps => exact List.cons_ne_nil _ _

/-- A two-character separator at the head of the scan opens a new piece. -/
theorem pySplitOn_pair_match (p q : Char) (t : Str) :
    pySplitOn [p, q] ([p, q] ++ t) = [] :: pySplitOn [p, q] t := by
  show pySplitOnGo [p, q] 0 (p :: q :: t) = [] :: pySplitOnGo [p, q] 0 t
  rw [pySplitOnGo_zero_cons, if_pos ⟨List.cons_ne_nil _ _, by
    rw [isPrefixOf_pair, isPrefixOf_single]
    simp⟩]
  rw [show ([p, q] : Str).length - 1 = 1 from rfl, pySplitOnGo_one_cons]

/-- A head character where the separator does not match joins the first
piece. -/
theorem pySplitOn_cons_ne (pat : Str) (c : Char) (t h : Str) (hs : List Str)
    (hpre : pat.isPrefixOf (c :: t) = false)
    (ht : pySplitOn pat t = h :: hs) :
    pySplitOn pat (c :: t) = (c :: h) :: hs := by
  show pySplitOnGo pat 0 (c :: t) = (c :: h) :: hs
  rw [pySplitOnGo_zero_cons,
    if_neg (fun hand => by rw [hpre] at hand; exact Bool.false_ne_true hand.2)]
  rw [show pySplitOnGo pat 0 t = h :: hs from ht]

/-- On a one-character separator `pySplitOn` is `splitChar`. -/
theorem pySplitOnGo_single (p : Char) (s : Str) :
    pySplitOnGo [p] 0 s = splitChar p s := by
  induction s with
  | nil => rfl
  | cons c t ih =>
    rw [pySplitOnGo_zero_cons]
    simp only [splitChar]
    by_cases hc : c = p
    · rw [if_pos ⟨List.cons_ne_nil _ _, by rw [isPrefixOf_single]; simp [hc]⟩,
        if_pos hc, show ([p] : Str).length - 1 = 0 from rfl, ih]
    · rw [if_neg (fun hand => by
          rw [isPrefixOf_single] at hand
          exact hc (beq_iff_eq.mp hand.2).symm),
        if_neg hc, ih]

/-- On a one-character separator `pySplitOn` is `splitChar`. -/
theorem pySplitOn_single (p : Char) (s : Str) :
    pySplitOn [p] s = splitChar p s := pySplitOnGo_single p s

/-- `splitChar` never returns an empty piece list. -/
theorem splitChar_ne_nil (p : Char) (s : Str) : splitChar p s ≠ [] := by
  induction s with
  | nil => simp [splitChar]
  | cons c t ih =>
    simp only [splitChar]
    split_ifs
    · exact List.cons_ne_nil _ _
    · cases h : splitChar p t with
      | nil => exact absurd h ih
      | cons y ys => exact List.cons_ne_nil _ _

/-- One-step unfolding of `splitChar`. -/
theorem splitChar_cons (p c : Char) (t : Str) :
    splitChar p (c :: t) =
      if c = p then [] :: splitChar p t
      else
        match splitChar p t with
        | [] => [[c]]
        | h :: hs => (c :: h) :: hs := rfl

/-- A separator-free string is a single piece. -/
theorem splitChar_not_mem (p : Char) (s : Str) (h : p ∉ s) :
    splitChar p s = [s] := by
  induction s with
  | nil => rfl
  | cons c t ih =>
    rw [splitChar_cons,
      if_neg (fun e => h (by rw [← e]; exact List.mem_cons_self c t)),
      ih (fun m => h (List.mem_cons_of_mem _ m))]

/-- Splitting at the first separator occurrence. -/
theorem splitChar_append_sep (p : Char) (a t : Str) (ha : p ∉ a) :
    splitChar p (a ++ p :: t) = a :: splitChar p t := by
  induction a with
  | nil => rw [List.nil_append, splitChar_cons, if_pos rfl]
  | cons c a2 ih =>
    rw [List.cons_append, splitChar_cons,
      if_neg (fun e => ha (by rw [← e]; exact List.mem_cons_self c a2)),
      ih (fun m => ha (List.mem_cons_of_mem _ m))]

/-- `intercalate` over a singleton. -/
theorem intercalate_single {α : Type} (sep x : List α) :
    List.intercalate sep [x] = x := by
  simp [List.intercalate]

/-- `intercalate` over two-or-more pieces. -/
theorem intercalate_cons₂ {α : Type} (sep x y : List α) (l : List (List α)) :
    List.intercalate sep (x :: y :: l) = x ++ sep ++ List.intercalate sep (y :: l) := by
  simp [List.intercalate]

/-- Joining the split pieces with the separator restores the string. -/
theorem intercalate_splitChar (p : Char) (s : Str) :
    List.intercalate [p] (splitChar p s) = s := by
  induction s with
  | nil => simp [splitChar, List.intercalate]
  | cons c t ih =>
    rw [splitChar_cons]
    by_cases hc : c = p
    · rw [if_pos hc]
      obtain ⟨y, ys, hys⟩ := List.exists_cons_of_ne_nil (splitChar_ne_nil p t)
      rw [hys] at ih ⊢
      rw [intercalate_cons₂, ih, List.nil_append, hc]
      rfl
    · rw [if_neg hc]
      obtain ⟨y, ys, hys⟩ := List.exists_cons_of_ne_nil (splitChar_ne_nil p t)
      rw [hys] at ih ⊢
      dsimp only
      cases ys with
      | nil =>
        rw [intercalate_single] at ih ⊢
        rw [ih]
      | cons z zs =>
        rw [intercalate_cons₂] at ih ⊢
        rw [List.cons_append, List.cons_append, ih]

/-- Characters of a split piece come from the split string. -/
theorem mem_of_mem_splitChar (p : Char) (s : Str) : ∀ piece ∈ splitChar p s,
    ∀ c ∈ piece, c ∈ s := by
  induction s with
  | nil =>
    intro piece hp c hc
    simp [splitChar] at hp
    subst hp
    exact absurd hc (List.not_mem_nil c)
  | cons a t ih =>
    intro piece hp c hc
    rw [splitChar_cons] at hp
    by_cases ha : a = p
    · rw [if_pos ha] at hp
      rcases List.mem_cons.mp hp with h1 | h1
      · subst h1; exact absurd hc (List.not_mem_nil c)
      · exact List.mem_cons_of_mem _ (ih piece h1 c hc)
    · rw [if_neg ha] at hp
      obtain ⟨y, ys, hys⟩ := List.exists_cons_of_ne_nil (splitChar_ne_nil p t)
      rw [hys] at hp
      dsimp only at hp
      rcases List.mem_cons.mp hp with h1 | h1
      · subst h1
        rcases List.mem_cons.mp hc with h2 | h2
        · subst h2; exact List.mem_cons_self c t
        · exact List.mem_cons_of_mem _
            (ih y (hys ▸ List.mem_cons_self y ys) c h2)
      · exact List.mem_cons_of_mem _
          (ih piece (hys ▸ List.mem_cons_of_mem _ h1) c hc)

/-- The separator never occurs inside a split piece. -/
theorem not_mem_sep_of_mem_splitChar (p : Char) (s : Str) :
    ∀ piece ∈ splitChar p s, p ∉ piece := by
  induction s with
  | nil =>
    intro piece hp
    simp [splitChar] at hp
    subst hp
    exact List.not_mem_nil p
  | cons a t ih =>
    intro piece hp
    rw [splitChar_cons] at hp
    by_cases ha : a = p
    · rw [if_pos ha] at hp
      rcases List.mem_cons.mp hp with h1 | h1
      · subst h1; exact List.not_mem_nil p
      · exact ih piece h1
    · rw [if_neg ha] at hp
      obtain ⟨y, ys, hys⟩ := List.exists_cons_of_ne_nil (splitChar_ne_nil p t)
      rw [hys] at hp
      dsimp only at hp
      rcases List.mem_cons.mp hp with h1 | h1
      · subst h1
        intro hm
        rcases List.mem_cons.mp hm with h2 | h2
        · exact ha h2.symm
        · exact ih y (hys ▸ List.mem_cons_self y ys) h2
      · exact ih piece (hys ▸ List.mem_cons_of_mem _ h1)

/-- Splitting the escaped form of a backslash-free string at escaped
newlines is escaping each piece of the split at real newlines. -/
theorem pySplitOn_escape_flatMap (s : Str) (h : '\\' ∉ s) :
    pySplitOn ['\\', 'n'] (s.flatMap Converter.escChar) =
      (splitChar '\n' s).map (fun piece => piece.flatMap Converter.escChar) := by
  induction s with
  | nil => rfl
  | cons c rest ih =>
    have hc : c ≠ '\\' := fun e => h (e ▸ List.mem_cons_self c rest)
    have hmem : '\\' ∉ rest := fun m => h (List.mem_cons_of_mem _ m)
    rw [List.flatMap_cons, splitChar_cons]
    obtain ⟨y, ys, hys⟩ := List.exists_cons_of_ne_nil (splitChar_ne_nil '\n' rest)
    have ihc : pySplitOn ['\\', 'n'] (rest.flatMap Converter.escChar) =
        y.flatMap Converter.escChar ::
          ys.map (fun piece => piece.flatMap Converter.escChar) := by
      rw [ih hmem, hys]
      rfl
    by_cases hn : c = '\n'
    · subst hn
      rw [show Converter.escChar '\n' = ['\\', 'n'] from rfl, if_pos rfl,
        pySplitOn_pair_match, ih hmem]
      rfl
    · rw [if_neg hn, hys]
      dsimp only [List.map_cons]
      by_cases hq : c = '"'
      · subst hq
        rw [show Converter.escChar '"' = ['\\', '"'] from rfl]
        simp only [List.cons_append, List.nil_append]
        rw [pySplitOn_cons_ne _ _ _ _ _
          (prefix_pair_false_snd _ _ _ _ (by decide))
          (pySplitOn_cons_ne _ _ _ _ _
            (prefix_pair_false_fst _ _ _ _ (by decide)) ihc)]
        rfl
      · by_cases hr : c = '\r'
        · subst hr
          rw [show Converter.escChar '\r' = ['\\', 'r'] from rfl]
          simp only [List.cons_append, List.nil_append]
          rw [pySplitOn_cons_ne _ _ _ _ _
            (prefix_pair_false_snd _ _ _ _ (by decide))
            (pySplitOn_cons_ne _ _ _ _ _
              (prefix_pair_false_fst _ _ _ _ (by decide)) ihc)]
          rfl
        · by_cases ht : c = '\t'
          · subst ht
            rw [show Converter.escChar '\t' = ['\\', 't'] from rfl]
            simp only [List.cons_append, List.nil_append]
            rw [pySplitOn_cons_ne _ _ _ _ _
              (prefix_pair_false_snd _ _ _ _ (by decide))
              (pySplitOn_cons_ne _ _ _ _ _
                (prefix_pair_false_fst _ _ _ _ (by decide)) ihc)]
            rfl
          · rw [show Converter.escChar c = [c] from by
                simp [Converter.escChar, hc, hq, hn, hr, ht]]
            simp only [List.cons_append, List.nil_append]
            rw [pySplitOn_cons_ne _ _ _ _ _
              (prefix_pair_false_fst _ _ _ _ (fun e => hc e.symm)) ihc]
            simp only [List.flatMap_cons,
              show Converter.escChar c = [c] from by
                simp [Converter.escChar, hc, hq, hn, hr, ht],
              List.cons_append, List.nil_append]

/-- Right-stripping keeps a string that ends in a non-space character. -/
theorem pyStripRight_append_last (s : Str) (d : Char) (hd : pyIsSpace d = false) :
    pyStripRight (s ++ [d]) = s ++ [d] := by
  unfold pyStripRight
  rw [show (s ++ [d]).reverse = d :: s.reverse from by simp]
  rw [List.dropWhile_cons, if_neg (by simp [hd])]
  simp

/-- Right-stripping passes over a non-space head character. -/
theorem pyStripRight_cons (d : Char) (s : Str) (hd : pyIsSpace d = false) :
    pyStripRight (d :: s) = d :: pyStripRight s := by
  unfold pyStripRight
  rw [show (d :: s).reverse = s.reverse ++ [d] from by simp]
  rw [List.dropWhile_append]
  by_cases he : (s.reverse.dropWhile pyIsSpace).isEmpty
  · rw [if_pos he]
    rw [List.dropWhile_cons, if_neg (by simp [hd])]
    rw [List.isEmpty_iff.mp he]
    rfl
  · rw [if_neg he]
    simp

/-- `pyStrip` is left-trim then right-trim. -/
theorem pyStrip_eq_stripRight (s : Str) :
    pyStrip s = pyStripRight (s.dropWhile pyIsSpace) := rfl

/-- Stripping a string with a non-space head only right-trims the tail. -/
theorem pyStrip_cons (c : Char) (s : Str) (hc : pyIsSpace c = false) :
    pyStrip (c :: s) = c :: pyStripRight s := by
  rw [pyStrip_eq_stripRight, List.dropWhile_cons, if_neg (by simp [hc]),
    pyStripRight_cons c s hc]

/-- Stripping skips a leading space. -/
theorem pyStrip_cons_space (c : Char) (s : Str) (hc : pyIsSpace c = true) :
    pyStrip (c :: s) = pyStrip s := by
  rw [pyStrip_eq_stripRight, pyStrip_eq_stripRight, List.dropWhile_cons,
    if_pos (by simp [hc])]

/-- A string with non-space first and last characters is already stripped. -/
theorem pyStrip_sandwich (c d : Char) (m : Str) (hc : pyIsSpace c = false)
    (hd : pyIsSpace d = false) :
    pyStrip (c :: (m ++ [d])) = c :: (m ++ [d]) := by
  rw [pyStrip_cons _ _ hc, pyStripRight_append_last _ _ hd]

/-- A whitespace-free string is already stripped. -/
theorem pyStrip_of_nonspace (s : Str) (h : ∀ c ∈ s, pyIsSpace c = false) :
    pyStrip s = s := by
  cases s with
  | nil => rfl
  | cons c t =>
    rw [pyStrip_cons _ _ (h c (List.mem_cons_self c t))]
    rcases List.eq_nil_or_concat t with h1 | ⟨m, d, h1⟩
    · subst h1; rfl
    · subst h1
      rw [List.concat_eq_append]
      rw [pyStripRight_append_last _ _ (h d (by simp))]

/-- The whitespace splitter yields nothing on all-space input. -/
theorem pySplitWsAux_allspace (w : Str) (hw : ∀ c ∈ w, pyIsSpace c = true) :
    ∀ acc, pySplitWsAux acc w = if acc = [] then [] else [acc.reverse] := by
  induction w with
  | nil => intro acc; rfl
  | cons c r ih =>
    intro acc
    unfold pySplitWsAux
    rw [if_pos (hw c (List.mem_cons_self c r))]
    have ihr := ih (fun x hx => hw x (List.mem_cons_of_mem _ hx))
    by_cases ha : acc = []
    · rw [if_pos ha, if_pos ha, ihr []]
      rfl
    · rw [if_neg ha, if_neg ha, ihr []]
      rfl

/-- One-step unfolding of the whitespace splitter. -/
theorem pySplitWsAux_cons (acc : Str) (c : Char) (rest : Str) :
    pySplitWsAux acc (c :: rest) =
      if pyIsSpace c then
        if acc = [] then pySplitWsAux [] rest
        else acc.reverse :: pySplitWsAux [] rest
      else pySplitWsAux (c :: acc) rest := rfl

/-- Leading whitespace is discarded by the whitespace splitter. -/
theorem pySplitWsAux_leading (w : Str) (hw : ∀ c ∈ w, pyIsSpace c = true)
    (x : Str) : pySplitWsAux [] (w ++ x) = pySplitWsAux [] x := by
  induction w with
  | nil => rfl
  | cons c r ih =>
    rw [List.cons_append, pySplitWsAux_cons,
      if_pos (hw c (List.mem_cons_self c r)), if_pos rfl]
    exact ih (fun y hy => hw y (List.mem_cons_of_mem _ hy))

/-- Trailing whitespace is discarded by the whitespace splitter. -/
theorem pySplitWsAux_trailing (x : Str) : ∀ (acc w : Str),
    (∀ c ∈ w, pyIsSpace c = true) →
    pySplitWsAux acc (x ++ w) = pySplitWsAux acc x := by
  induction x with
  | nil =>
    intro acc w hw
    rw [List.nil_append, pySplitWsAux_allspace w hw acc]
    rfl
  | cons c r ih =>
    intro acc w hw
    rw [List.cons_append, pySplitWsAux_cons, pySplitWsAux_cons]
    by_cases hc : pyIsSpace c
    · rw [if_pos hc, if_pos hc]
      by_cases ha : acc = []
      · rw [if_pos ha, if_pos ha, ih [] w hw]
      · rw [if_neg ha, if_neg ha, ih [] w hw]
    · rw [if_neg hc, if_neg hc, ih (c :: acc) w hw]

/-- A non-empty whitespace-free string is one word, appended to the open
accumulator. -/
theorem pySplitWsAux_word (w : Str) (hw1 : w ≠ [])
    (hw2 : ∀ c ∈ w, pyIsSpace c = false) :
    ∀ acc, pySplitWsAux acc w = [acc.reverse ++ w] := by
  induction w with
  | nil => exact absurd rfl hw1
  | cons c r ih =>
    intro acc
    rw [pySplitWsAux_cons,
      if_neg (by simp [hw2 c (List.mem_cons_self c r)])]
    by_cases hr : r = []
    · subst hr
      show (if c :: acc = [] then [] else [(c :: acc).reverse]) = _
      rw [if_neg (List.cons_ne_nil c acc)]
      simp
    · rw [ih hr (fun z hz => hw2 z (List.mem_cons_of_mem _ hz)) (c :: acc)]
      simp

/-- Appending a space and a word appends one piece to the split. -/
theorem pySplitWsAux_append_word (w : Str) (hw1 : w ≠ [])
    (hw2 : ∀ c ∈ w, pyIsSpace c = false) (sp : Char) (hsp : pyIsSpace sp = true) :
    ∀ (x acc : Str),
    pySplitWsAux acc (x ++ sp :: w) = pySplitWsAux acc x ++ [w] := by
  intro x
  induction x with
  | nil =>
    intro acc
    rw [List.nil_append, pySplitWsAux_cons, if_pos hsp]
    by_cases ha : acc = []
    · rw [if_pos ha, pySplitWsAux_word w hw1 hw2 [], ha]
      rfl
    · rw [if_neg ha, pySplitWsAux_word w hw1 hw2 []]
      show _ = (if acc = [] then [] else [acc.reverse]) ++ [w]
      rw [if_neg ha]
      rfl
  | cons c r ih =>
    intro acc
    rw [List.cons_append, pySplitWsAux_cons, pySplitWsAux_cons]
    by_cases hc : pyIsSpace c
    · rw [if_pos hc, if_pos hc]
      by_cases ha : acc = []
      · rw [if_pos ha, if_pos ha, ih []]
      · rw [if_neg ha, if_neg ha, ih []]
        rfl
    · rw [if_neg hc, if_neg hc, ih (c :: acc)]

/-- Splitting on whitespace ignores stripping. -/
theorem pySplitWs_strip (s : Str) : pySplitWs (pyStrip s) = pySplitWs s := by
  unfold pySplitWs
  rw [pyStrip_eq_stripRight]
  have hdecomp : s = s.takeWhile pyIsSpace ++ s.dropWhile pyIsSpace :=
    (List.takeWhile_append_dropWhile pyIsSpace s).symm
  have hlead : pySplitWsAux [] s = pySplitWsAux [] (s.dropWhile pyIsSpace) := by
    conv_lhs => rw [hdecomp]
    exact pySplitWsAux_leading _ (fun c hc => List.mem_takeWhile_imp hc) _
  rw [hlead]
  set y := s.dropWhile pyIsSpace with hy
  have hy2 : y = pyStripRight y ++ (y.reverse.takeWhile pyIsSpace).reverse := by
    unfold pyStripRight
    rw [← List.reverse_append, List.takeWhile_append_dropWhile pyIsSpace y.reverse,
      List.reverse_reverse]
  conv_rhs => rw [hy2]
  rw [pySplitWsAux_trailing _ [] _ (fun c hc => by
    rw [List.mem_reverse] at hc
    exact List.mem_takeWhile_imp hc)]

/-- `pySplitWs` of a single whitespace-free word. -/
theorem pySplitWs_word (w : Str) (hw1 : w ≠ [])
    (hw2 : ∀ c ∈ w, pyIsSpace c = false) : pySplitWs w = [w] := by
  unfold pySplitWs
  rw [pySplitWsAux_word w hw1 hw2 []]
  rfl

/-- `pySplitWs` skips a leading space. -/
theorem pySplitWs_space_cons (sp : Char) (hsp : pyIsSpace sp = true) (w : Str) :
    pySplitWs (sp :: w) = pySplitWs w := by
  unfold pySplitWs
  rw [pySplitWsAux_cons, if_pos hsp, if_pos rfl]

/-- `pySplitWs` after appending a space-separated word. -/
theorem pySplitWs_append_word (x w : Str) (sp : Char) (hw1 : w ≠ [])
    (hw2 : ∀ c ∈ w, pyIsSpace c = false) (hsp : pyIsSpace sp = true) :
    pySplitWs (x ++ sp :: w) = pySplitWs x ++ [w] :=
  pySplitWsAux_append_word w hw1 hw2 sp hsp x []

/-- A non-line-break head character joins the current line of the
splitlines scan. -/
theorem pySplitlinesAux_cons_nolb (acc X : Str) (c : Char)
    (hc : isLineBreakChar c = false) :
    pySplitlinesAux acc (c :: X) = pySplitlinesAux (c :: acc) X := by
  rw [pySplitlinesAux.eq_def]
  split
  · rename_i heq
    exact absurd heq (List.cons_ne_nil c X)
  · rename_i r heq
    rw [List.cons_eq_cons] at heq
    exact absurd (heq.1 ▸ hc) (by decide)
  · rename_i c2 r heq
    rw [List.cons_eq_cons] at heq
    obtain ⟨h1, h2⟩ := heq
    subst h1
    subst h2
    rw [if_neg (by simp [hc])]

/-- A line feed closes the current line of the splitlines scan. -/
theorem pySplitlinesAux_newline (acc rest : Str) :
    pySplitlinesAux acc ('\n' :: rest) =
      acc.reverse ::
        (match rest with | [] => [] | _ :: _ => pySplitlinesAux [] rest) := rfl

/-- Consuming one full line-feed-terminated line of the splitlines scan. -/
theorem pySplitlinesAux_line (l : Str)
    (hl : ∀ c ∈ l, isLineBreakChar c = false) :
    ∀ (acc rest : Str),
    pySplitlinesAux acc (l ++ '\n' :: rest) =
      (acc.reverse ++ l) ::
        (match rest with | [] => [] | _ :: _ => pySplitlinesAux [] rest) := by
  induction l with
  | nil =>
    intro acc rest
    rw [List.nil_append, pySplitlinesAux_newline, List.append_nil]
  | cons c l2 ih =>
    intro acc rest
    rw [List.cons_append,
      pySplitlinesAux_cons_nolb _ _ _ (hl c (List.mem_cons_self c l2)),
      ih (fun z hz => hl z (List.mem_cons_of_mem _ hz)) (c :: acc) rest,
      List.reverse_cons, List.append_assoc]
    rfl

/-- On non-empty input `pySplitlines` is the scan from an empty line. -/
theorem pySplitlines_eq_aux (s : Str) (h : s ≠ []) :
    pySplitlines s = pySplitlinesAux [] s := by
  cases s with
  | nil => exact absurd rfl h
  | cons c t => rfl

/-- Splitting a line-feed-joined, line-feed-terminated text recovers the
lines, when no line contains a line break. -/
theorem pySplitlines_intercalate (lines : List Str) (hne : lines ≠ [])
    (hlb : ∀ l ∈ lines, ∀ c ∈ l, isLineBreakChar c = false) :
    pySplitlines (List.intercalate ['\n'] lines ++ ['\n']) = lines := by
  induction lines with
  | nil => exact absurd rfl hne
  | cons l rest ih =>
    cases rest with
    | nil =>
      rw [intercalate_single,
        pySplitlines_eq_aux _ (by simp),
        show l ++ ['\n'] = l ++ '\n' :: [] from rfl,
        pySplitlinesAux_line l (hlb l (List.mem_cons_self l [])) [] []]
      rfl
    | cons l2 rest2 =>
      rw [intercalate_cons₂]
      have hshape : l ++ ['\n'] ++ List.intercalate ['\n'] (l2 :: rest2) ++ ['\n'] =
          l ++ '\n' :: (List.intercalate ['\n'] (l2 :: rest2) ++ ['\n']) := by
        simp [List.append_assoc]
      rw [hshape, pySplitlines_eq_aux _ (by simp),
        pySplitlinesAux_line l (hlb l (List.mem_cons_self l _)) [] _]
      have hXne : List.intercalate ['\n'] (l2 :: rest2) ++ ['\n'] ≠ [] := by simp
      obtain ⟨h, t, hX⟩ := List.exists_cons_of_ne_nil hXne
      rw [hX]
      dsimp only
      have hihv : pySplitlinesAux [] (h :: t) = l2 :: rest2 := by
        rw [← hX, ← pySplitlines_eq_aux _ hXne]
        exact ih (List.cons_ne_nil l2 rest2)
          (fun z hz => hlb z (List.mem_cons_of_mem _ hz))
      rw [hihv]
      rfl

/-- Joining two non-empty piece lists. -/
theorem intercalate_append_ne {α : Type} (sep : List α) (xs ys : List (List α))
    (hx : xs ≠ [])
    (hy : ys ≠ []) :
    List.intercalate sep (xs ++ ys) =
      List.intercalate sep xs ++ sep ++ List.intercalate sep ys := by
  induction xs with
  | nil => exact absurd rfl hx
  | cons x xs2 ih =>
    cases xs2 with
    | nil =>
      obtain ⟨y, ys2, hys⟩ := List.exists_cons_of_ne_nil hy
      subst hys
      rw [show [x] ++ y :: ys2 = x :: y :: ys2 from rfl, intercalate_cons₂,
        intercalate_single]
    | cons x2 xs3 =>
      have ih2 := ih (List.cons_ne_nil x2 xs3)
      rw [List.cons_append] at ih2
      rw [List.cons_append, List.cons_append, intercalate_cons₂, ih2,
        intercalate_cons₂]
      simp [List.append_assoc]

/-- A blank-line-separated join of blocks whose head block is non-empty is
non-empty. -/
theorem intercalate_blocks_ne_nil (y : List Str) (ys : List (List Str))
    (hy : y ≠ []) : List.intercalate [([] : Str)] (y :: ys) ≠ [] := by
  cases ys with
  | nil => rw [intercalate_single]; exact hy
  | cons z zs => rw [intercalate_cons₂]; simp [hy]

/-- Joining blocks with blank lines commutes with joining lines with line
feeds, for non-empty blocks. -/
theorem intercalate_blocks (bs : List (List Str)) (hb : ∀ b ∈ bs, b ≠ []) :
    List.intercalate (str "\n\n") (bs.map (List.intercalate (str "\n"))) =
      List.intercalate (str "\n") (List.intercalate [([] : Str)] bs) := by
  induction bs with
  | nil => rfl
  | cons b rest ih =>
    cases rest with
    | nil =>
      rw [List.map_cons, List.map_nil, intercalate_single, intercalate_single]
    | cons b2 rest2 =>
      have hXne : List.intercalate [([] : Str)] (b2 :: rest2) ≠ [] :=
        intercalate_blocks_ne_nil b2 rest2 (hb b2 (by simp))
      have ih2 := ih (fun x hx => hb x (List.mem_cons_of_mem _ hx))
      rw [List.map_cons] at ih2
      rw [List.map_cons, List.map_cons, intercalate_cons₂, ih2,
        intercalate_cons₂,
        intercalate_append_ne (str "\n") (b ++ [[]]) _ (by simp) hXne,
        intercalate_append_ne (str "\n") b [[]] (hb b (by simp)) (by simp),
        intercalate_single,
        show (str "\n\n") = str "\n" ++ str "\n" from rfl]
      simp [List.append_assoc]

/-- Every line of a blank-line-separated block join is blank or belongs to
a block. -/
theorem mem_intercalate_blocks (bs : List (List Str)) :
    ∀ l ∈ List.intercalate [([] : Str)] bs, l = [] ∨ ∃ b ∈ bs, l ∈ b := by
  induction bs with
  | nil => intro l hl; simp [List.intercalate] at hl
  | cons b rest ih =>
    intro l hl
    cases rest with
    | nil =>
      rw [intercalate_single] at hl
      right
      exact ⟨b, by simp, hl⟩
    | cons b2 r2 =>
      rw [intercalate_cons₂] at hl
      rcases List.mem_append.mp hl with h1 | h1
      · rcases List.mem_append.mp h1 with h2 | h2
        · right; exact ⟨b, by simp, h2⟩
        · left; simpa using h2
      · rcases ih l h1 with h2 | ⟨b3, hb3, hlb⟩
        · left; exact h2
        · right; exact ⟨b3, List.mem_cons_of_mem _ hb3, hlb⟩

/-- `escape` distributes over concatenation. -/
theorem escape_append (a b : Str) :
    Converter.escape (a ++ b) = Converter.escape a ++ Converter.escape b := by
  rw [escape_eq_flatMap, escape_eq_flatMap, escape_eq_flatMap,
    List.flatMap_append]

/-- Line-break characters are whitespace. -/
theorem isLineBreak_isSpace (c : Char) (h : isLineBreakChar c = true) :
    pyIsSpace c = true := by
  simp [isLineBreakChar] at h
  simp [pyIsSpace]
  omega

/-- The escaped form of a well-behaved string contains no line break. -/
theorem escape_noLB (v : Str) (hv : Converter.strOK v) :
    ∀ c ∈ Converter.escape v, isLineBreakChar c = false := by
  rw [escape_eq_flatMap]
  intro c hc
  rw [List.mem_flatMap] at hc
  obtain ⟨a, ha, hca⟩ := hc
  unfold Converter.escChar at hca
  split_ifs at hca with h1 h2 h3 h4 h5
  · exact absurd (h1 ▸ ha) hv.1
  · simp [show (str "\\\"") = ['\\', '"'] from rfl] at hca
    rcases hca with h | h <;> (subst h; decide)
  · simp [show (str "\\n") = ['\\', 'n'] from rfl] at hca
    rcases hca with h | h <;> (subst h; decide)
  · simp [show (str "\\r") = ['\\', 'r'] from rfl] at hca
    rcases hca with h | h <;> (subst h; decide)
  · simp [show (str "\\t") = ['\\', 't'] from rfl] at hca
    rcases hca with h | h <;> (subst h; decide)
  · rw [List.mem_singleton] at hca
    subst hca
    by_cases hl : isLineBreakChar c = true
    · exact absurd (hv.2 c ha hl) h3
    · exact Bool.not_eq_true _ ▸ hl

/-- Non-whitespace characters are not line breaks. -/
theorem nonLB_of_nonspace (c : Char) (h : pyIsSpace c = false) :
    isLineBreakChar c = false := by
  by_cases hl : isLineBreakChar c = true
  · rw [isLineBreak_isSpace c hl] at h
    exact absurd h (by simp)
  · exact Bool.not_eq_true _ ▸ hl

/-- Characters of an intercalation come from the separator or a piece. -/
theorem mem_intercalate_chars {α : Type} (sep : List α) (fs : List (List α))
    (c : α) : c ∈ List.intercalate sep fs → c ∈ sep ∨ ∃ f ∈ fs, c ∈ f := by
  induction fs with
  | nil => intro h; simp [List.intercalate] at h
  | cons f rest ih =>
    intro h
    cases rest with
    | nil =>
      rw [intercalate_single] at h
      exact Or.inr ⟨f, by simp, h⟩
    | cons g rest2 =>
      rw [intercalate_cons₂] at h
      rcases List.mem_append.mp h with h1 | h1
      · rcases List.mem_append.mp h1 with h2 | h2
        · exact Or.inr ⟨f, by simp, h2⟩
        · exact Or.inl h2
      · rcases ih h1 with h2 | ⟨f2, hf2, hcf⟩
        · exact Or.inl h2
        · exact Or.inr ⟨f2, List.mem_cons_of_mem _ hf2, hcf⟩

/-- The enumerated chunk-quoting map is the structural `quoteAlt`. -/
theorem enumFrom_quote (cs : List Str) : ∀ (k n : Nat), k + cs.length = n →
    (List.enumFrom k cs).map (fun p =>
        str "\"" ++ p.2 ++ (if p.1 < n - 1 then str "\\n" else []) ++ str "\"") =
      Converter.quoteAlt cs := by
  induction cs with
  | nil => intro k n _; rfl
  | cons x xs ih =>
    intro k n h
    rw [List.enumFrom_cons, List.map_cons]
    cases xs with
    | nil =>
      rw [List.enumFrom_nil, List.map_nil]
      have hk : ¬k < n - 1 := by
        simp [List.length_cons] at h
        omega
      rw [if_neg hk]
      simp [Converter.quoteAlt]
    | cons y ys =>
      have hk : k < n - 1 := by
        simp [List.length_cons] at h
        omega
      rw [if_pos hk, ih (k + 1) n (by simp [List.length_cons] at h ⊢; omega)]
      show _ = Converter.quoteAlt (x :: y :: ys)
      rw [show Converter.quoteAlt (x :: y :: ys) =
        (str "\"" ++ x ++ str "\\n\"") :: Converter.quoteAlt (y :: ys) from rfl]
      simp [List.append_assoc]
      rfl

/-- `quoteChunks` in terms of the chunk list. -/
theorem quoteChunks_eq_quoteAlt (esc : Str) :
    Converter.quoteChunks esc =
      Converter.quoteAlt (pySplitOn (str "\\n") esc) := by
  unfold Converter.quoteChunks
  exact enumFrom_quote (pySplitOn (str "\\n") esc) 0 _ (by simp [List.enum])

/-- Pieces of a newline split of a well-behaved string are well-behaved and
newline-free. -/
theorem strOK_piece (v piece : Str) (hv : Converter.strOK v)
    (hp : piece ∈ splitChar '\n' v) :
    Converter.strOK piece ∧ '\n' ∉ piece := by
  refine ⟨⟨fun hb => hv.1 (mem_of_mem_splitChar '\n' v piece hp '\\' hb), ?_⟩,
    not_mem_sep_of_mem_splitChar '\n' v piece hp⟩
  intro c hc hlb
  exact hv.2 c (mem_of_mem_splitChar '\n' v piece hp c hc) hlb

/-- The `escStr` guard of `serialize_entry` is just `escape`. -/
theorem escape_empty_guard (s : Str) :
    (if s ≠ [] then Converter.escape s else []) = Converter.escape s := by
  by_cases h : s = []
  · rw [if_neg (fun hco => hco h), h]
    rfl
  · rw [if_pos h]

/-- Splitting the escaped form at escaped newlines yields the escaped
newline-split pieces. -/
theorem pySplitOn_escape (v : Str) (h : '\\' ∉ v) :
    pySplitOn (str "\\n") (Converter.escape v) =
      (splitChar '\n' v).map Converter.escape := by
  rw [show (str "\\n") = ['\\', 'n'] from rfl, escape_eq_flatMap,
    pySplitOn_escape_flatMap v h]
  exact List.map_congr_left (fun x _ => (escape_eq_flatMap x).symm)

/-- Lines built by the location-packing loop contain no line break. -/
theorem wrapLocGo_chars (locs : List Str) :
    ∀ acc, (∀ c ∈ acc, isLineBreakChar c = false) →
    (∀ l ∈ locs, ∀ c ∈ l, pyIsSpace c = false) →
    ∀ line ∈ Converter.wrapLocGo acc locs, ∀ c ∈ line,
      isLineBreakChar c = false := by
  induction locs with
  | nil =>
    intro acc hacc _ line hline
    rw [show Converter.wrapLocGo acc [] = [acc] from rfl,
      List.mem_singleton] at hline
    subst hline
    exact hacc
  | cons loc rest ih =>
    intro acc hacc hlocs line hline
    unfold Converter.wrapLocGo at hline
    have hloc1 : ∀ c ∈ loc, pyIsSpace c = false :=
      hlocs loc (List.mem_cons_self loc rest)
    have hrest : ∀ l ∈ rest, ∀ c ∈ l, pyIsSpace c = false :=
      fun l hl => hlocs l (List.mem_cons_of_mem _ hl)
    split_ifs at hline
    · rcases List.mem_cons.mp hline with h1 | h1
      · subst h1; exact hacc
      · refine ih (str "#: " ++ loc) ?_ hrest line h1
        intro c hc
        rcases List.mem_append.mp hc with h2 | h2
        · exact (show ∀ z ∈ str "#: ", isLineBreakChar z = false by decide) c h2
        · exact nonLB_of_nonspace c (hloc1 c h2)
    · refine ih (acc ++ ' ' :: loc) ?_ hrest line hline
      intro c hc
      rcases List.mem_append.mp hc with h2 | h2
      · exact hacc c h2
      · rcases List.mem_cons.mp h2 with h3 | h3
        · subst h3; decide
        · exact nonLB_of_nonspace c (hloc1 c h3)

/-- Lines built by `quoteAlt` over line-break-free chunks contain no line
break. -/
theorem quoteAlt_noLB (cs : List Str)
    (hcs : ∀ x ∈ cs, ∀ c ∈ x, isLineBreakChar c = false) :
    ∀ l ∈ Converter.quoteAlt cs, ∀ c ∈ l, isLineBreakChar c = false := by
  induction cs with
  | nil => intro l hl; simp [Converter.quoteAlt] at hl
  | cons x xs ih =>
    intro l hl c hc
    cases xs with
    | nil =>
      rw [show Converter.quoteAlt [x] = [str "\"" ++ x ++ str "\""] from rfl,
        List.mem_singleton] at hl
      subst hl
      rcases List.mem_append.mp hc with h1 | h1
      · rcases List.mem_append.mp h1 with h2 | h2
        · exact (show ∀ z ∈ str "\"", isLineBreakChar z = false by decide) c h2
        · exact hcs x (List.mem_cons_self x []) c h2
      · exact (show ∀ z ∈ str "\"", isLineBreakChar z = false by decide) c h1
    | cons y ys =>
      rw [show Converter.quoteAlt (x :: y :: ys) =
        (str "\"" ++ x ++ str "\\n\"") :: Converter.quoteAlt (y :: ys) from rfl]
        at hl
      rcases List.mem_cons.mp hl with h1 | h1
      · subst h1
        rcases List.mem_append.mp hc with h2 | h2
        · rcases List.mem_append.mp h2 with h3 | h3
          · exact (show ∀ z ∈ str "\"", isLineBreakChar z = false by decide) c h3
          · exact hcs x (List.mem_cons_self x _) c h3
        · exact (show ∀ z ∈ str "\\n\"", isLineBreakChar z = false by decide) c h2
      · exact ih (fun z hz => hcs z (List.mem_cons_of_mem _ hz)) l h1 c hc

/-- A serialized entry always has at least its `msgstr` line. -/
theorem serialize_entry_ne_nil (e : Converter.PoEntry) :
    Converter.serialize_entry e ≠ [] := by
  unfold Converter.serialize_entry
  intro h
  rw [List.append_eq_nil] at h
  have h2 := h.2
  split_ifs at h2

/-- No serialized line of a well-formed entry contains a line break. -/
theorem serialize_entry_noLB (e : Converter.PoEntry)
    (he : Converter.WellFormed e) :
    ∀ l ∈ Converter.serialize_entry e, ∀ c ∈ l, isLineBreakChar c = false := by
  obtain ⟨hobs, hid, hstr, hcom, hec, hloc, hflag⟩ := he
  intro l hl
  unfold Converter.serialize_entry at hl
  rcases List.mem_append.mp hl with h5 | hF
  · rcases List.mem_append.mp h5 with h4 | hE
    · rcases List.mem_append.mp h4 with h3 | hD
      · rcases List.mem_append.mp h3 with h2 | hC
        · rcases List.mem_append.mp h2 with hA | hB
          · exact (hcom l (List.mem_filter.mp hA).1).2.2.1
          · obtain ⟨ec, hecmem, heq⟩ := List.mem_map.mp hB
            subst heq
            intro c hc
            rcases List.mem_append.mp hc with h6 | h6
            · exact (show ∀ z ∈ str "#. ", isLineBreakChar z = false by decide) c h6
            · exact hec ec hecmem c h6
        · by_cases hl2 : e.locations ≠ []
          · rw [if_pos hl2] at hC
            exact wrapLocGo_chars e.locations (str "#:") (by decide)
              (fun x hx => (hloc x hx).2) l hC
          · rw [if_neg hl2] at hC
            exact absurd hC (List.not_mem_nil l)
      · by_cases hf2 : e.flags ≠ []
        · rw [if_pos hf2] at hD
          rw [List.mem_singleton] at hD
          subst hD
          intro c hc
          rcases List.mem_append.mp hc with h6 | h6
          · exact (show ∀ z ∈ str "#, ", isLineBreakChar z = false by decide) c h6
          · rcases mem_intercalate_chars (str ", ") e.flags c h6 with
              h7 | ⟨f, hf, hcf⟩
            · exact (show ∀ z ∈ str ", ", isLineBreakChar z = false by decide) c h7
            · exact nonLB_of_nonspace c ((hflag f hf).2.2 c hcf)
        · rw [if_neg hf2] at hD
          exact absurd hD (List.not_mem_nil l)
    · dsimp only at hE
      by_cases hcont : e.msgid.contains '\n'
      · rw [if_pos hcont] at hE
        rcases List.mem_cons.mp hE with h6 | h6
        · subst h6
          exact (show ∀ z ∈ str "msgid \"\"", isLineBreakChar z = false by decide)
        · rw [quoteChunks_eq_quoteAlt, pySplitOn_escape e.msgid hid.1] at h6
          refine quoteAlt_noLB _ ?_ l h6
          intro x hx
          obtain ⟨piece, hpi, hpe⟩ := List.mem_map.mp hx
          subst hpe
          exact escape_noLB piece (strOK_piece e.msgid piece hid hpi).1
      · rw [if_neg hcont] at hE
        rw [List.mem_singleton] at hE
        subst hE
        intro c hc
        rcases List.mem_append.mp hc with h6 | h6
        · rcases List.mem_append.mp h6 with h7 | h7
          · exact (show ∀ z ∈ str "msgid \"", isLineBreakChar z = false by decide)
              c h7
          · exact escape_noLB e.msgid hid c h7
        · exact (show ∀ z ∈ str "\"", isLineBreakChar z = false by decide) c h6
  · dsimp only at hF
    rw [escape_empty_guard] at hF
    by_cases hcont : e.msgstr ≠ [] ∧ e.msgstr.contains '\n'
    · rw [if_pos hcont] at hF
      rcases List.mem_cons.mp hF with h6 | h6
      · subst h6
        exact (show ∀ z ∈ str "msgstr \"\"", isLineBreakChar z = false by decide)
      · rw [quoteChunks_eq_quoteAlt, pySplitOn_escape e.msgstr hstr.1] at h6
        refine quoteAlt_noLB _ ?_ l h6
        intro x hx
        obtain ⟨piece, hpi, hpe⟩ := List.mem_map.mp hx
        subst hpe
        exact escape_noLB piece (strOK_piece e.msgstr piece hstr hpi).1
    · rw [if_neg hcont] at hF
      rw [List.mem_singleton] at hF
      subst hF
      intro c hc
      rcases List.mem_append.mp hc with h6 | h6
      · rcases List.mem_append.mp h6 with h7 | h7
        · exact (show ∀ z ∈ str "msgstr \"", isLineBreakChar z = false by decide)
            c h7
        · exact escape_noLB e.msgstr hstr c h7
      · exact (show ∀ z ∈ str "\"", isLineBreakChar z = false by decide) c h6

/-- Splitting the serialized catalog text into lines yields the serialized
entry blocks joined by single blank lines. -/
theorem pySplitlines_serialize (es : List Converter.PoEntry) (hes : es ≠ [])
    (h : ∀ e ∈ es, Converter.WellFormed e) :
    pySplitlines (Converter.serialize es) =
      List.intercalate [([] : Str)] (es.map Converter.serialize_entry) := by
  unfold Converter.serialize
  rw [show es.map (fun e => List.intercalate (str "\n")
        (Converter.serialize_entry e)) =
      (es.map Converter.serialize_entry).map (List.intercalate (str "\n")) from
    by rw [List.map_map]; rfl]
  rw [intercalate_blocks _ (fun b hb => by
    obtain ⟨e, _, hbe⟩ := List.mem_map.mp hb
    exact hbe ▸ serialize_entry_ne_nil e)]
  rw [show (str "\n") = ['\n'] from rfl]
  obtain ⟨e0, es2, hes0⟩ := List.exists_cons_of_ne_nil hes
  refine pySplitlines_intercalate _ ?_ ?_
  · subst hes0
    rw [List.map_cons]
    exact intercalate_blocks_ne_nil _ _ (serialize_entry_ne_nil e0)
  · intro l hl
    rcases mem_intercalate_blocks _ l hl with h1 | ⟨b, hb, hlb⟩
    · subst h1
      intro c hc
      exact absurd hc (List.not_mem_nil c)
    · obtain ⟨e, hees, hbe⟩ := List.mem_map.mp hb
      subst hbe
      exact serialize_entry_noLB e (h e hees) l hlb

/-- `runLines` on no lines. -/
theorem runLines_nil (s : Converter.PState) (n : Nat) :
    Converter.runLines s n [] = some s := rfl

/-- One-step unfolding of `runLines`. -/
theorem runLines_cons (s : Converter.PState) (n : Nat) (raw : Str)
    (rest : List Str) :
    Converter.runLines s n (raw :: rest) =
      match Converter.stepLine s n raw with
      | none => none
      | some s2 => Converter.runLines s2 (n + 1) rest := rfl

/-- `runLines` after a successful step. -/
theorem runLines_cons_some (s s2 : Converter.PState) (n : Nat) (raw : Str)
    (rest : List Str) (h : Converter.stepLine s n raw = some s2) :
    Converter.runLines s n (raw :: rest) = Converter.runLines s2 (n + 1) rest := by
  rw [runLines_cons, h]

/-- `runLines` over a concatenation. -/
theorem runLines_append (xs : List Str) : ∀ (s : Converter.PState) (n : Nat)
    (ys : List Str),
    Converter.runLines s n (xs ++ ys) =
      (Converter.runLines s n xs).bind
        (fun s2 => Converter.runLines s2 (n + xs.length) ys) := by
  induction xs with
  | nil =>
    intro s n ys
    rw [List.nil_append, runLines_nil, Option.some_bind, List.length_nil,
      Nat.add_zero]
  | cons x xs2 ih =>
    intro s n ys
    rw [List.cons_append, runLines_cons, runLines_cons]
    cases hstep : Converter.stepLine s n x with
    | none => rfl
    | some s2 =>
      dsimp only
      rw [ih s2 (n + 1) ys, List.length_cons,
        show n + 1 + xs2.length = n + (xs2.length + 1) from by omega]

/-- `isPrefixOf` on cons pairs. -/
theorem isPrefixOf_cons₂ (a b : Char) (as bs : Str) :
    (a :: as).isPrefixOf (b :: bs) = (a == b && as.isPrefixOf bs) := rfl

/-- A list is a prefix of itself followed by anything. -/
theorem isPrefixOf_self_append (a b : Str) : a.isPrefixOf (a ++ b) = true := by
  induction a with
  | nil =>
    rw [List.nil_append]
    cases b <;> rfl
  | cons c a2 ih =>
    rw [List.cons_append, isPrefixOf_cons₂, ih]
    simp

/-- A blank line flushes the entry under construction. -/
theorem stepLine_blank (s : Converter.PState) (n : Nat) :
    Converter.stepLine s n [] = some (Converter.flush s) := by
  unfold Converter.stepLine
  rw [show pyStrip [] = [] from rfl, if_pos rfl]

/-- A plain comment line is appended to the current entry's comments. -/
theorem stepLine_comment (s : Converter.PState) (n : Nat) (co : Str)
    (hok : Converter.commentOK co) :
    Converter.stepLine s n co = some { s with
      current := some { Converter.curOf s.current n with
        comments := (Converter.curOf s.current n).comments ++ [co] } } := by
  obtain ⟨hpre, hstrip, hnl, hnc, hncol, hnd, hnt⟩ := hok
  unfold Converter.stepLine
  rw [hstrip]
  have hne : co ≠ [] := by
    intro e
    rw [e] at hpre
    exact Bool.false_ne_true hpre
  rw [if_neg hne, if_pos hpre, if_neg hnc, if_neg hncol, if_neg hnd, if_neg hnt]
  rfl

/-- `_parse_string` on a well-formed quoted literal unescapes the inside. -/
theorem parseString_quoted (E : Str) :
    Converter.parseString ('"' :: (E ++ str "\"")) = Converter.unescapePo E := by
  unfold Converter.parseString
  have hstrip : pyStrip ('"' :: (E ++ str "\"")) = '"' :: (E ++ str "\"") :=
    pyStrip_sandwich '"' '"' E (by decide) (by decide)
  rw [hstrip]
  have hpre : (str "\"").isPrefixOf ('"' :: (E ++ str "\"")) = true := by
    rw [show (str "\"") = ['"'] from rfl, isPrefixOf_single]
    simp
  have hsuf : (str "\"").isSuffixOf ('"' :: (E ++ str "\"")) = true := by
    show (str "\"").reverse.isPrefixOf ('"' :: (E ++ str "\"")).reverse = true
    rw [show (str "\"") = ['"'] from rfl,
      show (('"' : Char) :: (E ++ ['"'])).reverse = '"' :: ('"' :: E).reverse from
        by simp,
      show (['"'] : Str).reverse = ['"'] from rfl, isPrefixOf_single]
    simp
  rw [if_pos (And.intro hpre hsuf)]
  rw [show ('"' :: (E ++ str "\"")).drop 1 = E ++ str "\"" from rfl,
    show (E ++ str "\"") = E ++ ['"'] from rfl,
    show (E ++ ['"']).dropLast = E from by simp]

/-- An extracted-comment line only extends `extracted_comments`. -/
theorem stepLine_ec (s : Converter.PState) (n : Nat) (ec : Str) :
    ∃ z, Converter.stepLine s n (str "#. " ++ ec) = some { s with
      current := some { Converter.curOf s.current n with
        extracted_comments :=
          (Converter.curOf s.current n).extracted_comments ++ [z] } } := by
  refine ⟨pyStrip (pyStripRight (' ' :: ec)), ?_⟩
  unfold Converter.stepLine
  rw [show str "#. " ++ ec = '#' :: '.' :: ' ' :: ec from rfl]
  have hstrip : pyStrip ('#' :: '.' :: ' ' :: ec) =
      '#' :: '.' :: pyStripRight (' ' :: ec) := by
    rw [pyStrip_cons _ _ (by decide), pyStripRight_cons _ _ (by decide)]
  rw [hstrip]
  rw [if_neg (List.cons_ne_nil _ _)]
  rw [if_pos (show (str "#").isPrefixOf
      ('#' :: '.' :: pyStripRight (' ' :: ec)) = true from by
    rw [show (str "#") = ['#'] from rfl, isPrefixOf_single]; simp)]
  rw [if_neg (show ¬((str "#,").isPrefixOf
      ('#' :: '.' :: pyStripRight (' ' :: ec)) = true) from by
    rw [show (str "#,") = ['#', ','] from rfl, isPrefixOf_pair]; simp)]
  rw [if_neg (show ¬((str "#:").isPrefixOf
      ('#' :: '.' :: pyStripRight (' ' :: ec)) = true) from by
    rw [show (str "#:") = ['#', ':'] from rfl, isPrefixOf_pair]; simp)]
  rw [if_pos (show (str "#.").isPrefixOf
      ('#' :: '.' :: pyStripRight (' ' :: ec)) = true from by
    rw [show (str "#.") = ['#', '.'] from rfl, isPrefixOf_pair]; simp)]
  rfl

/-- A location line appends the whitespace words of its tail. -/
theorem stepLine_loc (s : Converter.PState) (n : Nat) (t : Str)
    (ht : pyStripRight t = t) :
    Converter.stepLine s n ('#' :: ':' :: t) = some { s with
      current := some { Converter.curOf s.current n with
        locations :=
          (Converter.curOf s.current n).locations ++ pySplitWs t } } := by
  unfold Converter.stepLine
  have hstrip : pyStrip ('#' :: ':' :: t) = '#' :: ':' :: t := by
    rw [pyStrip_cons _ _ (by decide), pyStripRight_cons _ _ (by decide), ht]
  rw [hstrip]
  rw [if_neg (List.cons_ne_nil _ _)]
  rw [if_pos (show (str "#").isPrefixOf ('#' :: ':' :: t) = true from by
    rw [show (str "#") = ['#'] from rfl, isPrefixOf_single]; simp)]
  rw [if_neg (show ¬((str "#,").isPrefixOf ('#' :: ':' :: t) = true) from by
    rw [show (str "#,") = ['#', ','] from rfl, isPrefixOf_pair]; simp)]
  rw [if_pos (show (str "#:").isPrefixOf ('#' :: ':' :: t) = true from by
    rw [show (str "#:") = ['#', ':'] from rfl, isPrefixOf_pair]; simp)]
  rw [show ('#' :: ':' :: t).drop 2 = t from rfl, pySplitWs_strip t]
  rfl

/-- A flags line replaces the flag list of the current entry. -/
theorem stepLine_flags (s : Converter.PState) (n : Nat) (t : Str)
    (ht : pyStripRight t = t) :
    Converter.stepLine s n ('#' :: ',' :: t) = some { s with
      current := some { Converter.curOf s.current n with
        flags := (pySplitOn (str ",") t).map pyStrip,
        is_fuzzy :=
          if ((pySplitOn (str ",") t).map pyStrip).contains (str "fuzzy") then
            true
          else (Converter.curOf s.current n).is_fuzzy } } := by
  unfold Converter.stepLine
  have hstrip : pyStrip ('#' :: ',' :: t) = '#' :: ',' :: t := by
    rw [pyStrip_cons _ _ (by decide), pyStripRight_cons _ _ (by decide), ht]
  rw [hstrip]
  rw [if_neg (List.cons_ne_nil _ _)]
  rw [if_pos (show (str "#").isPrefixOf ('#' :: ',' :: t) = true from by
    rw [show (str "#") = ['#'] from rfl, isPrefixOf_single]; simp)]
  rw [if_pos (show (str "#,").isPrefixOf ('#' :: ',' :: t) = true from by
    rw [show (str "#,") = ['#', ','] from rfl, isPrefixOf_pair]; simp)]
  rfl

/-- A `msgid` line (with no flush pending) starts/updates the current entry. -/
theorem stepLine_msgid (s : Converter.PState) (n : Nat) (E : Str)
    (hmode : s.mode = none) :
    Converter.stepLine s n (str "msgid \"" ++ (E ++ str "\"")) = some
      { s with
        current := some { Converter.curOf s.current n with
          msgid := Converter.unescapePo E,
          is_header := if Converter.unescapePo E = [] then true
            else (Converter.curOf s.current n).is_header },
        mode := some Converter.PMode.msgid } := by
  unfold Converter.stepLine
  rw [show str "msgid \"" ++ (E ++ str "\"") =
    'm' :: (('s' :: 'g' :: 'i' :: 'd' :: ' ' :: '"' :: E) ++ ['"']) from rfl]
  rw [pyStrip_sandwich 'm' '"' ('s' :: 'g' :: 'i' :: 'd' :: ' ' :: '"' :: E)
    (by decide) (by decide)]
  rw [if_neg (List.cons_ne_nil _ _)]
  rw [if_neg (show ¬((str "#").isPrefixOf
      ('m' :: (('s' :: 'g' :: 'i' :: 'd' :: ' ' :: '"' :: E) ++ ['"'])) = true)
    from by rw [show (str "#") = ['#'] from rfl, isPrefixOf_single]; simp)]
  rw [if_pos (show (str "msgid ").isPrefixOf
      ('m' :: (('s' :: 'g' :: 'i' :: 'd' :: ' ' :: '"' :: E) ++ ['"'])) = true
    from by
      rw [show ('m' :: (('s' :: 'g' :: 'i' :: 'd' :: ' ' :: '"' :: E) ++ ['"'])
          : Str) = str "msgid " ++ ('"' :: (E ++ ['"'])) from rfl]
      exact isPrefixOf_self_append _ _)]
  rw [if_neg (show ¬(s.current.isSome = true ∧ s.mode.isSome = true) from
    fun hand => by rw [hmode] at hand; exact Bool.false_ne_true hand.2)]
  rw [show ('m' :: (('s' :: 'g' :: 'i' :: 'd' :: ' ' :: '"' :: E) ++ ['"'])).drop 6
      = '"' :: (E ++ str "\"") from rfl,
    parseString_quoted E]
  rfl

/-- A `msgstr` line sets the translation of the current entry. -/
theorem stepLine_msgstr (s : Converter.PState) (n : Nat) (E : Str)
    (cur : Converter.PoEntry) (hcur : s.current = some cur) :
    Converter.stepLine s n (str "msgstr \"" ++ (E ++ str "\"")) = some
      { s with
        current := some { cur with msgstr := Converter.unescapePo E },
        mode := some Converter.PMode.msgstr } := by
  unfold Converter.stepLine
  rw [show str "msgstr \"" ++ (E ++ str "\"") =
    'm' :: (('s' :: 'g' :: 's' :: 't' :: 'r' :: ' ' :: '"' :: E) ++ ['"'])
    from rfl]
  rw [pyStrip_sandwich 'm' '"'
    ('s' :: 'g' :: 's' :: 't' :: 'r' :: ' ' :: '"' :: E) (by decide) (by decide)]
  rw [if_neg (List.cons_ne_nil _ _)]
  rw [if_neg (show ¬((str "#").isPrefixOf
      ('m' :: (('s' :: 'g' :: 's' :: 't' :: 'r' :: ' ' :: '"' :: E) ++ ['"']))
        = true)
    from by rw [show (str "#") = ['#'] from rfl, isPrefixOf_single]; simp)]
  rw [if_neg (show ¬((str "msgid ").isPrefixOf
      ('m' :: (('s' :: 'g' :: 's' :: 't' :: 'r' :: ' ' :: '"' :: E) ++ ['"']))
        = true)
    from fun hand => Bool.false_ne_true ((show (str "msgid ").isPrefixOf
      ('m' :: (('s' :: 'g' :: 's' :: 't' :: 'r' :: ' ' :: '"' :: E) ++ ['"']))
        = false from rfl) ▸ hand))]
  rw [if_pos (show (str "msgstr ").isPrefixOf
      ('m' :: (('s' :: 'g' :: 's' :: 't' :: 'r' :: ' ' :: '"' :: E) ++ ['"']))
        = true
    from by
      rw [show ('m' :: (('s' :: 'g' :: 's' :: 't' :: 'r' :: ' ' :: '"' :: E)
          ++ ['"']) : Str) = str "msgstr " ++ ('"' :: (E ++ ['"'])) from rfl]
      exact isPrefixOf_self_append _ _)]
  rw [hcur]
  dsimp only
  rw [show ('m' :: (('s' :: 'g' :: 's' :: 't' :: 'r' :: ' ' :: '"' :: E)
      ++ ['"'])).drop 7 = '"' :: (E ++ str "\"") from rfl,
    parseString_quoted E]

/-- A continuation literal in msgid mode extends the msgid. -/
theorem stepLine_cont_msgid (s : Converter.PState) (n : Nat) (E : Str)
    (cur : Converter.PoEntry) (hcur : s.current = some cur)
    (hmode : s.mode = some Converter.PMode.msgid) :
    Converter.stepLine s n ('"' :: (E ++ str "\"")) = some
      { s with current := some { cur with
          msgid := cur.msgid ++ Converter.unescapePo E,
          is_header := if cur.msgid ++ Converter.unescapePo E = [] then true
            else cur.is_header } } := by
  unfold Converter.stepLine
  have hstrip : pyStrip ('"' :: (E ++ str "\"")) = '"' :: (E ++ str "\"") :=
    pyStrip_sandwich '"' '"' E (by decide) (by decide)
  rw [hstrip]
  rw [if_neg (List.cons_ne_nil _ _)]
  rw [if_neg (show ¬((str "#").isPrefixOf ('"' :: (E ++ str "\"")) = true)
    from by rw [show (str "#") = ['#'] from rfl, isPrefixOf_single]; simp)]
  rw [if_neg (show ¬((str "msgid ").isPrefixOf ('"' :: (E ++ str "\"")) = true)
    from fun hand => Bool.false_ne_true ((show (str "msgid ").isPrefixOf
      ('"' :: (E ++ str "\"")) = false from rfl) ▸ hand))]
  rw [if_neg (show ¬((str "msgstr ").isPrefixOf ('"' :: (E ++ str "\"")) = true)
    from fun hand => Bool.false_ne_true ((show (str "msgstr ").isPrefixOf
      ('"' :: (E ++ str "\"")) = false from rfl) ▸ hand))]
  rw [if_pos (And.intro
    (show (str "\"").isPrefixOf ('"' :: (E ++ str "\"")) = true from by
      rw [show (str "\"") = ['"'] from rfl, isPrefixOf_single]; simp)
    (show s.mode.isSome = true from by rw [hmode]; rfl))]
  rw [hcur, hmode]
  dsimp only
  rw [parseString_quoted E]

/-- A continuation literal in msgstr mode extends the msgstr. -/
theorem stepLine_cont_msgstr (s : Converter.PState) (n : Nat) (E : Str)
    (cur : Converter.PoEntry) (hcur : s.current = some cur)
    (hmode : s.mode = some Converter.PMode.msgstr) :
    Converter.stepLine s n ('"' :: (E ++ str "\"")) = some
      { s with current := some { cur with
          msgstr := cur.msgstr ++ Converter.unescapePo E } } := by
  unfold Converter.stepLine
  have hstrip : pyStrip ('"' :: (E ++ str "\"")) = '"' :: (E ++ str "\"") :=
    pyStrip_sandwich '"' '"' E (by decide) (by decide)
  rw [hstrip]
  rw [if_neg (List.cons_ne_nil _ _)]
  rw [if_neg (show ¬((str "#").isPrefixOf ('"' :: (E ++ str "\"")) = true)
    from by rw [show (str "#") = ['#'] from rfl, isPrefixOf_single]; simp)]
  rw [if_neg (show ¬((str "msgid ").isPrefixOf ('"' :: (E ++ str "\"")) = true)
    from fun hand => Bool.false_ne_true ((show (str "msgid ").isPrefixOf
      ('"' :: (E ++ str "\"")) = false from rfl) ▸ hand))]
  rw [if_neg (show ¬((str "msgstr ").isPrefixOf ('"' :: (E ++ str "\"")) = true)
    from fun hand => Bool.false_ne_true ((show (str "msgstr ").isPrefixOf
      ('"' :: (E ++ str "\"")) = false from rfl) ▸ hand))]
  rw [if_pos (And.intro
    (show (str "\"").isPrefixOf ('"' :: (E ++ str "\"")) = true from by
      rw [show (str "\"") = ['"'] from rfl, isPrefixOf_single]; simp)
    (show s.mode.isSome = true from by rw [hmode]; rfl))]
  rw [hcur, hmode]
  dsimp only
  rw [parseString_quoted E]

/-- Running a list of comment lines accumulates them in order. -/
theorem runLines_comments (cos : List Str) :
    ∀ (cur0 : Option Converter.PoEntry) (E : List Converter.PoEntry)
    (m : Option Converter.PMode) (n : Nat),
    (∀ co ∈ cos, Converter.commentOK co) →
    Converter.runLines ⟨E, cur0, m⟩ n cos = some ⟨E,
      if cos.isEmpty then cur0
      else some { Converter.curOf cur0 n with
        comments := (Converter.curOf cur0 n).comments ++ cos }, m⟩ := by
  induction cos with
  | nil => intro cur0 E m n _; rfl
  | cons co rest ih =>
    intro cur0 E m n hok
    rw [runLines_cons_some _ _ _ _ _ (stepLine_comment ⟨E, cur0, m⟩ n co
      (hok co (List.mem_cons_self co rest)))]
    dsimp only
    rw [ih _ E m (n + 1) (fun z hz => hok z (List.mem_cons_of_mem _ hz))]
    cases rest with
    | nil => rfl
    | cons y ys => simp [Converter.curOf, List.append_assoc]

/-- Running a list of extracted-comment lines only extends
`extracted_comments`. -/
theorem runLines_ecs (ecs : List Str) :
    ∀ (cur0 : Option Converter.PoEntry) (E : List Converter.PoEntry)
    (m : Option Converter.PMode) (n : Nat),
    ∃ zs : List Str,
    Converter.runLines ⟨E, cur0, m⟩ n (ecs.map (fun ec => str "#. " ++ ec)) =
      some ⟨E,
        if ecs.isEmpty then cur0
        else some { Converter.curOf cur0 n with
          extracted_comments :=
            (Converter.curOf cur0 n).extracted_comments ++ zs },
        m⟩ := by
  induction ecs with
  | nil => intro cur0 E m n; exact ⟨[], rfl⟩
  | cons ec rest ih =>
    intro cur0 E m n
    obtain ⟨z, hz⟩ := stepLine_ec ⟨E, cur0, m⟩ n ec
    cases rest with
    | nil =>
      refine ⟨[z], ?_⟩
      rw [List.map_cons, List.map_nil, runLines_cons_some _ _ _ _ _ hz]
      dsimp only
      rfl
    | cons ec2 rest2 =>
      obtain ⟨zs, hzs⟩ := ih (some { Converter.curOf cur0 n with
          extracted_comments :=
            (Converter.curOf cur0 n).extracted_comments ++ [z] }) E m (n + 1)
      refine ⟨z :: zs, ?_⟩
      rw [List.map_cons, runLines_cons_some _ _ _ _ _ hz]
      dsimp only
      rw [hzs]
      simp [Converter.curOf, List.append_assoc]

/-- Running the wrapped location lines appends the locations in order. -/
theorem runLines_wrapLoc (locs : List Str) :
    ∀ (t : Str) (cur0 : Option Converter.PoEntry)
    (E : List Converter.PoEntry) (m : Option Converter.PMode) (n : Nat),
    (∀ l ∈ locs, Converter.locOK l) →
    (t = [] ∨ ∃ m2 d, t = m2 ++ [d] ∧ pyIsSpace d = false) →
    Converter.runLines ⟨E, cur0, m⟩ n
        (Converter.wrapLocGo ('#' :: ':' :: t) locs) =
      some ⟨E, some { Converter.curOf cur0 n with
        locations :=
          (Converter.curOf cur0 n).locations ++ pySplitWs t ++ locs }, m⟩ := by
  induction locs with
  | nil =>
    intro t cur0 E m n _ htinv
    have ht : pyStripRight t = t := by
      rcases htinv with h | ⟨m2, d, hm, hd⟩
      · subst h; rfl
      · subst hm; exact pyStripRight_append_last m2 d hd
    rw [show Converter.wrapLocGo ('#' :: ':' :: t) [] = ['#' :: ':' :: t]
      from rfl]
    rw [runLines_cons_some _ _ _ _ _ (stepLine_loc ⟨E, cur0, m⟩ n t ht)]
    dsimp only
    rw [runLines_nil]
    simp
  | cons loc rest ih =>
    intro t cur0 E m n hl htinv
    have hlocOK := hl loc (List.mem_cons_self loc rest)
    have hlrest : ∀ x ∈ rest, Converter.locOK x :=
      fun x hx => hl x (List.mem_cons_of_mem _ hx)
    have hlocne : loc ≠ [] := hlocOK.1
    have hlocns : ∀ c ∈ loc, pyIsSpace c = false := hlocOK.2
    obtain ⟨m2, d, hm2, hd⟩ :
        ∃ m2 d, loc = m2 ++ [d] ∧ pyIsSpace d = false := by
      rcases List.eq_nil_or_concat loc with h | ⟨m2, d, h⟩
      · exact absurd h hlocne
      · exact ⟨m2, d, by rw [h, List.concat_eq_append],
          hlocns d (by rw [h]; simp)⟩
    have ht : pyStripRight t = t := by
      rcases htinv with h | ⟨m3, d2, hm, hd2⟩
      · subst h; rfl
      · subst hm; exact pyStripRight_append_last m3 d2 hd2
    unfold Converter.wrapLocGo
    split_ifs
    · rw [runLines_cons_some _ _ _ _ _ (stepLine_loc ⟨E, cur0, m⟩ n t ht)]
      dsimp only
      rw [show str "#: " ++ loc = '#' :: ':' :: (' ' :: loc) from rfl]
      rw [ih (' ' :: loc)
        (some { Converter.curOf cur0 n with
          locations := (Converter.curOf cur0 n).locations ++ pySplitWs t })
        E m (n + 1) hlrest
        (Or.inr ⟨' ' :: m2, d, by rw [hm2]; rfl, hd⟩)]
      rw [pySplitWs_space_cons ' ' (by decide) loc,
        pySplitWs_word loc hlocne hlocns]
      simp [Converter.curOf, List.append_assoc]
    · rw [show ('#' :: ':' :: t) ++ ' ' :: loc = '#' :: ':' :: (t ++ ' ' :: loc)
        from rfl]
      rw [ih (t ++ ' ' :: loc) cur0 E m n hlrest
        (Or.inr ⟨t ++ ' ' :: m2, d, by rw [hm2]; simp, hd⟩)]
      rw [pySplitWs_append_word t loc ' ' hlocne hlocns (by decide)]
      simp [List.append_assoc]

/-- Unescaping an escaped piece with a trailing escaped newline. -/
theorem unescape_piece_nl (p : Str) (hp : '\\' ∉ p) :
    Converter.unescapePo (Converter.escape p ++ ['\\', 'n']) = p ++ ['\n'] := by
  rw [show Converter.escape p ++ ['\\', 'n'] =
      Converter.escape (p ++ ['\n']) from by rw [escape_append]; rfl]
  refine unescape_of_escape _ ?_
  intro hmem
  rcases List.mem_append.mp hmem with h | h
  · exact hp h
  · simp at h

/-- Running continuation chunk lines in msgid mode accumulates the pieces
joined by newlines. -/
theorem runLines_chunks_msgid (pieces : List Str) :
    ∀ (cur : Converter.PoEntry) (E : List Converter.PoEntry) (n : Nat),
    pieces ≠ [] →
    (∀ p ∈ pieces, '\\' ∉ p) →
    ∃ b : Bool,
    Converter.runLines ⟨E, some cur, some Converter.PMode.msgid⟩ n
        (Converter.quoteAlt (pieces.map Converter.escape)) =
      some ⟨E, some { cur with
        msgid := cur.msgid ++ List.intercalate ['\n'] pieces,
        is_header := b }, some Converter.PMode.msgid⟩ := by
  induction pieces with
  | nil => intro cur E n h _; exact absurd rfl h
  | cons p rest ih =>
    intro cur E n _ hbs
    cases rest with
    | nil =>
      refine ⟨if cur.msgid ++ p = [] then true else cur.is_header, ?_⟩
      rw [List.map_cons, List.map_nil,
        show Converter.quoteAlt [Converter.escape p] =
          [str "\"" ++ Converter.escape p ++ str "\""] from rfl,
        show str "\"" ++ Converter.escape p ++ str "\"" =
          '"' :: (Converter.escape p ++ str "\"") from rfl,
        runLines_cons_some _ _ _ _ _
          (stepLine_cont_msgid ⟨E, some cur, some Converter.PMode.msgid⟩ n
            (Converter.escape p) cur rfl rfl)]
      dsimp only
      rw [runLines_nil, unescape_of_escape p (hbs p (List.mem_cons_self p [])),
        intercalate_single]
    | cons q rest2 =>
      rw [List.map_cons, List.map_cons,
        show Converter.quoteAlt (Converter.escape p :: Converter.escape q ::
            rest2.map Converter.escape) =
          (str "\"" ++ Converter.escape p ++ str "\\n\"") ::
            Converter.quoteAlt (Converter.escape q :: rest2.map Converter.escape)
          from rfl,
        show str "\"" ++ Converter.escape p ++ str "\\n\"" =
          '"' :: ((Converter.escape p ++ ['\\', 'n']) ++ str "\"") from by
            rw [show (str "\"" : Str) = ['"'] from rfl,
              show (str "\\n\"" : Str) = ['\\', 'n'] ++ ['"'] from rfl]
            simp [List.append_assoc],
        runLines_cons_some _ _ _ _ _
          (stepLine_cont_msgid ⟨E, some cur, some Converter.PMode.msgid⟩ n
            (Converter.escape p ++ ['\\', 'n']) cur rfl rfl)]
      dsimp only
      rw [unescape_piece_nl p (hbs p (List.mem_cons_self p _))]
      obtain ⟨b2, hb2⟩ := ih
        { cur with
          msgid := cur.msgid ++ (p ++ ['\n']),
          is_header := if cur.msgid ++ (p ++ ['\n']) = [] then true
            else cur.is_header }
        E (n + 1) (List.cons_ne_nil q rest2)
        (fun z hz => hbs z (List.mem_cons_of_mem _ hz))
      rw [List.map_cons] at hb2
      rw [hb2]
      refine ⟨b2, ?_⟩
      rw [intercalate_cons₂]
      simp [List.append_assoc]

/-- Running continuation chunk lines in msgstr mode accumulates the pieces
joined by newlines. -/
theorem runLines_chunks_msgstr (pieces : List Str) :
    ∀ (cur : Converter.PoEntry) (E : List Converter.PoEntry) (n : Nat),
    pieces ≠ [] →
    (∀ p ∈ pieces, '\\' ∉ p) →
    Converter.runLines ⟨E, some cur, some Converter.PMode.msgstr⟩ n
        (Converter.quoteAlt (pieces.map Converter.escape)) =
      some ⟨E, some { cur with
        msgstr := cur.msgstr ++ List.intercalate ['\n'] pieces },
        some Converter.PMode.msgstr⟩ := by
  induction pieces with
  | nil => intro cur E n h _; exact absurd rfl h
  | cons p rest ih =>
    intro cur E n _ hbs
    cases rest with
    | nil =>
      rw [List.map_cons, List.map_nil,
        show Converter.quoteAlt [Converter.escape p] =
          [str "\"" ++ Converter.escape p ++ str "\""] from rfl,
        show str "\"" ++ Converter.escape p ++ str "\"" =
          '"' :: (Converter.escape p ++ str "\"") from rfl,
        runLines_cons_some _ _ _ _ _
          (stepLine_cont_msgstr ⟨E, some cur, some Converter.PMode.msgstr⟩ n
            (Converter.escape p) cur rfl rfl)]
      dsimp only
      rw [runLines_nil, unescape_of_escape p (hbs p (List.mem_cons_self p [])),
        intercalate_single]
    | cons q rest2 =>
      rw [List.map_cons, List.map_cons,
        show Converter.quoteAlt (Converter.escape p :: Converter.escape q ::
            rest2.map Converter.escape) =
          (str "\"" ++ Converter.escape p ++ str "\\n\"") ::
            Converter.quoteAlt (Converter.escape q :: rest2.map Converter.escape)
          from rfl,
        show str "\"" ++ Converter.escape p ++ str "\\n\"" =
          '"' :: ((Converter.escape p ++ ['\\', 'n']) ++ str "\"") from by
            rw [show (str "\"" : Str) = ['"'] from rfl,
              show (str "\\n\"" : Str) = ['\\', 'n'] ++ ['"'] from rfl]
            simp [List.append_assoc],
        runLines_cons_some _ _ _ _ _
          (stepLine_cont_msgstr ⟨E, some cur, some Converter.PMode.msgstr⟩ n
            (Converter.escape p ++ ['\\', 'n']) cur rfl rfl)]
      dsimp only
      rw [unescape_piece_nl p (hbs p (List.mem_cons_self p _))]
      have hrec := ih
        { cur with msgstr := cur.msgstr ++ (p ++ ['\n']) }
        E (n + 1) (List.cons_ne_nil q rest2)
        (fun z hz => hbs z (List.mem_cons_of_mem _ hz))
      rw [List.map_cons] at hrec
      rw [hrec, intercalate_cons₂]
      simp [List.append_assoc]

/-- Splitting the comma-joined flag list at commas. -/
theorem splitChar_intercalate_flags (fs : List Str) : ∀ (p : Str), ',' ∉ p →
    (∀ f ∈ fs, ',' ∉ f) →
    splitChar ',' (List.intercalate (str ", ") (p :: fs)) =
      p :: fs.map (fun f => ' ' :: f) := by
  induction fs with
  | nil =>
    intro p hp _
    rw [intercalate_single, splitChar_not_mem ',' p hp]
    rfl
  | cons q qs ih =>
    intro p hp hfs
    rw [intercalate_cons₂]
    rw [show p ++ str ", " ++ List.intercalate (str ", ") (q :: qs) =
      p ++ ',' :: (' ' :: List.intercalate (str ", ") (q :: qs)) from by
        rw [show (str ", ") = [',', ' '] from rfl]
        simp]
    rw [splitChar_append_sep ',' p _ hp]
    rw [splitChar_cons, if_neg (by decide)]
    rw [ih q (hfs q (List.mem_cons_self q qs))
      (fun z hz => hfs z (List.mem_cons_of_mem _ hz))]
    dsimp only
    rw [List.map_cons]

/-- Parsing the serialized flags-line tail recovers the flag list. -/
theorem flags_parse (p : Str) (fs : List Str)
    (hfs : ∀ f ∈ p :: fs, Converter.flagOK f) :
    (pySplitOn (str ",")
        (' ' :: List.intercalate (str ", ") (p :: fs))).map pyStrip =
      p :: fs := by
  rw [show (str ",") = [','] from rfl, pySplitOn_single, splitChar_cons,
    if_neg (by decide)]
  rw [splitChar_intercalate_flags fs p
    (hfs p (List.mem_cons_self p fs)).2.1
    (fun z hz => (hfs z (List.mem_cons_of_mem _ hz)).2.1)]
  dsimp only
  rw [List.map_cons, pyStrip_cons_space ' ' p (by decide),
    pyStrip_of_nonspace p (hfs p (List.mem_cons_self p fs)).2.2]
  congr 1
  rw [List.map_map]
  have hid : ∀ f ∈ fs, (pyStrip ∘ (fun x => ' ' :: x)) f = f := by
    intro f hf
    show pyStrip (' ' :: f) = f
    rw [pyStrip_cons_space ' ' f (by decide),
      pyStrip_of_nonspace f ((hfs f (List.mem_cons_of_mem _ hf)).2.2)]
  rw [List.map_congr_left hid]
  simp

/-- The flags line tail ends in a non-space character. -/
theorem intercalate_flags_ends (fs : List Str) : ∀ (p : Str),
    (∀ f ∈ p :: fs, Converter.flagOK f) →
    ∃ m d, List.intercalate (str ", ") (p :: fs) = m ++ [d] ∧
      pyIsSpace d = false := by
  induction fs with
  | nil =>
    intro p hf
    rcases List.eq_nil_or_concat p with h | ⟨m, d, h⟩
    · exact absurd h (hf p (List.mem_cons_self p [])).1
    · rw [List.concat_eq_append] at h
      exact ⟨m, d, by rw [intercalate_single, h],
        (hf p (List.mem_cons_self p [])).2.2 d (by rw [h]; simp)⟩
  | cons q qs ih =>
    intro p hf
    obtain ⟨m, d, hmd, hd⟩ := ih q (fun z hz => hf z (List.mem_cons_of_mem _ hz))
    refine ⟨p ++ str ", " ++ m, d, ?_, hd⟩
    rw [intercalate_cons₂, hmd]
    simp [List.append_assoc]

/-- Comment segment of a serialized block. -/
theorem seg_comments (cos : List Str) (hcos : ∀ co ∈ cos, Converter.commentOK co)
    (E : List Converter.PoEntry) (n : Nat) (rest : List Str) :
    ∃ cur1, Converter.runLines ⟨E, none, none⟩ n (cos ++ rest) =
      Converter.runLines ⟨E, cur1, none⟩ (n + cos.length) rest ∧
      Converter.FieldsAre cur1 cos [] [] := by
  refine ⟨if cos.isEmpty then none
      else some { Converter.curOf none n with
        comments := (Converter.curOf none n).comments ++ cos }, ?_, ?_⟩
  · rw [runLines_append, runLines_comments cos none E none n hcos]
    simp only [Option.some_bind]
  · intro k
    by_cases h : cos.isEmpty
    · rw [if_pos h]
      exact ⟨rfl, rfl, (List.isEmpty_iff.mp h).symm, rfl, rfl, rfl, rfl⟩
    · rw [if_neg h]
      exact ⟨rfl, rfl, rfl, rfl, rfl, rfl, rfl⟩

/-- Extracted-comment segment of a serialized block. -/
theorem seg_ecs (ecs : List Str) (cur1 : Option Converter.PoEntry)
    (cos locs fls : List Str) (hf : Converter.FieldsAre cur1 cos locs fls)
    (E : List Converter.PoEntry) (n : Nat) (rest : List Str) :
    ∃ cur2, Converter.runLines ⟨E, cur1, none⟩ n
        (ecs.map (fun ec => str "#. " ++ ec) ++ rest) =
      Converter.runLines ⟨E, cur2, none⟩
        (n + (ecs.map (fun ec => str "#. " ++ ec)).length) rest ∧
      Converter.FieldsAre cur2 cos locs fls := by
  obtain ⟨zs, hzs⟩ := runLines_ecs ecs cur1 E none n
  refine ⟨if ecs.isEmpty then cur1
      else some { Converter.curOf cur1 n with
        extracted_comments :=
          (Converter.curOf cur1 n).extracted_comments ++ zs }, ?_, ?_⟩
  · rw [runLines_append, hzs]
    simp only [Option.some_bind]
  · intro k
    by_cases h : ecs.isEmpty
    · rw [if_pos h]
      exact hf k
    · obtain ⟨f1, f2, f3, f4, f5, f6, f7⟩ := hf n
      rw [if_neg h]
      exact ⟨f1, f2, f3, f4, f5, f6, f7⟩

/-- Location segment of a serialized block. -/
theorem seg_locs (locs : List Str) (hlocs : ∀ l ∈ locs, Converter.locOK l)
    (cur2 : Option Converter.PoEntry) (cos fls : List Str)
    (hf : Converter.FieldsAre cur2 cos [] fls)
    (E : List Converter.PoEntry) (n : Nat) (rest : List Str) :
    ∃ cur3, Converter.runLines ⟨E, cur2, none⟩ n
        ((if locs ≠ [] then Converter.wrapLocations locs else []) ++ rest) =
      Converter.runLines ⟨E, cur3, none⟩
        (n + (if locs ≠ [] then Converter.wrapLocations locs else []).length)
        rest ∧
      Converter.FieldsAre cur3 cos locs fls := by
  by_cases hne : locs ≠ []
  · rw [if_pos hne]
    refine ⟨some { Converter.curOf cur2 n with
        locations :=
          (Converter.curOf cur2 n).locations ++ pySplitWs [] ++ locs },
      ?_, ?_⟩
    · rw [show Converter.wrapLocations locs =
          Converter.wrapLocGo ('#' :: ':' :: ([] : Str)) locs from rfl,
        runLines_append,
        runLines_wrapLoc locs [] cur2 E none n hlocs (Or.inl rfl)]
      simp only [Option.some_bind]
    · intro k
      obtain ⟨f1, f2, f3, f4, f5, f6, f7⟩ := hf n
      refine ⟨f1, f2, f3, ?_, f5, f6, f7⟩
      rw [f4]
      rfl
  · have hl0 : locs = [] := not_not.mp hne
    subst hl0
    rw [if_neg hne]
    exact ⟨cur2, by rfl, hf⟩

/-- Flags segment of a serialized block. -/
theorem seg_flags (fls : List Str) (hfls : ∀ f ∈ fls, Converter.flagOK f)
    (cur3 : Option Converter.PoEntry) (cos locs : List Str)
    (hf : Converter.FieldsAre cur3 cos locs [])
    (E : List Converter.PoEntry) (n : Nat) (rest : List Str) :
    ∃ cur4, Converter.runLines ⟨E, cur3, none⟩ n
        ((if fls ≠ [] then
            [str "#, " ++ List.intercalate (str ", ") fls] else []) ++ rest) =
      Converter.runLines ⟨E, cur4, none⟩
        (n + (if fls ≠ [] then
            [str "#, " ++ List.intercalate (str ", ") fls] else []).length)
        rest ∧
      Converter.FieldsAre cur4 cos locs fls := by
  by_cases hne : fls ≠ []
  · rw [if_pos hne]
    obtain ⟨p, fs2, hpfs⟩ := List.exists_cons_of_ne_nil hne
    subst hpfs
    obtain ⟨m, d, hmd, hd⟩ := intercalate_flags_ends fs2 p hfls
    have ht : pyStripRight (' ' :: List.intercalate (str ", ") (p :: fs2)) =
        ' ' :: List.intercalate (str ", ") (p :: fs2) := by
      rw [hmd]
      exact pyStripRight_append_last (' ' :: m) d hd
    refine ⟨some { Converter.curOf cur3 n with
        flags := (pySplitOn (str ",")
          (' ' :: List.intercalate (str ", ") (p :: fs2))).map pyStrip,
        is_fuzzy :=
          if ((pySplitOn (str ",")
              (' ' :: List.intercalate (str ", ") (p :: fs2))).map
                pyStrip).contains (str "fuzzy") then true
          else (Converter.curOf cur3 n).is_fuzzy }, ?_, ?_⟩
    · rw [show ([str "#, " ++ List.intercalate (str ", ") (p :: fs2)] ++ rest :
          List Str) =
        ('#' :: ',' :: (' ' :: List.intercalate (str ", ") (p :: fs2))) :: rest
        from rfl]
      rw [runLines_cons_some _ _ _ _ _ (stepLine_flags ⟨E, cur3, none⟩ n _ ht)]
      rfl
    · intro k
      obtain ⟨f1, f2, f3, f4, f5, f6, f7⟩ := hf n
      refine ⟨f1, f2, f3, f4, ?_, f6, f7⟩
      rw [flags_parse p fs2 hfls]
      rfl
  · have hl0 : fls = [] := not_not.mp hne
    subst hl0
    rw [if_neg hne]
    exact ⟨cur3, by rfl, hf⟩

/-- The msgid lines of a serialized block set the msgid of the open entry
and leave the scanner in msgid mode. -/
theorem seg_msgid (v : Str) (hv : Converter.strOK v)
    (cur4 : Option Converter.PoEntry) (cos locs fls : List Str)
    (hf : Converter.FieldsAre cur4 cos locs fls)
    (E : List Converter.PoEntry) (n : Nat) (rest : List Str) :
    ∃ (cur5 : Converter.PoEntry) (n2 : Nat),
    Converter.runLines ⟨E, cur4, none⟩ n
        ((if v.contains '\n' then
            str "msgid \"\"" :: Converter.quoteChunks (Converter.escape v)
          else [str "msgid \"" ++ (Converter.escape v ++ str "\"")]) ++
          rest) =
      Converter.runLines ⟨E, some cur5, some Converter.PMode.msgid⟩ n2 rest ∧
    cur5.msgid = v ∧ cur5.msgstr = [] ∧ cur5.comments = cos ∧
    cur5.locations = locs ∧ cur5.flags = fls ∧ cur5.is_obsolete = false ∧
    (cur5.is_header = true ∨ cur5.msgid ≠ []) := by
  obtain ⟨f1, f2, f3, f4, f5, f6, f7⟩ := hf n
  by_cases hcont : v.contains '\n'
  · have hvne : v ≠ [] := by
      intro h0
      rw [h0] at hcont
      exact absurd hcont (by decide)
    rw [if_pos hcont, List.cons_append,
      show (str "msgid \"\"" : Str) = str "msgid \"" ++ ([] ++ str "\"")
        from rfl,
      runLines_cons_some _ _ _ _ _ (stepLine_msgid ⟨E, cur4, none⟩ n [] rfl),
      show Converter.unescapePo ([] : Str) = [] from rfl, if_pos rfl]
    dsimp only
    rw [quoteChunks_eq_quoteAlt, pySplitOn_escape v hv.1, runLines_append]
    obtain ⟨b, hb⟩ := runLines_chunks_msgid (splitChar '\n' v)
      { Converter.curOf cur4 n with msgid := [], is_header := true }
      E (n + 1) (splitChar_ne_nil '\n' v)
      (fun p hp => (strOK_piece v p hv hp).1.1)
    rw [hb]
    simp only [Option.some_bind]
    refine ⟨_, _, rfl, ?_, f2, f3, f4, f5, f6, ?_⟩
    · show ({ Converter.curOf cur4 n with
        msgid := [], is_header := true } : Converter.PoEntry).msgid ++
          List.intercalate ['\n'] (splitChar '\n' v) = v
      rw [show ({ Converter.curOf cur4 n with
        msgid := [], is_header := true } : Converter.PoEntry).msgid = []
        from rfl, List.nil_append]
      exact intercalate_splitChar '\n' v
    · right
      show ({ Converter.curOf cur4 n with
        msgid := [], is_header := true } : Converter.PoEntry).msgid ++
          List.intercalate ['\n'] (splitChar '\n' v) ≠ []
      rw [show ({ Converter.curOf cur4 n with
        msgid := [], is_header := true } : Converter.PoEntry).msgid = []
        from rfl, List.nil_append, intercalate_splitChar '\n' v]
      exact hvne
  · rw [if_neg hcont,
      show ([str "msgid \"" ++ (Converter.escape v ++ str "\"")] ++ rest :
        List Str) =
        (str "msgid \"" ++ (Converter.escape v ++ str "\"")) :: rest
        from rfl,
      runLines_cons_some _ _ _ _ _
        (stepLine_msgid ⟨E, cur4, none⟩ n (Converter.escape v) rfl),
      unescape_of_escape v hv.1]
    refine ⟨_, _, rfl, rfl, f2, f3, f4, f5, f6, ?_⟩
    by_cases hv0 : v = []
    · left
      show (if v = [] then true else (Converter.curOf cur4 n).is_header) = true
      rw [if_pos hv0]
    · right
      exact hv0

/-- The msgstr lines of a serialized block set the msgstr of the open entry
and leave the scanner in msgstr mode, touching nothing else. -/
theorem seg_msgstr (v : Str) (hv : Converter.strOK v)
    (cur5 : Converter.PoEntry) (E : List Converter.PoEntry) (n : Nat)
    (rest : List Str) :
    ∃ (ef : Converter.PoEntry) (n2 : Nat),
    Converter.runLines ⟨E, some cur5, some Converter.PMode.msgid⟩ n
        ((if v ≠ [] ∧ v.contains '\n' then
            str "msgstr \"\"" :: Converter.quoteChunks (Converter.escape v)
          else [str "msgstr \"" ++ (Converter.escape v ++ str "\"")]) ++
          rest) =
      Converter.runLines ⟨E, some ef, some Converter.PMode.msgstr⟩ n2 rest ∧
    ef.msgid = cur5.msgid ∧ ef.msgstr = v ∧ ef.comments = cur5.comments ∧
    ef.locations = cur5.locations ∧ ef.flags = cur5.flags ∧
    ef.is_obsolete = cur5.is_obsolete ∧ ef.is_header = cur5.is_header := by
  by_cases hcont : v ≠ [] ∧ v.contains '\n'
  · rw [if_pos hcont, List.cons_append,
      show (str "msgstr \"\"" : Str) = str "msgstr \"" ++ ([] ++ str "\"")
        from rfl,
      runLines_cons_some _ _ _ _ _
        (stepLine_msgstr ⟨E, some cur5, some Converter.PMode.msgid⟩ n [] cur5
          rfl),
      show Converter.unescapePo ([] : Str) = [] from rfl]
    dsimp only
    rw [quoteChunks_eq_quoteAlt, pySplitOn_escape v hv.1, runLines_append]
    rw [runLines_chunks_msgstr (splitChar '\n' v)
      { cur5 with msgstr := [] }
      E (n + 1) (splitChar_ne_nil '\n' v)
      (fun p hp => (strOK_piece v p hv hp).1.1)]
    simp only [Option.some_bind]
    refine ⟨_, _, rfl, rfl, ?_, rfl, rfl, rfl, rfl, rfl⟩
    show ({ cur5 with msgstr := [] } : Converter.PoEntry).msgstr ++
      List.intercalate ['\n'] (splitChar '\n' v) = v
    rw [show ({ cur5 with msgstr := [] } : Converter.PoEntry).msgstr = []
      from rfl, List.nil_append]
    exact intercalate_splitChar '\n' v
  · rw [if_neg hcont,
      show ([str "msgstr \"" ++ (Converter.escape v ++ str "\"")] ++ rest :
        List Str) =
        (str "msgstr \"" ++ (Converter.escape v ++ str "\"")) :: rest
        from rfl,
      runLines_cons_some _ _ _ _ _
        (stepLine_msgstr ⟨E, some cur5, some Converter.PMode.msgid⟩ n
          (Converter.escape v) cur5 rfl),
      unescape_of_escape v hv.1]
    exact ⟨_, _, rfl, rfl, rfl, rfl, rfl, rfl, rfl, rfl⟩

/-- Scanning one serialized entry block from a clean state builds exactly
one open entry whose tuple matches the source entry. -/
theorem runLines_block (e : Converter.PoEntry) (he : Converter.WellFormed e)
    (E : List Converter.PoEntry) (n : Nat) (rest : List Str) :
    ∃ (ef : Converter.PoEntry) (n2 : Nat),
    Converter.runLines ⟨E, none, none⟩ n
        (Converter.serialize_entry e ++ rest) =
      Converter.runLines ⟨E, some ef, some Converter.PMode.msgstr⟩ n2 rest ∧
    Converter.tupleOf ef = Converter.tupleOf e ∧
    (ef.is_header = true ∨ ef.msgid ≠ []) := by
  obtain ⟨hobs, hid, hstr, hcom, hec, hloc, hflag⟩ := he
  have hAeq : e.comments.filter (fun c => !(str "#~").isPrefixOf c) =
      e.comments := by
    rw [List.filter_eq_self]
    intro co hco
    simp [Bool.eq_false_iff.mpr ((hcom co hco).2.2.2.2.2.2)]
  unfold Converter.serialize_entry
  dsimp only
  rw [hAeq, escape_empty_guard e.msgstr]
  simp only [List.append_assoc]
  obtain ⟨cur1, h1, hf1⟩ := seg_comments e.comments hcom E n _
  rw [h1]
  obtain ⟨cur2, h2, hf2⟩ :=
    seg_ecs e.extracted_comments cur1 e.comments [] [] hf1 E _ _
  rw [h2]
  obtain ⟨cur3, h3, hf3⟩ :=
    seg_locs e.locations hloc cur2 e.comments [] hf2 E _ _
  rw [h3]
  obtain ⟨cur4, h4, hf4⟩ :=
    seg_flags e.flags hflag cur3 e.comments e.locations hf3 E _ _
  rw [h4]
  obtain ⟨cur5, n5, h5, g1, g2, g3, g4, g5, g6, g7⟩ :=
    seg_msgid e.msgid hid cur4 e.comments e.locations e.flags hf4 E _ _
  rw [h5]
  obtain ⟨ef, n2, h6, k1, k2, k3, k4, k5, k6, k7⟩ :=
    seg_msgstr e.msgstr hstr cur5 E _ _
  rw [h6]
  refine ⟨ef, n2, rfl, ?_, ?_⟩
  · unfold Converter.tupleOf
    rw [k1, g1, k2, k3, g3, k4, g4, k5, g5, k6, g6, hobs]
  · rcases g7 with h | h
    · left
      rw [k7, h]
    · right
      rw [k1]
      exact h

/-- Scanning all serialized blocks joined by blank lines accumulates, after
the final flush, one parsed entry per source entry with matching tuples. -/
theorem runLines_catalog (es : List Converter.PoEntry) :
    ∀ (E : List Converter.PoEntry) (n : Nat),
    (∀ e ∈ es, Converter.WellFormed e) →
    ∃ (F : Converter.PState) (ps : List Converter.PoEntry),
    Converter.runLines ⟨E, none, none⟩ n
        (List.intercalate [([] : Str)] (es.map Converter.serialize_entry)) =
      some F ∧
    (Converter.flush F).entries = E ++ ps ∧
    ps.map Converter.tupleOf = es.map Converter.tupleOf := by
  induction es with
  | nil =>
    intro E n _
    refine ⟨⟨E, none, none⟩, [], rfl, ?_, rfl⟩
    rw [show Converter.flush ⟨E, none, none⟩ = ⟨E, none, none⟩ from rfl,
      List.append_nil]
  | cons e rest ih =>
    intro E n hwf
    have hwe := hwf e (List.mem_cons_self e rest)
    have hwr : ∀ x ∈ rest, Converter.WellFormed x :=
      fun x hx => hwf x (List.mem_cons_of_mem _ hx)
    cases rest with
    | nil =>
      rw [List.map_cons, List.map_nil, intercalate_single]
      obtain ⟨ef, n2, hrun, htup, hkeep⟩ := runLines_block e hwe E n []
      rw [(List.append_nil (Converter.serialize_entry e)).symm, hrun,
        runLines_nil]
      refine ⟨_, [ef], rfl, ?_, ?_⟩
      · show (Converter.flush
          ⟨E, some ef, some Converter.PMode.msgstr⟩).entries = E ++ [ef]
        unfold Converter.flush
        dsimp only
        rw [if_pos hkeep]
      · simp only [List.map_cons, List.map_nil]
        rw [htup]
    | cons e2 rest2 =>
      rw [List.map_cons, List.map_cons, intercalate_cons₂]
      simp only [List.append_assoc]
      rw [show ([([] : Str)] : List Str) ++
          List.intercalate [([] : Str)]
            (Converter.serialize_entry e2 :: rest2.map Converter.serialize_entry)
          = [] :: List.intercalate [([] : Str)]
            (Converter.serialize_entry e2 :: rest2.map Converter.serialize_entry)
          from rfl]
      obtain ⟨ef, n2, hrun, htup, hkeep⟩ := runLines_block e hwe E n
        ([] :: List.intercalate [([] : Str)]
          (Converter.serialize_entry e2 :: rest2.map Converter.serialize_entry))
      rw [hrun,
        runLines_cons_some _ _ _ _ _
          (stepLine_blank ⟨E, some ef, some Converter.PMode.msgstr⟩ n2)]
      have hfl : Converter.flush ⟨E, some ef, some Converter.PMode.msgstr⟩ =
          ⟨E ++ [ef], none, none⟩ := by
        unfold Converter.flush
        dsimp only
        rw [if_pos hkeep]
      rw [hfl]
      obtain ⟨F, ps, hF, hentries, htups⟩ := ih (E ++ [ef]) (n2 + 1) hwr
      rw [List.map_cons] at hF
      rw [hF]
      refine ⟨F, ef :: ps, rfl, ?_, ?_⟩
      · rw [hentries]
        simp [List.append_assoc]
      · simp [htup, htups]

/-- The literal C2 claim fails: an obsolete entry does not survive the
round trip — its `#~` comment is filtered out by the serializer and the
parsed entry is neither obsolete nor carries the comment. -/
theorem C2_counterexample :
    Converter.parse (Converter.serialize [Ex.obsMarked]) =
      some [({ msgid := str "x", msgstr := str "y", line_start := 1 } :
        Converter.PoEntry)] ∧
    Converter.tupleOf
        ({ msgid := str "x", msgstr := str "y", line_start := 1 } :
          Converter.PoEntry) ≠
      Converter.tupleOf Ex.obsMarked :=
  ⟨by decide, by decide⟩

/-- C2 (amended): for every catalog of well-formed live entries — not
obsolete, msgid/msgstr free of backslashes and with line feeds as their
only line breaks, comments that are stripped single-line `#` comments in
non-directive form, single-line extracted comments, non-empty
whitespace-free locations, and non-empty comma-free whitespace-free flags —
parsing the serialized text yields a catalog with exactly the same ordered
`(msgid, msgstr, flags, locations, comments, is_obsolete)` tuples,
header entries included. -/
theorem C2_roundtrip (es : List Converter.PoEntry)
    (h : ∀ e ∈ es, Converter.WellFormed e) :
    ∃ ps, Converter.parse (Converter.serialize es) = some ps ∧
      ps.map Converter.tupleOf = es.map Converter.tupleOf := by
  cases es with
  | nil => exact ⟨[], rfl, rfl⟩
  | cons e0 es2 =>
    unfold Converter.parse Converter.parseLines
    rw [pySplitlines_serialize (e0 :: es2) (List.cons_ne_nil _ _) h]
    obtain ⟨F, ps, hF, hentries, htups⟩ := runLines_catalog (e0 :: es2) [] 1 h
    rw [hF, Option.map_some']
    refine ⟨(Converter.flush F).entries, rfl, ?_⟩
    rw [hentries, List.nil_append, htups]

/-- Witness for C2: a concrete catalog — a header plus a rich entry with a
multiline msgid, a comment, an extracted comment, two locations and a
flag — is well-formed, and the round trip reproduces its tuples. -/
theorem C2_roundtrip_witness :
    (∀ e ∈ [Ex.rtHdr, Ex.rtEntry], Converter.WellFormed e) ∧
    (∃ ps, Converter.parse (Converter.serialize [Ex.rtHdr, Ex.rtEntry]) =
        some ps ∧
      ps.map Converter.tupleOf = [Ex.rtHdr, Ex.rtEntry].map Converter.tupleOf) :=
  ⟨by decide, C2_roundtrip [Ex.rtHdr, Ex.rtEntry] (by decide)⟩
